import Mathlib

/-!
# Hierarchical refinement (`dolfin/adaptivity/adapt.cpp`)

A shallow embedding of the refinement entry points of `adapt.cpp`:
the objects live in per-kind arenas and are referred to by their index
(the counterpart of a `boost::shared_ptr`), every entry point is a function
from a state to an outcome and a state, and a fatal `error(...)` is an
outcome that keeps the state reached when it was raised.
-/

namespace Dolfin

/-! ## Machine integers -/

/-- Number of values of `dolfin::uint` (`unsigned int`, 32 bits). -/
def UINT_SIZE : Nat := 2 ^ 32

/-- Unsigned addition `a + b` on `dolfin::uint`. -/
def uint_add (a b : Nat) : Nat := (a + b) % UINT_SIZE

/-- Unsigned subtraction `a - b` on `dolfin::uint`, for `a b < 2 ^ 32`. -/
def uint_sub (a b : Nat) : Nat := (a + UINT_SIZE - b) % UINT_SIZE

/-! ## Outcomes -/

/-- The ways an entry point can stop without returning. The first three are
the fatal errors raised in `adapt.cpp` itself; `library` stands for a failure
inside a collaborator (an object that does not exist, an index outside an
array, an entity that is not incident to another). -/
inductive Failure where
  | not_implemented
  | missing_parent_info
  | bcs_not_dirichlet
  | library
  deriving DecidableEq, Repr

/-! ## Mesh -/

/-- The part of `Mesh` that `adapt.cpp` reads. `num_entities d` is
`mesh.num_entities(d)`, `facet_entities D f` is `facet->entities(D)` for the
facet of index `f`, `cell_facets c` lists the facets of cell `c` in local
order, and `parent_cell`, `parent_facet` are the two named mesh functions of
`mesh.data()`, absent when `data().mesh_function(name)` is a null pointer. -/
structure Mesh where
  dim : Nat
  num_entities : Nat → Nat
  facet_entities : Nat → Nat → List Nat
  cell_facets : Nat → List Nat
  parent_cell : Option (List Nat)
  parent_facet : Option (List Nat)

/-- Number of facets, the range of `FacetIterator`: the entities of dimension
`topology().dim() - 1`. -/
def Mesh.num_facets (m : Mesh) : Nat := m.num_entities (uint_sub m.dim 1)

/-- Modelled from the spec: `MeshEntity::index(entity)` for a cell and a
facet is missing from the sources; it is "the local facet index" of the facet
"with respect to" the cell, the position of the facet among the facets of the
cell, and there is none when the facet is not a facet of the cell. -/
def Mesh.local_index (m : Mesh) (cell facet : Nat) : Option Nat :=
  if facet ∈ m.cell_facets cell then some ((m.cell_facets cell).indexOf facet) else none

/-- A result of a collaborator that must exist. -/
def required {α : Type} : Option α → Except Failure α
  | some a => .ok a
  | none => .error .library

/-! ## Marker remapper (`adapt_markers`, lines 449-516) -/

/-- The table `std::map<pair, vector<pair>> children`; a key without an entry
reads as the empty vector, which is what `children[key]` returns for it. -/
abbrev ChildTable := Nat × Nat → List (Nat × Nat)

/-- The statement `children[parent].push_back(child)`. -/
def ChildTable.push_back (children : ChildTable) (parent child : Nat × Nat) : ChildTable :=
  fun key => if key = parent then children key ++ [child] else children key

/-- Body of the loop over the facets of the refined mesh (lines 475-501). -/
def facet_step (refined_mesh mesh : Mesh) (parent_cells parent_facets : List Nat)
    (children : ChildTable) (facet : Nat) : Except Failure ChildTable :=
  let D := mesh.dim
  if (refined_mesh.facet_entities D facet).length = 2 then
    .ok children
  else
    match required (refined_mesh.facet_entities D facet).head? with
    | .error e => .error e
    | .ok cell =>
      match required (refined_mesh.local_index cell facet) with
      | .error e => .error e
      | .ok local_facet =>
        match required parent_cells[cell]? with
        | .error e => .error e
        | .ok parent_cell =>
          match required parent_facets[facet]? with
          | .error e => .error e
          | .ok parent_facet_index =>
            match required (mesh.local_index parent_cell parent_facet_index) with
            | .error e => .error e
            | .ok parent_local_facet =>
              .ok (children.push_back (parent_cell, parent_local_facet) (cell, local_facet))

/-- The loop over the facets of the refined mesh (lines 473-503). -/
def build_children (refined_mesh mesh : Mesh) (parent_cells parent_facets : List Nat) :
    List Nat → ChildTable → Except Failure ChildTable
  | [], children => .ok children
  | facet :: rest, children =>
    match facet_step refined_mesh mesh parent_cells parent_facets children facet with
    | .error e => .error e
    | .ok children1 => build_children refined_mesh mesh parent_cells parent_facets rest children1

/-- The loop over the coarse markers (lines 508-515). -/
def expand_markers (children : ChildTable) :
    List (Nat × Nat) → List (Nat × Nat) → List (Nat × Nat)
  | [], refined_markers => refined_markers
  | it :: rest, refined_markers => expand_markers children rest (refined_markers ++ children it)

/-- The function `adapt_markers(refined_markers, refined_mesh, markers, mesh)`.
The second component is the content of the output parameter `refined_markers`
when the call ends, also when it ends in an error. -/
def adapt_markers (refined_markers : List (Nat × Nat)) (refined_mesh : Mesh)
    (markers : List (Nat × Nat)) (mesh : Mesh) : Except Failure Unit × List (Nat × Nat) :=
  match refined_mesh.parent_cell, refined_mesh.parent_facet with
  | some parent_cells, some parent_facets =>
    match build_children refined_mesh mesh parent_cells parent_facets
        (List.range refined_mesh.num_facets) (fun _ => []) with
    | .error e => (.error e, refined_markers)
    | .ok children => (.ok (), expand_markers children markers refined_markers)
  | _, _ => (.error .missing_parent_info, refined_markers)

/-! ## Mesh-function refiner: the two loops (lines 420-440) -/

/-- The loop computing `max_value` (lines 423-426). -/
def max_value_loop : List Nat → Nat → Nat
  | [], max_value => max_value
  | v :: rest, max_value => max_value_loop rest (if v > max_value then v else max_value)

/-- The value `undefined = max_value + 1` (line 427), an `unsigned int`. -/
def undefined_value (mesh_function : List Nat) : Nat :=
  uint_add (max_value_loop mesh_function 0) 1

/-- The loop filling the refined mesh function (lines 433-440), over the
indices `0 .. size - 1` of the refined mesh function. -/
def map_values (mesh_function parent : List Nat) (undefined : Nat) :
    List Nat → Except Failure (List Nat)
  | [] => .ok []
  | i :: rest =>
    match required parent[i]? with
    | .error e => .error e
    | .ok parent_index =>
      match map_values mesh_function parent undefined rest with
      | .error e => .error e
      | .ok values =>
        .ok ((if h : parent_index < mesh_function.length then mesh_function[parent_index]
              else undefined) :: values)

/-! ## Data model -/

/-- The base class `Hierarchical<T>` together with the object itself: the
owning link to the child and the back-reference to the parent, both indices
into the arena of the kind. -/
structure Hierarchical (α : Type) where
  val : α
  child : Option Nat
  parent : Option Nat

/-- A `FunctionSpace`: mesh, element, dofmap and component path. -/
structure FunctionSpace where
  mesh : Nat
  element : Nat
  dofmap : Nat
  component : List Nat
  deriving DecidableEq, Repr

/-- A `Function`: its function space and its coefficient data. -/
structure Function where
  function_space : Nat
  vector : Nat
  deriving DecidableEq, Repr

/-- A `shared_ptr<const GenericFunction>`: the constructor tells whether
`dynamic_cast<const Function*>` succeeds on the object pointed to. -/
inductive GenericFunction where
  | function (id : Nat)
  | other (id : Nat)
  deriving DecidableEq, Repr

/-- A `MeshFunction<uint>`: its mesh, its dimension and its values. -/
structure MeshFunction where
  mesh : Nat
  dim : Nat
  values : List Nat
  deriving DecidableEq, Repr

/-- A `Form`. -/
structure Form where
  ufc_form : Nat
  function_spaces : List Nat
  coefficients : List GenericFunction
  mesh : Option Nat
  cell_domains : Option Nat
  exterior_facet_domains : Option Nat
  interior_facet_domains : Option Nat
  deriving DecidableEq, Repr

/-- A `shared_ptr<const BoundaryCondition>`: the constructor tells whether
`dynamic_cast<const DirichletBC*>` succeeds on the object pointed to. -/
inductive BoundaryCondition where
  | dirichlet (id : Nat)
  | other (id : Nat)
  deriving DecidableEq, Repr

/-- A `DirichletBC`: function space, value and markers. -/
structure DirichletBC where
  function_space : Nat
  value : GenericFunction
  markers : List (Nat × Nat)
  deriving DecidableEq, Repr

/-- A `VariationalProblem`; `trial_space` is what `trial_space()` returns. -/
structure VariationalProblem where
  form_0 : Nat
  form_1 : Nat
  bcs : List BoundaryCondition
  trial_space : Nat
  deriving DecidableEq, Repr

/-- An `ErrorControl`: its eight forms and the linearity flag. -/
structure ErrorControl where
  a_star : Nat
  L_star : Nat
  residual : Nat
  a_R_T : Nat
  L_R_T : Nat
  a_R_dT : Nat
  L_R_dT : Nat
  eta_T : Nat
  is_linear : Bool
  deriving DecidableEq, Repr

/-- The collaborators that `adapt.cpp` calls and that are outside it. -/
structure External where
  refine_uniform : Mesh → Mesh
  refine_local : Mesh → List Bool → Mesh
  create : Nat → Nat
  copy : Nat → Mesh → Nat
  interpolate : Function → FunctionSpace → Nat
  extract_sub_element : Nat → List Nat → Nat
  extract_sub_dofmap : Nat → List Nat → Nat
  trial_space : Form → Form → Nat

/-- Modelled from the spec: the constructor `SubSpace(V, component)` is
missing from the sources; it "re-derives the sub-space from the refined
parent using the same component path": a space on the mesh of `V` whose
component path is `component`. -/
def SubSpace (ext : External) (V : FunctionSpace) (component : List Nat) : FunctionSpace :=
  { mesh := V.mesh
    element := ext.extract_sub_element V.element component
    dofmap := ext.extract_sub_dofmap V.dofmap component
    component := component }

/-- All the objects there are, one arena per kind. -/
structure State where
  meshes : List (Hierarchical Mesh)
  spaces : List (Hierarchical FunctionSpace)
  functions : List (Hierarchical Function)
  forms : List (Hierarchical Form)
  bcs : List (Hierarchical DirichletBC)
  problems : List (Hierarchical VariationalProblem)
  ecs : List (Hierarchical ErrorControl)
  mesh_functions : List (Hierarchical MeshFunction)

/-! ## Parent/child link (lines 38-48) -/

/-- The template `set_parent_child(parent, child)` on the arena of a kind:
the new object `child` enters the arena, the parent gets it as its child
(whatever child it had) and the new object gets the parent as its parent.
Returns the arena and the index of the new object. -/
def set_parent_child {α : Type} (arena : List (Hierarchical α)) (parent : Nat) (child : α) :
    List (Hierarchical α) × Nat :=
  match arena[parent]? with
  | some p =>
    (arena.set parent { p with child := some arena.length }
      ++ [{ val := child, child := none, parent := some parent }], arena.length)
  | none => (arena ++ [{ val := child, child := none, parent := some parent }], arena.length)

/-! ## Entry points as state transformers -/

/-- An entry point: from a state to an outcome and the state it leaves. -/
def Adapt (α : Type) : Type := State → Except Failure α × State

/-- Sequencing: a fatal error stops the rest and keeps the state. -/
def Adapt.bind {α β : Type} (m : Adapt α) (f : α → Adapt β) : Adapt β := fun s =>
  match m s with
  | (.ok a, s1) => f a s1
  | (.error e, s1) => (.error e, s1)

instance : Monad Adapt where
  pure a := fun s => (.ok a, s)
  bind := Adapt.bind

/-- The call `error(...)`. -/
def fail {α : Type} (e : Failure) : Adapt α := fun s => (.error e, s)

/-- A result of a collaborator, in a state it does not change. -/
def lift {α : Type} (r : Except Failure α) : Adapt α := fun s => (r, s)

/-- Dereference a mesh. -/
def get_mesh (id : Nat) : Adapt (Hierarchical Mesh) := fun s => (required s.meshes[id]?, s)

/-- Dereference a function space. -/
def get_space (id : Nat) : Adapt (Hierarchical FunctionSpace) :=
  fun s => (required s.spaces[id]?, s)

/-- Dereference a function. -/
def get_function (id : Nat) : Adapt (Hierarchical Function) :=
  fun s => (required s.functions[id]?, s)

/-- Dereference a form. -/
def get_form (id : Nat) : Adapt (Hierarchical Form) := fun s => (required s.forms[id]?, s)

/-- Dereference a Dirichlet boundary condition. -/
def get_bc (id : Nat) : Adapt (Hierarchical DirichletBC) := fun s => (required s.bcs[id]?, s)

/-- Dereference a variational problem. -/
def get_problem (id : Nat) : Adapt (Hierarchical VariationalProblem) :=
  fun s => (required s.problems[id]?, s)

/-- Dereference an error control object. -/
def get_ec (id : Nat) : Adapt (Hierarchical ErrorControl) := fun s => (required s.ecs[id]?, s)

/-- Dereference a mesh function. -/
def get_mesh_function (id : Nat) : Adapt (Hierarchical MeshFunction) :=
  fun s => (required s.mesh_functions[id]?, s)

/-- The call `set_parent_child(mesh, refined_mesh)`. -/
def set_parent_child_mesh (parent : Nat) (child : Mesh) : Adapt Nat := fun s =>
  (.ok (set_parent_child s.meshes parent child).2,
    { s with meshes := (set_parent_child s.meshes parent child).1 })

/-- The call `set_parent_child(space, refined_space)`. -/
def set_parent_child_space (parent : Nat) (child : FunctionSpace) : Adapt Nat := fun s =>
  (.ok (set_parent_child s.spaces parent child).2,
    { s with spaces := (set_parent_child s.spaces parent child).1 })

/-- The call `set_parent_child(function, refined_function)`. -/
def set_parent_child_function (parent : Nat) (child : Function) : Adapt Nat := fun s =>
  (.ok (set_parent_child s.functions parent child).2,
    { s with functions := (set_parent_child s.functions parent child).1 })

/-- The call `set_parent_child(form, refined_form)`. -/
def set_parent_child_form (parent : Nat) (child : Form) : Adapt Nat := fun s =>
  (.ok (set_parent_child s.forms parent child).2,
    { s with forms := (set_parent_child s.forms parent child).1 })

/-- The call `set_parent_child(bc, refined_bc)`. -/
def set_parent_child_bc (parent : Nat) (child : DirichletBC) : Adapt Nat := fun s =>
  (.ok (set_parent_child s.bcs parent child).2,
    { s with bcs := (set_parent_child s.bcs parent child).1 })

/-- The call `set_parent_child(problem, refined_problem)`. -/
def set_parent_child_problem (parent : Nat) (child : VariationalProblem) : Adapt Nat := fun s =>
  (.ok (set_parent_child s.problems parent child).2,
    { s with problems := (set_parent_child s.problems parent child).1 })

/-- The call `set_parent_child(ec, refined_ec)`. -/
def set_parent_child_ec (parent : Nat) (child : ErrorControl) : Adapt Nat := fun s =>
  (.ok (set_parent_child s.ecs parent child).2,
    { s with ecs := (set_parent_child s.ecs parent child).1 })

/-- The call `set_parent_child(mesh_function, refined_mesh_function)`. -/
def set_parent_child_mesh_function (parent : Nat) (child : MeshFunction) : Adapt Nat := fun s =>
  (.ok (set_parent_child s.mesh_functions parent child).2,
    { s with mesh_functions := (set_parent_child s.mesh_functions parent child).1 })

/-- The expression `new SubSpace(...)`: a new function space without parent. -/
def new_space (V : FunctionSpace) : Adapt Nat := fun s =>
  (.ok s.spaces.length,
    { s with spaces := s.spaces ++ [{ val := V, child := none, parent := none }] })

/-! ## The refiners -/

/-- The guard that opens every refiner, "Skip refinement if already refined":
`if (x.has_child()) return x.child();`, followed by the refinement. -/
def skip_if_refined (child : Option Nat) (refine : Adapt Nat) : Adapt Nat :=
  match child with
  | some c => pure c
  | none => refine

/-- The function `adapt(const Mesh&)`, uniform refinement (lines 50-67). -/
def adapt_mesh (ext : External) (mesh : Nat) : Adapt Nat := do
  let m ← get_mesh mesh
  skip_if_refined m.child (set_parent_child_mesh mesh (ext.refine_uniform m.val))

/-- The function `adapt(const Mesh&, const MeshFunction<bool>&)`, local
refinement (lines 69-87). -/
def adapt_mesh_markers (ext : External) (mesh : Nat) (cell_markers : List Bool) : Adapt Nat := do
  let m ← get_mesh mesh
  skip_if_refined m.child (set_parent_child_mesh mesh (ext.refine_local m.val cell_markers))

/-- The function `adapt(const FunctionSpace&, shared_ptr<const Mesh>)`
(lines 112-137). -/
def adapt_space (ext : External) (space refined_mesh : Nat) : Adapt Nat := do
  let sp ← get_space space
  skip_if_refined sp.child do
    let rm ← get_mesh refined_mesh
    let refined_element := ext.create sp.val.element
    let refined_dofmap := ext.copy sp.val.dofmap rm.val
    set_parent_child_space space
      { mesh := refined_mesh, element := refined_element, dofmap := refined_dofmap,
        component := [] }

/-- The function `adapt(const FunctionSpace&)` (lines 89-98). -/
def adapt_space_uniform (ext : External) (space : Nat) : Adapt Nat := do
  let sp ← get_space space
  let _child ← adapt_mesh ext sp.val.mesh
  let m ← get_mesh sp.val.mesh
  let refined_mesh ← lift (required m.child)
  let _child ← adapt_space ext space refined_mesh
  let sp1 ← get_space space
  lift (required sp1.child)

/-- The function `adapt(const FunctionSpace&, const MeshFunction<bool>&)`
(lines 100-110). -/
def adapt_space_markers (ext : External) (space : Nat) (cell_markers : List Bool) :
    Adapt Nat := do
  let sp ← get_space space
  let _child ← adapt_mesh_markers ext sp.val.mesh cell_markers
  let m ← get_mesh sp.val.mesh
  let refined_mesh ← lift (required m.child)
  let _child ← adapt_space ext space refined_mesh
  let sp1 ← get_space space
  lift (required sp1.child)

/-- The function `adapt(const Function&, shared_ptr<const Mesh>)`
(lines 139-163). -/
def adapt_function (ext : External) (function refined_mesh : Nat) : Adapt Nat := do
  let f ← get_function function
  skip_if_refined f.child do
    let space := f.val.function_space
    let _child ← adapt_space ext space refined_mesh
    let sp ← get_space space
    let refined_space ← lift (required sp.child)
    let rs ← get_space refined_space
    set_parent_child_function function
      { function_space := refined_space, vector := ext.interpolate f.val rs.val }

/-- The function `adapt(const MeshFunction<uint>&, shared_ptr<const Mesh>)`
(lines 393-447). -/
def adapt_mesh_function (mesh_function refined_mesh : Nat) : Adapt Nat := do
  let mf ← get_mesh_function mesh_function
  skip_if_refined mf.child do
    let mesh ← get_mesh mf.val.mesh
    let dim := mesh.val.dim
    let parent ←
      (if mf.val.dim = dim then do
        let rm ← get_mesh refined_mesh
        pure rm.val.parent_cell
      else if mf.val.dim = uint_sub dim 1 then do
        let rm ← get_mesh refined_mesh
        pure rm.val.parent_facet
      else fail .not_implemented)
    match parent with
    | none => fail .missing_parent_info
    | some parent => do
      let undefined := undefined_value mf.val.values
      let rm ← get_mesh refined_mesh
      let values ← lift (map_values mf.val.values parent undefined
        (List.range (rm.val.num_entities mf.val.dim)))
      set_parent_child_mesh_function mesh_function
        { mesh := refined_mesh, dim := mf.val.dim, values := values }

/-- The loop refining the function spaces of a form (lines 183-189). -/
def refine_spaces (ext : External) (refined_mesh : Nat) : List Nat → Adapt (List Nat)
  | [] => pure []
  | space :: rest => do
    let _child ← adapt_space ext space refined_mesh
    let sp ← get_space space
    let c ← lift (required sp.child)
    let cs ← refine_spaces ext refined_mesh rest
    pure (c :: cs)

/-- The loop refining the coefficients of a form (lines 192-209). -/
def refine_coefficients (ext : External) (refined_mesh : Nat) :
    List GenericFunction → Adapt (List GenericFunction)
  | [] => pure []
  | .function g :: rest => do
    let _child ← adapt_function ext g refined_mesh
    let f ← get_function g
    let c ← lift (required f.child)
    let cs ← refine_coefficients ext refined_mesh rest
    pure (.function c :: cs)
  | .other x :: rest => do
    let cs ← refine_coefficients ext refined_mesh rest
    pure (.other x :: cs)

/-- One of the three blocks refining the sub domains of a form
(lines 220-239). -/
def refine_domains (refined_mesh : Nat) : Option Nat → Adapt (Option Nat)
  | none => pure none
  | some domains => do
    let _child ← adapt_mesh_function domains refined_mesh
    let mf ← get_mesh_function domains
    pure mf.child

/-- The function `adapt(const Form&, shared_ptr<const Mesh>)`
(lines 165-245). -/
def adapt_form (ext : External) (form refined_mesh : Nat) : Adapt Nat := do
  let f ← get_form form
  skip_if_refined f.child do
    let refined_spaces ← refine_spaces ext refined_mesh f.val.function_spaces
    let refined_coefficients ← refine_coefficients ext refined_mesh f.val.coefficients
    let cell_domains ← refine_domains refined_mesh f.val.cell_domains
    let exterior_domains ← refine_domains refined_mesh f.val.exterior_facet_domains
    let interior_domains ← refine_domains refined_mesh f.val.interior_facet_domains
    set_parent_child_form form
      { ufc_form := f.val.ufc_form
        function_spaces := refined_spaces
        coefficients := refined_coefficients
        mesh := some refined_mesh
        cell_domains := cell_domains
        exterior_facet_domains := exterior_domains
        interior_facet_domains := interior_domains }

/-- The call `adapt_markers(refined_markers, *refined_mesh, markers, W->mesh())`
on a new empty vector `refined_markers`, as a step of an entry point. -/
def remap_markers (refined_mesh : Mesh) (markers : List (Nat × Nat)) (mesh : Mesh) :
    Adapt (List (Nat × Nat)) :=
  match adapt_markers [] refined_mesh markers mesh with
  | (.ok _, refined_markers) => pure refined_markers
  | (.error e, _) => fail e

/-- The function `adapt(const DirichletBC&, shared_ptr<const Mesh>,
const FunctionSpace&)` (lines 294-353). -/
def adapt_bc (ext : External) (bc refined_mesh S : Nat) : Adapt Nat := do
  let b ← get_bc bc
  skip_if_refined b.child do
    let W := b.val.function_space
    let w ← get_space W
    let V ←
      (if w.val.component.length = 0 then do
        let _child ← adapt_space ext W refined_mesh
        let w1 ← get_space W
        lift (required w1.child)
      else do
        let _child ← adapt_space ext S refined_mesh
        let s1 ← get_space S
        let Sc ← lift (required s1.child)
        let sc ← get_space Sc
        new_space (SubSpace ext sc.val w.val.component))
    let rm ← get_mesh refined_mesh
    let wm ← get_mesh w.val.mesh
    let refined_markers ← remap_markers rm.val b.val.markers wm.val
    match b.val.value with
    | .function g => do
      let _child ← adapt_function ext g refined_mesh
      let gf ← get_function g
      let gc ← lift (required gf.child)
      set_parent_child_bc bc
        { function_space := V, value := .function gc, markers := refined_markers }
    | .other x =>
      set_parent_child_bc bc
        { function_space := V, value := .other x, markers := refined_markers }

/-- The loop refining the boundary conditions of a problem (lines 269-280). -/
def refine_bcs (ext : External) (refined_mesh S : Nat) :
    List BoundaryCondition → Adapt (List BoundaryCondition)
  | [] => pure []
  | .dirichlet bc :: rest => do
    let _child ← adapt_bc ext bc refined_mesh S
    let b ← get_bc bc
    let c ← lift (required b.child)
    let cs ← refine_bcs ext refined_mesh S rest
    pure (.dirichlet c :: cs)
  | .other _ :: _ => fail .bcs_not_dirichlet

/-- The function `adapt(const VariationalProblem&, shared_ptr<const Mesh>)`
(lines 247-292). -/
def adapt_problem (ext : External) (problem refined_mesh : Nat) : Adapt Nat := do
  let p ← get_problem problem
  skip_if_refined p.child do
    let _child ← adapt_form ext p.val.form_0 refined_mesh
    let _child ← adapt_form ext p.val.form_1 refined_mesh
    let S := p.val.trial_space
    let refined_bcs ← refine_bcs ext refined_mesh S p.val.bcs
    let f0 ← get_form p.val.form_0
    let c0 ← lift (required f0.child)
    let f1 ← get_form p.val.form_1
    let c1 ← lift (required f1.child)
    let r0 ← get_form c0
    let r1 ← get_form c1
    set_parent_child_problem problem
      { form_0 := c0, form_1 := c1, bcs := refined_bcs,
        trial_space := ext.trial_space r0.val r1.val }

/-- The form `f->child_shared_ptr()` of an error control object. -/
def child_form (form : Nat) : Adapt Nat := do
  let f ← get_form form
  lift (required f.child)

/-- The function `adapt(const ErrorControl&, shared_ptr<const Mesh>)`
(lines 355-391). -/
def adapt_ec (ext : External) (ec refined_mesh : Nat) : Adapt Nat := do
  let e ← get_ec ec
  skip_if_refined e.child do
    let _child ← adapt_form ext e.val.a_star refined_mesh
    let _child ← adapt_form ext e.val.L_star refined_mesh
    let _child ← adapt_form ext e.val.residual refined_mesh
    let _child ← adapt_form ext e.val.a_R_T refined_mesh
    let _child ← adapt_form ext e.val.L_R_T refined_mesh
    let _child ← adapt_form ext e.val.a_R_dT refined_mesh
    let _child ← adapt_form ext e.val.L_R_dT refined_mesh
    let _child ← adapt_form ext e.val.eta_T refined_mesh
    let a_star ← child_form e.val.a_star
    let L_star ← child_form e.val.L_star
    let residual ← child_form e.val.residual
    let a_R_T ← child_form e.val.a_R_T
    let L_R_T ← child_form e.val.L_R_T
    let a_R_dT ← child_form e.val.a_R_dT
    let L_R_dT ← child_form e.val.L_R_dT
    let eta_T ← child_form e.val.eta_T
    set_parent_child_ec ec
      { a_star := a_star, L_star := L_star, residual := residual, a_R_T := a_R_T,
        L_R_T := L_R_T, a_R_dT := a_R_dT, L_R_dT := L_R_dT, eta_T := eta_T,
        is_linear := e.val.is_linear }

/-! ## Marker remapper: what the claims speak of -/

/-- The fine facet `facet` touches a number of cells other than two: it is
not an interior facet (line 476). -/
def IsBoundaryFacet (refined_mesh mesh : Mesh) (facet : Nat) : Prop :=
  (refined_mesh.facet_entities mesh.dim facet).length ≠ 2

/-- The fine facet `facet` is owned by the fine cell `child.1` with local
index `child.2`, the parent cell of that cell is `marker.1`, and the parent
facet of `facet` has local index `marker.2` in the cell `marker.1`. -/
def FacetLink (refined_mesh mesh : Mesh) (parent_cells parent_facets : List Nat)
    (facet : Nat) (marker child : Nat × Nat) : Prop :=
  (refined_mesh.facet_entities mesh.dim facet).head? = some child.1 ∧
  refined_mesh.local_index child.1 facet = some child.2 ∧
  parent_cells[child.1]? = some marker.1 ∧
  ∃ parent_facet, parent_facets[facet]? = some parent_facet ∧
    mesh.local_index marker.1 parent_facet = some marker.2

/-- The pair `child` is the (fine cell, fine local facet) pair of a fine
boundary facet that descends from the coarse marker `marker`. -/
def IsBoundaryChild (refined_mesh mesh : Mesh) (parent_cells parent_facets : List Nat)
    (marker child : Nat × Nat) : Prop :=
  ∃ facet, facet < refined_mesh.num_facets ∧ IsBoundaryFacet refined_mesh mesh facet ∧
    FacetLink refined_mesh mesh parent_cells parent_facets facet marker child

/-- The lineage of the fine mesh is complete: every fine boundary facet has
an owning cell of which it is a facet, that cell has a parent cell, the facet
has a parent facet, and the parent facet is a facet of the parent cell. -/
def LineageComplete (refined_mesh mesh : Mesh) (parent_cells parent_facets : List Nat) : Prop :=
  ∀ facet, facet < refined_mesh.num_facets → IsBoundaryFacet refined_mesh mesh facet →
    ∃ marker child, FacetLink refined_mesh mesh parent_cells parent_facets facet marker child

/-- The entry that a fine facet adds to the table, if any. -/
def facet_entry (refined_mesh mesh : Mesh) (parent_cells parent_facets : List Nat)
    (facet : Nat) : Option ((Nat × Nat) × (Nat × Nat)) :=
  if (refined_mesh.facet_entities mesh.dim facet).length = 2 then none
  else
    (refined_mesh.facet_entities mesh.dim facet).head?.bind fun cell =>
    (refined_mesh.local_index cell facet).bind fun local_facet =>
    parent_cells[cell]?.bind fun parent_cell =>
    parent_facets[facet]?.bind fun parent_facet =>
    (mesh.local_index parent_cell parent_facet).bind fun parent_local_facet =>
    some ((parent_cell, parent_local_facet), (cell, local_facet))

/-- The table that holds the entries of a list. -/
def table_of (entries : List ((Nat × Nat) × (Nat × Nat))) : ChildTable :=
  fun key => (entries.filter (fun e => e.1 = key)).map Prod.snd

/-! ## Example meshes -/

/-- A coarse mesh of one triangle, cell 0 with the facets 0, 1, 2. -/
def coarse_triangle : Mesh :=
  { dim := 2
    num_entities := fun d => [3, 3, 1].getD d 0
    facet_entities := fun D f => if D = 2 then (if f < 3 then [0] else []) else []
    cell_facets := fun c => if c = 0 then [0, 1, 2] else []
    parent_cell := none
    parent_facet := none }

/-- The uniform refinement of `coarse_triangle`: four cells and nine facets,
two on each coarse facet (facets 0 to 5) and three inside (facets 6 to 8). -/
def fine_triangle : Mesh :=
  { dim := 2
    num_entities := fun d => [6, 9, 4].getD d 0
    facet_entities := fun D f =>
      if D = 2 then [[0], [1], [1], [2], [2], [0], [0, 3], [1, 3], [2, 3]].getD f [] else []
    cell_facets := fun c => [[6, 5, 0], [7, 1, 2], [8, 3, 4], [6, 7, 8]].getD c []
    parent_cell := some [0, 0, 0, 0]
    parent_facet := some [2, 2, 0, 0, 1, 1, 3, 3, 3] }

/-- The two triangle meshes (coarse 0, fine 1) and one mesh function over the
three facets of the coarse mesh, with the given values. -/
def facet_function_state (values : List Nat) : State :=
  { meshes := [⟨coarse_triangle, none, none⟩, ⟨fine_triangle, none, none⟩]
    spaces := [], functions := [], forms := [], bcs := [], problems := [], ecs := []
    mesh_functions := [⟨⟨0, 1, values⟩, none, none⟩] }

/-- The values of the mesh function of index `id`, if there is one. -/
def State.values_of (s : State) (id : Nat) : Option (List Nat) :=
  (s.mesh_functions[id]?).map (fun mf => mf.val.values)

/-! ## Frame conditions of the refiners -/

/-- The kinds of objects, one per arena. -/
inductive Kind where
  | mesh | space | function | form | bc | problem | ec | mesh_function
  deriving DecidableEq, Repr

/-- An arena after some refinements: every object is still there with the
same content and the same parent, and a child link that was set is the same;
the only changes are new objects and child links set on objects that had
none. -/
def Grows {α : Type} (a a1 : List (Hierarchical α)) : Prop :=
  ∀ (i : Nat) (h : Hierarchical α), a[i]? = some h →
    ∃ h1 : Hierarchical α, a1[i]? = some h1 ∧ h1.val = h.val ∧ h1.parent = h.parent ∧
      ∀ c, h.child = some c → h1.child = some c

/-- The back-references of an arena are consistent: an object whose parent is
`p` is the child of `p`. -/
def ParentsLinked {α : Type} (a : List (Hierarchical α)) : Prop :=
  ∀ (c : Nat) (h : Hierarchical α) (p : Nat), a[c]? = some h → h.parent = some p →
    ∃ hp : Hierarchical α, a[p]? = some hp ∧ hp.child = some c

/-- The child links of an arena are consistent: the child of `p` is an object
whose parent is `p`. -/
def ChildrenLinked {α : Type} (a : List (Hierarchical α)) : Prop :=
  ∀ (p : Nat) (hp : Hierarchical α) (c : Nat), a[p]? = some hp → hp.child = some c →
    ∃ h : Hierarchical α, a[c]? = some h ∧ h.parent = some p

/-- The links of an arena are consistent: the child link and the
back-reference go together. -/
def Linked {α : Type} (a : List (Hierarchical α)) : Prop :=
  ParentsLinked a ∧ ChildrenLinked a

/-- The object `c` of an arena is a child object of `p`: its parent is `p`. -/
def IsChildObject {α : Type} (a : List (Hierarchical α)) (p c : Nat) : Prop :=
  ∃ x : Hierarchical α, a[c]? = some x ∧ x.parent = some p

/-- The arena of kind `k` is the same in both states. -/
def Unchanged (k : Kind) (s s1 : State) : Prop :=
  match k with
  | .mesh => s1.meshes = s.meshes
  | .space => s1.spaces = s.spaces
  | .function => s1.functions = s.functions
  | .form => s1.forms = s.forms
  | .bc => s1.bcs = s.bcs
  | .problem => s1.problems = s.problems
  | .ec => s1.ecs = s.ecs
  | .mesh_function => s1.mesh_functions = s.mesh_functions

/-- Only the arenas of the kinds `ks` differ between the two states. -/
def Touches (ks : List Kind) (s s1 : State) : Prop := ∀ k, k ∉ ks → Unchanged k s s1

/-- The arena of kind `k` has grown from `s` to `s1`. -/
def GrowsAt (k : Kind) (s s1 : State) : Prop :=
  match k with
  | .mesh => Grows s.meshes s1.meshes
  | .space => Grows s.spaces s1.spaces
  | .function => Grows s.functions s1.functions
  | .form => Grows s.forms s1.forms
  | .bc => Grows s.bcs s1.bcs
  | .problem => Grows s.problems s1.problems
  | .ec => Grows s.ecs s1.ecs
  | .mesh_function => Grows s.mesh_functions s1.mesh_functions

/-- The links of the arena of kind `k` are consistent. -/
def LinkedAt (k : Kind) (s : State) : Prop :=
  match k with
  | .mesh => Linked s.meshes
  | .space => Linked s.spaces
  | .function => Linked s.functions
  | .form => Linked s.forms
  | .bc => Linked s.bcs
  | .problem => Linked s.problems
  | .ec => Linked s.ecs
  | .mesh_function => Linked s.mesh_functions

/-- The state `s1` comes from `s` by refinements that touch only the kinds
`ks`: the other arenas are the same, every arena has grown, and consistent
links stay consistent. -/
structure Refines (ks : List Kind) (s s1 : State) : Prop where
  touches : Touches ks s s1
  grows : ∀ k, GrowsAt k s s1
  linked : ∀ k, LinkedAt k s → LinkedAt k s1

/-- Every run of `m` is a refinement that touches only the kinds `ks`. -/
def Sound {α : Type} (ks : List Kind) (m : Adapt α) : Prop := ∀ s, Refines ks s (m s).2

/-- Every run of `m` from a state with `P` is a refinement that touches only
the kinds `ks`. -/
def SoundFrom {α : Type} (P : State → Prop) (ks : List Kind) (m : Adapt α) : Prop :=
  ∀ s, P s → Refines ks s (m s).2

/-- The child of the object `id` of an arena, if the object is there and has
one (`has_child()` and `child()`). -/
def child_of {α : Type} (arena : List (Hierarchical α)) (id : Nat) : Option Nat :=
  (arena[id]?).bind Hierarchical.child

/-- The child of the object `id` of kind `k`. -/
def State.child (s : State) : Kind → Nat → Option Nat
  | .mesh, id => child_of s.meshes id
  | .space, id => child_of s.spaces id
  | .function, id => child_of s.functions id
  | .form, id => child_of s.forms id
  | .bc, id => child_of s.bcs id
  | .problem, id => child_of s.problems id
  | .ec, id => child_of s.ecs id
  | .mesh_function, id => child_of s.mesh_functions id

/-- Whenever `m` returns from a state with `P`, the result and the state it
leaves satisfy `Q`. -/
def EnsuresFrom {α : Type} (P : State → Prop) (m : Adapt α) (Q : α → State → Prop) : Prop :=
  ∀ s a s1, P s → m s = (.ok a, s1) → Q a s1

/-- A call of a refinement entry point of `adapt.h`. -/
inductive Call where
  | mesh (mesh : Nat)
  | mesh_markers (mesh : Nat) (cell_markers : List Bool)
  | space_uniform (space : Nat)
  | space_markers (space : Nat) (cell_markers : List Bool)
  | space (space refined_mesh : Nat)
  | function (function refined_mesh : Nat)
  | form (form refined_mesh : Nat)
  | problem (problem refined_mesh : Nat)
  | bc (bc refined_mesh S : Nat)
  | ec (ec refined_mesh : Nat)
  | mesh_function (mesh_function refined_mesh : Nat)

/-- The entry point that a call runs. -/
def Call.run (ext : External) : Call → Adapt Nat
  | .mesh x => adapt_mesh ext x
  | .mesh_markers x cell_markers => adapt_mesh_markers ext x cell_markers
  | .space_uniform x => adapt_space_uniform ext x
  | .space_markers x cell_markers => adapt_space_markers ext x cell_markers
  | .space x refined_mesh => adapt_space ext x refined_mesh
  | .function x refined_mesh => adapt_function ext x refined_mesh
  | .form x refined_mesh => adapt_form ext x refined_mesh
  | .problem x refined_mesh => adapt_problem ext x refined_mesh
  | .bc x refined_mesh S => adapt_bc ext x refined_mesh S
  | .ec x refined_mesh => adapt_ec ext x refined_mesh
  | .mesh_function x refined_mesh => adapt_mesh_function x refined_mesh

/-- The kind of the entity that a call refines. -/
def Call.kind : Call → Kind
  | .mesh _ => .mesh
  | .mesh_markers _ _ => .mesh
  | .space_uniform _ => .space
  | .space_markers _ _ => .space
  | .space _ _ => .space
  | .function _ _ => .function
  | .form _ _ => .form
  | .problem _ _ => .problem
  | .bc _ _ _ => .bc
  | .ec _ _ => .ec
  | .mesh_function _ _ => .mesh_function

/-- The entity that a call refines. -/
def Call.entity : Call → Nat
  | .mesh x => x
  | .mesh_markers x _ => x
  | .space_uniform x => x
  | .space_markers x _ => x
  | .space x _ => x
  | .function x _ => x
  | .form x _ => x
  | .problem x _ => x
  | .bc x _ _ => x
  | .ec x _ => x
  | .mesh_function x _ => x

/-- The two entry points for a function space that take no refined mesh:
they refine the mesh of the space before they look at the space. -/
def Call.refines_mesh_first : Call → Bool
  | .space_uniform _ => true
  | .space_markers _ _ => true
  | _ => false

/-- The mesh of the function space `space` is an object of the state. -/
def State.has_mesh_of (s : State) (space : Nat) : Prop :=
  ∃ sp m, s.spaces[space]? = some sp ∧ s.meshes[sp.val.mesh]? = some m

/-- Collaborators for the examples: every mesh refines to `fine_triangle`,
elements and dofmaps are kept, and interpolation keeps the coefficient data. -/
def example_external : External :=
  { refine_uniform := fun _ => fine_triangle
    refine_local := fun _ _ => fine_triangle
    create := fun e => e
    copy := fun d _ => d
    interpolate := fun f _ => f.vector
    extract_sub_element := fun e _ => e
    extract_sub_dofmap := fun d _ => d
    trial_space := fun a _ => a.function_spaces.getD 1 0 }

/-- The two triangle meshes (coarse 0, fine 1, not linked) and a function
space on the coarse mesh. -/
def space_state : State :=
  { meshes := [⟨coarse_triangle, none, none⟩, ⟨fine_triangle, none, none⟩]
    spaces := [⟨⟨0, 7, 9, []⟩, none, none⟩]
    functions := [], forms := [], bcs := [], problems := [], ecs := [], mesh_functions := [] }

/-- What the form refiner puts in the place of the coefficient `original`, in
the state `s`: the child of a `Function`, and any other coefficient itself. -/
def RefinedCoefficient (s : State) (original refined : GenericFunction) : Prop :=
  match original with
  | .function g => ∃ gc, child_of s.functions g = some gc ∧ refined = .function gc
  | .other x => refined = .other x

/-- The two triangle meshes, a function space 0 on the coarse mesh and a
sub-space 1 of it with component path `[1]`, a function 0 on the space 0,
and a form 0 with the function spaces `[0, 0]` and the coefficients
`[Function 0, other 5]`; a Dirichlet condition 0 on the space 0 with the
function 0 as value and the marker `(0, 2)`, and a condition 1 on the
sub-space 1 with the value `other 4`; a problem 0 with the forms 0 and 0 and
the boundary conditions `[Dirichlet 0, other 3, Dirichlet 1]`. -/
def form_state : State :=
  { meshes := [⟨coarse_triangle, none, none⟩, ⟨fine_triangle, none, none⟩]
    spaces := [⟨⟨0, 7, 9, []⟩, none, none⟩, ⟨⟨0, 7, 9, [1]⟩, none, none⟩]
    functions := [⟨⟨0, 11⟩, none, none⟩]
    forms := [⟨⟨13, [0, 0], [.function 0, .other 5], some 0, none, none, none⟩, none, none⟩]
    bcs := [⟨⟨0, .function 0, [(0, 2)]⟩, none, none⟩, ⟨⟨1, .other 4, [(0, 0)]⟩, none, none⟩]
    problems := [⟨⟨0, 0, [.dirichlet 0, .other 3, .dirichlet 1], 0⟩, none, none⟩]
    ecs := []
    mesh_functions := [] }

/-- The state that the refinement of the Dirichlet condition 0 of
`form_state` against the fine triangle leaves. -/
def bc_state : State := (adapt_bc example_external 0 1 0 form_state).2

/-- Every fatal error that ends a run of `m` is one of `es`. -/
def OnlyRaises {α : Type} (es : List Failure) (m : Adapt α) : Prop :=
  ∀ s e s1, m s = (.error e, s1) → e ∈ es

/-- The fatal errors of the refiners below the variational problem: the two
errors of the mesh-function refiner and the marker remapper, and a failure of
a collaborator. -/
def lower_errors : List Failure := [.not_implemented, .missing_parent_info, .library]

/-- The two triangle meshes, a function space 0 and a function 0 on it, and
two forms that both use the space 0 and the function 0. -/
def sharing_state : State :=
  { meshes := [⟨coarse_triangle, none, none⟩, ⟨fine_triangle, none, none⟩]
    spaces := [⟨⟨0, 7, 9, []⟩, none, none⟩]
    functions := [⟨⟨0, 11⟩, none, none⟩]
    forms := [⟨⟨13, [0, 0], [.function 0, .other 5], some 0, none, none, none⟩, none, none⟩,
      ⟨⟨14, [0], [.other 6, .function 0], some 0, none, none, none⟩, none, none⟩]
    bcs := [], problems := [], ecs := [], mesh_functions := [] }

/-- The state after the refinement of the form 0 of `sharing_state`. -/
def sharing_state_1 : State := (adapt_form example_external 0 1 sharing_state).2

/-- The state after the refinement of the forms 0 and 1 of `sharing_state`. -/
def sharing_state_2 : State := (adapt_form example_external 1 1 sharing_state_1).2

/-- Scenario B: a coarse mesh of two triangles (mesh 0), its uniform
refinement into eight triangles with the cell lineage map (mesh 1), and the
mesh function `[0, 1]` over the cells of the coarse mesh. -/
def scenario_B : State :=
  { meshes :=
      [⟨{ dim := 2, num_entities := fun d => [4, 5, 2].getD d 0, facet_entities := fun _ _ => [],
          cell_facets := fun _ => [], parent_cell := none, parent_facet := none }, none, none⟩,
       ⟨{ dim := 2, num_entities := fun d => [9, 16, 8].getD d 0, facet_entities := fun _ _ => [],
          cell_facets := fun _ => [], parent_cell := some [0, 0, 0, 0, 1, 1, 1, 1],
          parent_facet := none }, none, none⟩]
    spaces := [], functions := [], forms := [], bcs := [], problems := [], ecs := []
    mesh_functions := [⟨⟨0, 2, [0, 1]⟩, none, none⟩] }

/-- The coarse triangle (mesh 0) and two refined meshes (meshes 1 and 2), a
function space 0 on the coarse mesh and a function 0 on that space. -/
def field_state : State :=
  { meshes := [⟨coarse_triangle, none, none⟩, ⟨fine_triangle, none, none⟩,
      ⟨fine_triangle, none, none⟩]
    spaces := [⟨⟨0, 7, 9, []⟩, none, none⟩]
    functions := [⟨⟨0, 11⟩, none, none⟩]
    forms := [], bcs := [], problems := [], ecs := [], mesh_functions := [] }

/-- The state after the refinement of the function space 0 of `field_state`
against the mesh 1. -/
def field_state_1 : State := (adapt_space example_external 0 1 field_state).2

/-- The object `c` of kind `k` is a child object of the object `p`. -/
def State.is_child_object (s : State) : Kind → Nat → Nat → Prop
  | .mesh, p, c => IsChildObject s.meshes p c
  | .space, p, c => IsChildObject s.spaces p c
  | .function, p, c => IsChildObject s.functions p c
  | .form, p, c => IsChildObject s.forms p c
  | .bc, p, c => IsChildObject s.bcs p c
  | .problem, p, c => IsChildObject s.problems p c
  | .ec, p, c => IsChildObject s.ecs p c
  | .mesh_function, p, c => IsChildObject s.mesh_functions p c

/-- A coarse mesh of one tetrahedron (mesh 0) and its uniform refinement
(mesh 1: 10 vertices, 25 edges, 24 facets, 8 cells) with both lineage maps,
and a mesh function over the six edges of the coarse mesh. -/
def tetrahedron_state : State :=
  { meshes :=
      [⟨{ dim := 3, num_entities := fun d => [4, 6, 4, 1].getD d 0,
          facet_entities := fun _ _ => [], cell_facets := fun _ => [],
          parent_cell := none, parent_facet := none }, none, none⟩,
       ⟨{ dim := 3, num_entities := fun d => [10, 25, 24, 8].getD d 0,
          facet_entities := fun _ _ => [], cell_facets := fun _ => [],
          parent_cell := some [0, 0, 0, 0, 0, 0, 0, 0],
          parent_facet := some [0, 0, 0, 0, 1, 1, 1, 1, 2, 2, 2, 2, 3, 3, 3, 3,
            4, 4, 4, 4, 4, 4, 4, 4] }, none, none⟩]
    spaces := [], functions := [], forms := [], bcs := [], problems := [], ecs := []
    mesh_functions := [⟨⟨0, 1, [1, 2, 3, 4, 5, 6]⟩, none, none⟩] }

/-- The mesh of the function space `space` has a child: `space.mesh()` has
been refined. -/
def State.mesh_of_space_refined (s : State) (space : Nat) : Prop :=
  ∃ sp cm, s.spaces[space]? = some sp ∧ child_of s.meshes sp.val.mesh = some cm

/-! # Theorems -/

/-! ## Marker remapper: lemmas -/

theorem facet_entry_eq_some (refined_mesh mesh : Mesh) (pc pf : List Nat) (facet : Nat)
    (marker child : Nat × Nat) :
    facet_entry refined_mesh mesh pc pf facet = some (marker, child) ↔
      IsBoundaryFacet refined_mesh mesh facet ∧ FacetLink refined_mesh mesh pc pf facet marker child := by
  obtain ⟨m1, m2⟩ := marker
  obtain ⟨c1, c2⟩ := child
  unfold facet_entry IsBoundaryFacet FacetLink
  by_cases h2 : (refined_mesh.facet_entities mesh.dim facet).length = 2
  · simp [h2]
  · simp only [h2, if_false, ne_eq, not_false_eq_true, true_and, Option.bind_eq_some,
      Option.some.injEq, Prod.mk.injEq]
    constructor
    · rintro ⟨cell, hh, lf, hl, pcell, hpc, pfacet, hpf, plf, hpl, ⟨rfl, rfl⟩, rfl, rfl⟩
      exact ⟨hh, hl, hpc, pfacet, hpf, hpl⟩
    · rintro ⟨hh, hl, hpc, pfacet, hpf, hpl⟩
      exact ⟨c1, hh, c2, hl, m1, hpc, pfacet, hpf, m2, hpl, ⟨rfl, rfl⟩, rfl, rfl⟩

theorem table_of_push_back (entries : List ((Nat × Nat) × (Nat × Nat))) (key child : Nat × Nat) :
    (table_of entries).push_back key child = table_of (entries ++ [(key, child)]) := by
  funext k
  by_cases h : k = key
  · subst h
    simp [table_of, ChildTable.push_back, List.filter_append]
  · have h1 : ¬ key = k := fun e => h e.symm
    simp [table_of, ChildTable.push_back, List.filter_append, h, h1]

theorem facet_step_eq (refined_mesh mesh : Mesh) (pc pf : List Nat) (facet : Nat)
    (entries : List ((Nat × Nat) × (Nat × Nat)))
    (hb : IsBoundaryFacet refined_mesh mesh facet →
      ∃ marker child, FacetLink refined_mesh mesh pc pf facet marker child) :
    facet_step refined_mesh mesh pc pf (table_of entries) facet =
      .ok (table_of (entries ++ (facet_entry refined_mesh mesh pc pf facet).toList)) := by
  by_cases h2 : (refined_mesh.facet_entities mesh.dim facet).length = 2
  · simp [facet_step, facet_entry, h2]
  · obtain ⟨marker, child, hlink⟩ := hb h2
    have he := (facet_entry_eq_some refined_mesh mesh pc pf facet marker child).2 ⟨h2, hlink⟩
    obtain ⟨hh, hl, hpc, pfacet, hpf, hpl⟩ := hlink
    simp only [facet_step, h2, if_false, hh, hl, hpc, hpf, hpl, required, he, Option.toList]
    rw [table_of_push_back]

theorem build_children_eq (refined_mesh mesh : Mesh) (pc pf : List Nat) :
    ∀ (facets : List Nat) (entries : List ((Nat × Nat) × (Nat × Nat))),
      (∀ facet ∈ facets, IsBoundaryFacet refined_mesh mesh facet →
        ∃ marker child, FacetLink refined_mesh mesh pc pf facet marker child) →
      build_children refined_mesh mesh pc pf facets (table_of entries) =
        .ok (table_of (entries ++ facets.filterMap (facet_entry refined_mesh mesh pc pf)))
  | [], entries, _ => by simp [build_children]
  | facet :: rest, entries, h => by
    have h1 := facet_step_eq refined_mesh mesh pc pf facet entries
      (h facet (List.mem_cons_self _ _))
    have h2 := build_children_eq refined_mesh mesh pc pf rest
      (entries ++ (facet_entry refined_mesh mesh pc pf facet).toList)
      (fun f hf => h f (List.mem_cons_of_mem _ hf))
    simp only [build_children, h1, h2]
    rcases he : facet_entry refined_mesh mesh pc pf facet with _ | e <;>
      simp [List.filterMap_cons, he]

theorem expand_markers_eq (children : ChildTable) :
    ∀ (markers refined_markers : List (Nat × Nat)),
      expand_markers children markers refined_markers =
        refined_markers ++ markers.flatMap children
  | [], acc => by simp [expand_markers]
  | m :: rest, acc => by
    simp [expand_markers, expand_markers_eq children rest, List.flatMap_cons]

theorem local_index_inj (m : Mesh) (cell facet1 facet2 k : Nat)
    (h1 : m.local_index cell facet1 = some k) (h2 : m.local_index cell facet2 = some k) :
    facet1 = facet2 := by
  unfold Mesh.local_index at h1 h2
  split at h1
  · split at h2
    · rename_i hm1 hm2
      simp only [Option.some.injEq] at h1 h2
      exact (List.indexOf_inj hm1 hm2).1 (h1.trans h2.symm)
    · simp at h2
  · simp at h1

theorem facet_entry_child_inj (refined_mesh mesh : Mesh) (pc pf : List Nat)
    (facet1 facet2 : Nat) (child : Nat × Nat)
    (h1 : (facet_entry refined_mesh mesh pc pf facet1).map Prod.snd = some child)
    (h2 : (facet_entry refined_mesh mesh pc pf facet2).map Prod.snd = some child) :
    facet1 = facet2 := by
  rcases e1 : facet_entry refined_mesh mesh pc pf facet1 with _ | ⟨a1, b1⟩
  · simp [e1] at h1
  rcases e2 : facet_entry refined_mesh mesh pc pf facet2 with _ | ⟨a2, b2⟩
  · simp [e2] at h2
  simp only [e1, e2, Option.map_some', Option.some.injEq] at h1 h2
  subst h1
  subst h2
  have l1 := ((facet_entry_eq_some refined_mesh mesh pc pf facet1 _ _).1 e1).2.2.1
  have l2 := ((facet_entry_eq_some refined_mesh mesh pc pf facet2 _ _).1 e2).2.2.1
  exact local_index_inj refined_mesh _ _ _ _ l1 l2

theorem entries_nodup (refined_mesh mesh : Mesh) (pc pf : List Nat) (facets : List Nat)
    (hnd : facets.Nodup) :
    ((facets.filterMap (facet_entry refined_mesh mesh pc pf)).map Prod.snd).Nodup := by
  rw [List.map_filterMap]
  apply List.Nodup.filterMap _ hnd
  intro a1 a2 b hb1 hb2
  exact facet_entry_child_inj refined_mesh mesh pc pf a1 a2 b hb1 hb2

theorem mem_table_of (entries : List ((Nat × Nat) × (Nat × Nat))) (key child : Nat × Nat) :
    child ∈ table_of entries key ↔ (key, child) ∈ entries := by
  simp only [table_of, List.mem_map, List.mem_filter, decide_eq_true_eq]
  constructor
  · rintro ⟨⟨k, c⟩, ⟨hmem, hk⟩, hc⟩
    simp only at hk hc
    subst hk
    subst hc
    exact hmem
  · intro h
    exact ⟨(key, child), ⟨h, rfl⟩, rfl⟩

theorem mem_entries (refined_mesh mesh : Mesh) (pc pf : List Nat) (marker child : Nat × Nat) :
    (marker, child) ∈ (List.range refined_mesh.num_facets).filterMap
        (facet_entry refined_mesh mesh pc pf) ↔
      IsBoundaryChild refined_mesh mesh pc pf marker child := by
  simp only [List.mem_filterMap, List.mem_range, facet_entry_eq_some, IsBoundaryChild]

theorem table_of_nodup (entries : List ((Nat × Nat) × (Nat × Nat)))
    (h : (entries.map Prod.snd).Nodup) (key : Nat × Nat) : (table_of entries key).Nodup :=
  List.Nodup.sublist (List.Sublist.map _ (List.filter_sublist _)) h

theorem table_of_disjoint (entries : List ((Nat × Nat) × (Nat × Nat)))
    (h : (entries.map Prod.snd).Nodup) (key1 key2 : Nat × Nat) (hne : key1 ≠ key2) :
    List.Disjoint (table_of entries key1) (table_of entries key2) := by
  intro child h1 h2
  rw [mem_table_of] at h1 h2
  have := List.inj_on_of_nodup_map h h1 h2 rfl
  simp only [Prod.mk.injEq, and_true] at this
  exact hne this

theorem flatMap_erase_of_nil {α β : Type} [BEq α] [LawfulBEq α] (f : α → List β) (a : α)
    (h : f a = []) : ∀ l : List α, (l.erase a).flatMap f = l.flatMap f
  | [] => by simp
  | x :: xs => by
    by_cases hx : x = a
    · subst hx
      simp [h]
    · have hx1 : (x == a) = false := by simpa using hx
      rw [List.erase_cons, hx1]
      simp [List.flatMap_cons, flatMap_erase_of_nil f a h xs]

theorem adapt_markers_eq (refined_mesh mesh : Mesh) (markers acc : List (Nat × Nat))
    (pc pf : List Nat)
    (hc : refined_mesh.parent_cell = some pc) (hf : refined_mesh.parent_facet = some pf)
    (hcomplete : LineageComplete refined_mesh mesh pc pf) :
    adapt_markers acc refined_mesh markers mesh =
      (.ok (), acc ++ markers.flatMap (table_of ((List.range refined_mesh.num_facets).filterMap
        (facet_entry refined_mesh mesh pc pf)))) := by
  have hb := build_children_eq refined_mesh mesh pc pf (List.range refined_mesh.num_facets) []
    (fun facet hm => hcomplete facet (List.mem_range.1 hm))
  have ht : (fun _ => []) = table_of [] := rfl
  simp only [adapt_markers, hc, hf, ht, hb, List.nil_append, expand_markers_eq]

/-- **C2** (marker remap completeness). With both lineage maps present and a
complete lineage, `adapt_markers` called on an empty output list and a
duplicate-free list of coarse markers returns without error; its output has
no pair twice, and a pair is in it exactly when it is the (fine cell, fine
local facet) pair of a fine boundary facet whose owning cell has a marked
cell `c` as parent cell and whose parent facet has the marked local index
`lf` in `c`. A marker from which no pair descends contributes nothing: the
output is the same without it. -/
theorem adapt_markers_complete (refined_mesh mesh : Mesh) (markers : List (Nat × Nat))
    (parent_cells parent_facets : List Nat)
    (hc : refined_mesh.parent_cell = some parent_cells)
    (hf : refined_mesh.parent_facet = some parent_facets)
    (hcomplete : LineageComplete refined_mesh mesh parent_cells parent_facets)
    (hnd : markers.Nodup) :
    ∃ refined_markers,
      adapt_markers [] refined_mesh markers mesh = (.ok (), refined_markers) ∧
      refined_markers.Nodup ∧
      (∀ child, child ∈ refined_markers ↔ ∃ marker ∈ markers,
        IsBoundaryChild refined_mesh mesh parent_cells parent_facets marker child) ∧
      (∀ marker ∈ markers,
        (∀ child, ¬ IsBoundaryChild refined_mesh mesh parent_cells parent_facets marker child) →
        adapt_markers [] refined_mesh (markers.erase marker) mesh = (.ok (), refined_markers)) := by
  have hE := entries_nodup refined_mesh mesh parent_cells parent_facets
    (List.range refined_mesh.num_facets) (List.nodup_range _)
  refine ⟨_, adapt_markers_eq refined_mesh mesh markers [] parent_cells parent_facets hc hf
    hcomplete, ?_, ?_, ?_⟩
  · rw [List.nil_append, List.nodup_flatMap]
    refine ⟨fun key _ => table_of_nodup _ hE key, ?_⟩
    exact List.Pairwise.imp (fun {a b} hab => table_of_disjoint _ hE a b hab) hnd
  · intro child
    simp only [List.nil_append, List.mem_flatMap, mem_table_of, mem_entries]
  · intro marker _ hnone
    rw [adapt_markers_eq refined_mesh mesh _ [] parent_cells parent_facets hc hf hcomplete]
    rw [flatMap_erase_of_nil]
    apply List.eq_nil_iff_forall_not_mem.2
    intro child hmem
    rw [mem_table_of, mem_entries] at hmem
    exact hnone child hmem

/-- **C5** (marker remapper failure). When the `parent_cell` map or the
`parent_facet` map is absent from the fine mesh, `adapt_markers` ends in the
fatal error "Unable to extract information about parent mesh entites", for
every list of coarse markers, and the output list is what it was. -/
theorem adapt_markers_missing_lineage (refined_markers : List (Nat × Nat))
    (refined_mesh mesh : Mesh) (markers : List (Nat × Nat))
    (h : refined_mesh.parent_cell = none ∨ refined_mesh.parent_facet = none) :
    adapt_markers refined_markers refined_mesh markers mesh =
      (.error .missing_parent_info, refined_markers) := by
  unfold adapt_markers
  rcases h with h | h
  · simp [h]
  · cases hc : refined_mesh.parent_cell <;> simp [h]

theorem lineageComplete_of_entries (refined_mesh mesh : Mesh) (pc pf : List Nat)
    (h : ∀ facet, facet < refined_mesh.num_facets →
      (refined_mesh.facet_entities mesh.dim facet).length = 2 ∨
        (facet_entry refined_mesh mesh pc pf facet).isSome = true) :
    LineageComplete refined_mesh mesh pc pf := by
  intro facet hlt hb
  rcases h facet hlt with h2 | hs
  · exact absurd h2 hb
  · obtain ⟨⟨marker, child⟩, he⟩ := Option.isSome_iff_exists.1 hs
    exact ⟨marker, child, ((facet_entry_eq_some refined_mesh mesh pc pf facet _ _).1 he).2⟩

theorem fine_triangle_complete :
    LineageComplete fine_triangle coarse_triangle [0, 0, 0, 0] [2, 2, 0, 0, 1, 1, 3, 3, 3] := by
  apply lineageComplete_of_entries
  decide

/-- Witness of C2 (Scenario C): the coarse marker `(cell 0, local facet 2)` on
the refined triangle. -/
theorem adapt_markers_complete_witness :
    ∃ refined_markers,
      adapt_markers [] fine_triangle [(0, 2)] coarse_triangle = (.ok (), refined_markers) ∧
      refined_markers.Nodup ∧
      (∀ child, child ∈ refined_markers ↔ ∃ marker ∈ [(0, 2)],
        IsBoundaryChild fine_triangle coarse_triangle [0, 0, 0, 0] [2, 2, 0, 0, 1, 1, 3, 3, 3]
          marker child) ∧
      (∀ marker ∈ [(0, 2)],
        (∀ child, ¬ IsBoundaryChild fine_triangle coarse_triangle [0, 0, 0, 0]
          [2, 2, 0, 0, 1, 1, 3, 3, 3] marker child) →
        adapt_markers [] fine_triangle ([(0, 2)].erase marker) coarse_triangle =
          (.ok (), refined_markers)) :=
  adapt_markers_complete fine_triangle coarse_triangle [(0, 2)] [0, 0, 0, 0]
    [2, 2, 0, 0, 1, 1, 3, 3, 3] rfl rfl fine_triangle_complete (by decide)

/-! ## The state monad -/

theorem Adapt.pure_apply {α : Type} (a : α) (s : State) :
    (pure a : Adapt α) s = (.ok a, s) := rfl

theorem Adapt.bind_apply {α β : Type} (m : Adapt α) (f : α → Adapt β) (s : State) :
    (m >>= f) s = match m s with
      | (.ok a, s1) => f a s1
      | (.error e, s1) => (.error e, s1) := rfl

theorem Adapt.bind_ok {α β : Type} (m : Adapt α) (f : α → Adapt β) (s s1 : State) (a : α)
    (h : m s = (.ok a, s1)) : (m >>= f) s = f a s1 := by
  rw [Adapt.bind_apply, h]

theorem Adapt.bind_error {α β : Type} (m : Adapt α) (f : α → Adapt β) (s s1 : State)
    (e : Failure) (h : m s = (.error e, s1)) : (m >>= f) s = (.error e, s1) := by
  rw [Adapt.bind_apply, h]

/-- Inversion of a sequence that returns. -/
theorem Adapt.bind_eq_ok {α β : Type} (m : Adapt α) (f : α → Adapt β) (s s2 : State) (b : β)
    (h : (m >>= f) s = (.ok b, s2)) :
    ∃ a s1, m s = (.ok a, s1) ∧ f a s1 = (.ok b, s2) := by
  rw [Adapt.bind_apply] at h
  rcases hm : m s with ⟨_ | a, s1⟩
  · rw [hm] at h; simp at h
  · rw [hm] at h; exact ⟨a, s1, rfl, h⟩

/-- Inversion of a sequence that fails. -/
theorem Adapt.bind_eq_error {α β : Type} (m : Adapt α) (f : α → Adapt β) (s s2 : State)
    (e : Failure) (h : (m >>= f) s = (.error e, s2)) :
    m s = (.error e, s2) ∨ ∃ a s1, m s = (.ok a, s1) ∧ f a s1 = (.error e, s2) := by
  rw [Adapt.bind_apply] at h
  rcases hm : m s with ⟨e1 | a, s1⟩
  · rw [hm] at h
    simp only [Prod.mk.injEq, Except.error.injEq] at h
    left; rw [h.1, h.2]
  · rw [hm] at h; exact Or.inr ⟨a, s1, rfl, h⟩

/-! ## Mesh-function refiner -/

theorem map_values_ok (mesh_function parent : List Nat) (undefined : Nat) :
    ∀ indices : List Nat, (∀ i ∈ indices, i < parent.length) →
      ∃ values, map_values mesh_function parent undefined indices = .ok values
  | [], _ => ⟨[], rfl⟩
  | i :: rest, h => by
    obtain ⟨values, hv⟩ := map_values_ok mesh_function parent undefined rest
      (fun j hj => h j (List.mem_cons_of_mem _ hj))
    have hi : i < parent.length := h i (List.mem_cons_self _ _)
    simp [map_values, hv, List.getElem?_eq_getElem hi, required]

theorem uint_sub_one_eq (D d : Nat) (hD : D < UINT_SIZE) (hd : d ≤ D) :
    d = uint_sub D 1 ↔ d + 1 = D := by
  unfold uint_sub UINT_SIZE at *
  omega

/-- The lineage map that the mesh-function refiner selects (lines 409-412)
for a mesh function of a supported dimension. -/
theorem adapt_mesh_function_eval (s : State) (mesh_function refined_mesh : Nat)
    (mf : Hierarchical MeshFunction) (mesh rm : Hierarchical Mesh)
    (hmf : s.mesh_functions[mesh_function]? = some mf) (hchild : mf.child = none)
    (hmesh : s.meshes[mf.val.mesh]? = some mesh) (hrm : s.meshes[refined_mesh]? = some rm) :
    adapt_mesh_function mesh_function refined_mesh s =
      if mf.val.dim = mesh.val.dim ∨ mf.val.dim = uint_sub mesh.val.dim 1 then
        match (if mf.val.dim = mesh.val.dim then rm.val.parent_cell else rm.val.parent_facet) with
        | none => (.error .missing_parent_info, s)
        | some parent =>
          match map_values mf.val.values parent (undefined_value mf.val.values)
              (List.range (rm.val.num_entities mf.val.dim)) with
          | .error e => (.error e, s)
          | .ok values =>
            set_parent_child_mesh_function mesh_function
              { mesh := refined_mesh, dim := mf.val.dim, values := values } s
      else (.error .not_implemented, s) := by
  unfold adapt_mesh_function
  simp only [Adapt.bind_apply, get_mesh_function, hmf, required, hchild, get_mesh, hmesh,
    skip_if_refined]
  by_cases hd : mf.val.dim = mesh.val.dim
  · rw [if_pos hd, if_pos (Or.inl hd), if_pos hd]
    simp only [Adapt.bind_apply, get_mesh, hrm, required, Adapt.pure_apply]
    cases rm.val.parent_cell with
    | none => rfl
    | some parent =>
      simp only [Adapt.bind_apply, get_mesh, hrm, required, lift]
      cases map_values mf.val.values parent (undefined_value mf.val.values)
        (List.range (rm.val.num_entities mf.val.dim)) <;> rfl
  · by_cases hd1 : mf.val.dim = uint_sub mesh.val.dim 1
    · rw [if_neg hd, if_pos hd1, if_pos (Or.inr hd1), if_neg hd]
      simp only [Adapt.bind_apply, get_mesh, hrm, required, Adapt.pure_apply]
      cases rm.val.parent_facet with
      | none => rfl
      | some parent =>
        simp only [Adapt.bind_apply, get_mesh, hrm, required, lift]
        cases map_values mf.val.values parent (undefined_value mf.val.values)
          (List.range (rm.val.num_entities mf.val.dim)) <;> rfl
    · rw [if_neg hd, if_neg hd1, if_neg (not_or.2 ⟨hd, hd1⟩)]
      rfl

theorem uint_sub_one_eq_nowrap (D d : Nat) (hD : D < UINT_SIZE)
    (hwrap : 1 ≤ D ∨ d + 1 ≠ UINT_SIZE) : d = uint_sub D 1 ↔ d + 1 = D := by
  unfold uint_sub UINT_SIZE at *
  omega

/-- **C4** (mesh-function refiner failure). For a mesh function `f` without a
child on a coarse mesh of topological dimension `D`, of any dimension, below
or above `D`: the refiner ends in a fatal error exactly when the dimension of
`f` is neither `D` nor `D - 1`, or the lineage map selected for that
dimension (`parent_cell` for `D`, `parent_facet` for `D - 1`) is absent; and
whenever it ends in an error, the state is what it was, so `f` is still
without a child. The coarse mesh has facets (`1 ≤ D`), or else the dimension
of `f` is not the largest unsigned value, to which `D - 1` wraps for `D = 0`;
and when the dimension of `f` is supported, the selected lineage map, if
present, has an entry for every fine entity of that dimension. -/
theorem adapt_mesh_function_fails_iff (s : State) (mesh_function refined_mesh : Nat)
    (mf : Hierarchical MeshFunction) (mesh rm : Hierarchical Mesh)
    (hmf : s.mesh_functions[mesh_function]? = some mf) (hchild : mf.child = none)
    (hmesh : s.meshes[mf.val.mesh]? = some mesh) (hrm : s.meshes[refined_mesh]? = some rm)
    (hD : mesh.val.dim < UINT_SIZE)
    (hwrap : 1 ≤ mesh.val.dim ∨ mf.val.dim + 1 ≠ UINT_SIZE)
    (hsize : ∀ parent, (mf.val.dim = mesh.val.dim ∨ mf.val.dim + 1 = mesh.val.dim) →
      (if mf.val.dim = mesh.val.dim then rm.val.parent_cell else rm.val.parent_facet)
        = some parent → rm.val.num_entities mf.val.dim ≤ parent.length) :
    ((∃ e, (adapt_mesh_function mesh_function refined_mesh s).1 = .error e) ↔
      ((mf.val.dim ≠ mesh.val.dim ∧ mf.val.dim + 1 ≠ mesh.val.dim) ∨
        (if mf.val.dim = mesh.val.dim then rm.val.parent_cell else rm.val.parent_facet)
          = none)) ∧
    (∀ e, (adapt_mesh_function mesh_function refined_mesh s).1 = .error e →
      (adapt_mesh_function mesh_function refined_mesh s).2 = s ∧
      ((adapt_mesh_function mesh_function refined_mesh s).2.mesh_functions[mesh_function]?).map
        Hierarchical.child = some none) := by
  have hsub := uint_sub_one_eq_nowrap mesh.val.dim mf.val.dim hD hwrap
  rw [adapt_mesh_function_eval s mesh_function refined_mesh mf mesh rm hmf hchild hmesh hrm]
  by_cases hsup : mf.val.dim = mesh.val.dim ∨ mf.val.dim = uint_sub mesh.val.dim 1
  · rw [if_pos hsup]
    have hsup1 : mf.val.dim = mesh.val.dim ∨ mf.val.dim + 1 = mesh.val.dim :=
      hsup.imp id hsub.1
    have hnot : ¬ (mf.val.dim ≠ mesh.val.dim ∧ mf.val.dim + 1 ≠ mesh.val.dim) := by
      rintro ⟨h1, h2⟩
      rcases hsup1 with h | h
      · exact h1 h
      · exact h2 h
    rcases hsel : (if mf.val.dim = mesh.val.dim then rm.val.parent_cell
      else rm.val.parent_facet) with _ | parent
    · simp [hnot, hmf, hchild]
    · obtain ⟨values, hv⟩ := map_values_ok mf.val.values parent (undefined_value mf.val.values)
        (List.range (rm.val.num_entities mf.val.dim))
        (fun i hi => lt_of_lt_of_le (List.mem_range.1 hi) (hsize parent hsup1 hsel))
      simp [hnot, hv, set_parent_child_mesh_function]
  · rw [if_neg hsup]
    have hyes : mf.val.dim ≠ mesh.val.dim ∧ mf.val.dim + 1 ≠ mesh.val.dim := by
      refine ⟨fun h => hsup (Or.inl h), fun h => hsup (Or.inr (hsub.2 h))⟩
    simp [hyes, hmf, hchild]

/-- Witness of C4. A facet function on the refined triangle, whose
`parent_facet` map is present, is refined without error; and an edge function
on the refined tetrahedron, of a dimension that is neither `D = 3` nor
`D - 1 = 2`, ends in a fatal error although the fine mesh has 25 edges and
its `parent_facet` map 24 entries. -/
theorem adapt_mesh_function_fails_iff_witness :
    (¬ ∃ e, (adapt_mesh_function 0 1 (facet_function_state [5, 6, 7])).1 = .error e) ∧
    (∃ e, (adapt_mesh_function 0 1 tetrahedron_state).1 = .error e) := by
  have h := (adapt_mesh_function_fails_iff (facet_function_state [5, 6, 7])
    0 1 ⟨⟨0, 1, [5, 6, 7]⟩, none, none⟩ ⟨coarse_triangle, none, none⟩
    ⟨fine_triangle, none, none⟩ rfl rfl rfl rfl (by decide) (by decide)
    (by intro parent _ hp; simp [fine_triangle, coarse_triangle] at hp; subst hp; decide)).1
  have h3 := (adapt_mesh_function_fails_iff tetrahedron_state 0 1
    ⟨⟨0, 1, [1, 2, 3, 4, 5, 6]⟩, none, none⟩ _ _ rfl rfl rfl rfl (by decide) (by decide)
    (fun parent hsup _ => absurd hsup (by decide))).1
  refine ⟨?_, h3.2 (Or.inl (by decide))⟩
  rw [h]
  decide

/-- **C10** (the sentinel is not an unused value), at the failing input: the
facet function `[0, 4294967295, 1]` on the coarse triangle. The refiner
returns, `max_value + 1` wraps to `0`, a value stored in `f`, and the refined
function reads `0` both at the fine facets 2 and 3, whose parent facet 0 is
in range, and at the fine facets 6, 7, 8, whose parent index 3 is out of
range. -/
theorem undefined_value_collides :
    undefined_value [0, 4294967295, 1] = 0 ∧
    0 ∈ [0, 4294967295, 1] ∧
    max_value_loop [0, 4294967295, 1] 0 + 1 = 4294967296 ∧
    (adapt_mesh_function 0 1 (facet_function_state [0, 4294967295, 1])).1 = .ok 1 ∧
    (adapt_mesh_function 0 1 (facet_function_state [0, 4294967295, 1])).2.values_of 1 =
      some [1, 1, 0, 0, 4294967295, 4294967295, 0, 0, 0] := by
  refine ⟨by decide, by decide, by decide, by rfl, by rfl⟩

/-- **C1** (mesh-function round trip), at the failing input: the facet
function `[3, 4294967295, 0]` on the coarse triangle. The refiner returns a
function with one value per fine facet; the fine facets 6, 7, 8 have the
out-of-range parent index 3 and read `0` in the refined function, not
`max(f) + 1 = 4294967296`, and `0` is also what the children of the coarse
facet 2 read. -/
theorem adapt_mesh_function_sentinel_wraps :
    (adapt_mesh_function 0 1 (facet_function_state [3, 4294967295, 0])).1 = .ok 1 ∧
    (adapt_mesh_function 0 1 (facet_function_state [3, 4294967295, 0])).2.values_of 1 =
      some [0, 0, 3, 3, 4294967295, 4294967295, 0, 0, 0] ∧
    fine_triangle.parent_facet = some [2, 2, 0, 0, 1, 1, 3, 3, 3] ∧
    ¬ (3 < [3, 4294967295, 0].length) ∧
    max_value_loop [3, 4294967295, 0] 0 + 1 = 4294967296 := by
  refine ⟨by rfl, by rfl, by rfl, by decide, by decide⟩

/-- Witness of C5: the coarse triangle carries no lineage map. -/
theorem adapt_markers_missing_lineage_witness :
    adapt_markers [(4, 1)] coarse_triangle [] coarse_triangle =
      (.error .missing_parent_info, [(4, 1)]) :=
  adapt_markers_missing_lineage [(4, 1)] coarse_triangle coarse_triangle [] (Or.inl rfl)

/-! ## Arenas -/

theorem Grows.grows_refl {α : Type} (a : List (Hierarchical α)) : Grows a a :=
  fun _ h hi => ⟨h, hi, rfl, rfl, fun _ hc => hc⟩

theorem Grows.grows_trans {α : Type} {a a1 a2 : List (Hierarchical α)} (h1 : Grows a a1)
    (h2 : Grows a1 a2) : Grows a a2 := by
  intro i h hi
  obtain ⟨x, hx, hv, hp, hc⟩ := h1 i h hi
  obtain ⟨y, hy, hv1, hp1, hc1⟩ := h2 i x hx
  exact ⟨y, hy, hv1.trans hv, hp1.trans hp, fun c hcc => hc1 c (hc c hcc)⟩

theorem set_parent_child_snd {α : Type} (a : List (Hierarchical α)) (p : Nat) (v : α) :
    (set_parent_child a p v).2 = a.length := by
  unfold set_parent_child
  cases a[p]? <;> rfl

theorem set_parent_child_fst {α : Type} (a : List (Hierarchical α)) (p : Nat) (v : α)
    (h : Hierarchical α) (hp : a[p]? = some h) :
    (set_parent_child a p v).1 =
      a.set p { h with child := some a.length } ++ [{ val := v, child := none, parent := some p }] := by
  unfold set_parent_child
  rw [hp]

theorem set_parent_child_new {α : Type} (a : List (Hierarchical α)) (p : Nat) (v : α) :
    (set_parent_child a p v).1[a.length]? = some { val := v, child := none, parent := some p } := by
  unfold set_parent_child
  cases a[p]? with
  | none => simp
  | some h =>
    simp only
    rw [List.getElem?_append_right (by simp)]
    simp

theorem set_parent_child_parent {α : Type} (a : List (Hierarchical α)) (p : Nat) (v : α)
    (h : Hierarchical α) (hp : a[p]? = some h) :
    (set_parent_child a p v).1[p]? = some { h with child := some a.length } := by
  have hlt : p < a.length := by
    rcases Nat.lt_or_ge p a.length with hl | hl
    · exact hl
    · rw [List.getElem?_eq_none hl] at hp; simp at hp
  rw [set_parent_child_fst a p v h hp, List.getElem?_append_left (by simpa using hlt)]
  simp [hlt]

theorem set_parent_child_other {α : Type} (a : List (Hierarchical α)) (p : Nat) (v : α)
    (i : Nat) (hne : i ≠ p) (hlt : i < a.length) :
    (set_parent_child a p v).1[i]? = a[i]? := by
  unfold set_parent_child
  cases a[p]? with
  | none => simp only; rw [List.getElem?_append_left hlt]
  | some h =>
    simp only
    rw [List.getElem?_append_left (by simpa using hlt), List.getElem?_set_ne (Ne.symm hne)]

theorem set_parent_child_length {α : Type} (a : List (Hierarchical α)) (p : Nat) (v : α) :
    (set_parent_child a p v).1.length = a.length + 1 := by
  unfold set_parent_child
  cases a[p]? <;> simp

theorem lt_length_of_getElem? {α : Type} {a : List α} {i : Nat} {x : α}
    (h : a[i]? = some x) : i < a.length := by
  rcases Nat.lt_or_ge i a.length with hl | hl
  · exact hl
  · rw [List.getElem?_eq_none hl] at h; simp at h

theorem set_parent_child_grows {α : Type} (a : List (Hierarchical α)) (p : Nat) (v : α)
    (h : Hierarchical α) (hp : a[p]? = some h) (hc : h.child = none) :
    Grows a (set_parent_child a p v).1 := by
  intro i x hi
  by_cases hip : i = p
  · subst hip
    rw [hp] at hi
    simp only [Option.some.injEq] at hi
    subst hi
    exact ⟨_, set_parent_child_parent a i v h hp, rfl, rfl, fun c hcc => by rw [hc] at hcc; simp at hcc⟩
  · rw [← set_parent_child_other a p v i hip (lt_length_of_getElem? hi)] at hi
    exact ⟨x, hi, rfl, rfl, fun _ hcc => hcc⟩

theorem set_parent_child_parentsLinked {α : Type} (a : List (Hierarchical α)) (p : Nat) (v : α)
    (h : Hierarchical α) (hp : a[p]? = some h) (hc : h.child = none) (hl : ParentsLinked a) :
    ParentsLinked (set_parent_child a p v).1 := by
  have hplt := lt_length_of_getElem? hp
  intro c x q hx hq
  rcases Nat.lt_trichotomy c a.length with hlt | heq | hgt
  · -- an old object
    by_cases hcp : c = p
    · subst hcp
      rw [set_parent_child_parent a c v h hp] at hx
      simp only [Option.some.injEq] at hx
      subst hx
      simp only at hq
      obtain ⟨y, hy, hyc⟩ := hl c h q hp hq
      by_cases hqc : q = c
      · subst hqc
        rw [hp] at hy
        simp only [Option.some.injEq] at hy
        subst hy
        rw [hc] at hyc; simp at hyc
      · rw [← set_parent_child_other a c v q hqc (lt_length_of_getElem? hy)] at hy
        exact ⟨y, hy, hyc⟩
    · rw [set_parent_child_other a p v c hcp hlt] at hx
      obtain ⟨y, hy, hyc⟩ := hl c x q hx hq
      by_cases hqp : q = p
      · subst hqp
        rw [hp] at hy
        simp only [Option.some.injEq] at hy
        subst hy
        rw [hc] at hyc; simp at hyc
      · rw [← set_parent_child_other a p v q hqp (lt_length_of_getElem? hy)] at hy
        exact ⟨y, hy, hyc⟩
  · -- the new object
    subst heq
    rw [set_parent_child_new] at hx
    simp only [Option.some.injEq] at hx
    subst hx
    simp only [Option.some.injEq] at hq
    subst hq
    exact ⟨_, set_parent_child_parent a p v h hp, rfl⟩
  · have : (set_parent_child a p v).1.length ≤ c := by
      rw [set_parent_child_length]; omega
    rw [List.getElem?_eq_none this] at hx
    simp at hx

theorem set_parent_child_childrenLinked {α : Type} (a : List (Hierarchical α)) (p : Nat) (v : α)
    (h : Hierarchical α) (hp : a[p]? = some h) (hl : ChildrenLinked a) :
    ChildrenLinked (set_parent_child a p v).1 := by
  intro q y c hy hyc
  rcases Nat.lt_trichotomy q a.length with hlt | heq | hgt
  · by_cases hqp : q = p
    · subst hqp
      rw [set_parent_child_parent a q v h hp] at hy
      simp only [Option.some.injEq] at hy
      subst hy
      simp only [Option.some.injEq] at hyc
      subst hyc
      exact ⟨_, set_parent_child_new a q v, rfl⟩
    · rw [set_parent_child_other a p v q hqp hlt] at hy
      obtain ⟨x, hx, hxp⟩ := hl q y c hy hyc
      by_cases hcp : c = p
      · subst hcp
        rw [hp] at hx
        simp only [Option.some.injEq] at hx
        subst hx
        exact ⟨_, set_parent_child_parent a c v h hp, hxp⟩
      · rw [← set_parent_child_other a p v c hcp (lt_length_of_getElem? hx)] at hx
        exact ⟨x, hx, hxp⟩
  · subst heq
    rw [set_parent_child_new] at hy
    simp only [Option.some.injEq] at hy
    subst hy
    simp at hyc
  · have : (set_parent_child a p v).1.length ≤ q := by
      rw [set_parent_child_length]; omega
    rw [List.getElem?_eq_none this] at hy
    simp at hy

theorem set_parent_child_linked {α : Type} (a : List (Hierarchical α)) (p : Nat) (v : α)
    (h : Hierarchical α) (hp : a[p]? = some h) (hc : h.child = none) (hl : Linked a) :
    Linked (set_parent_child a p v).1 :=
  ⟨set_parent_child_parentsLinked a p v h hp hc hl.1,
    set_parent_child_childrenLinked a p v h hp hl.2⟩

theorem getElem?_append_singleton {α : Type} (a : List α) (x y : α) (i : Nat)
    (h : (a ++ [x])[i]? = some y) : a[i]? = some y ∨ (i = a.length ∧ y = x) := by
  rcases Nat.lt_or_ge i a.length with hlt | hge
  · rw [List.getElem?_append_left hlt] at h
    exact Or.inl h
  · rw [List.getElem?_append_right hge] at h
    rcases Nat.eq_zero_or_pos (i - a.length) with h0 | hpos
    · rw [h0] at h
      simp only [List.getElem?_cons_zero, Option.some.injEq] at h
      exact Or.inr ⟨by omega, h.symm⟩
    · rw [List.getElem?_eq_none (by simp only [List.length_singleton]; omega)] at h
      simp at h

theorem getElem?_append_of_some {α : Type} (a : List α) (x y : α) (i : Nat)
    (h : a[i]? = some y) : (a ++ [x])[i]? = some y := by
  rw [List.getElem?_append_left (lt_length_of_getElem? h)]; exact h

theorem append_unlinked_linked {α : Type} (a : List (Hierarchical α)) (v : α)
    (hl : Linked a) : Linked (a ++ [{ val := v, child := none, parent := none }]) := by
  constructor
  · intro c h p hc hp
    rcases getElem?_append_singleton a _ h c hc with h1 | ⟨_, h1⟩
    · obtain ⟨y, hy, hyc⟩ := hl.1 c h p h1 hp
      exact ⟨y, getElem?_append_of_some a _ y p hy, hyc⟩
    · rw [h1] at hp; simp at hp
  · intro p h c hc hp
    rcases getElem?_append_singleton a _ h p hc with h1 | ⟨_, h1⟩
    · obtain ⟨y, hy, hyc⟩ := hl.2 p h c h1 hp
      exact ⟨y, getElem?_append_of_some a _ y c hy, hyc⟩
    · rw [h1] at hp; simp at hp

/-! ## Refinement of states -/

theorem Unchanged.unchanged_refl (k : Kind) (s : State) : Unchanged k s s := by
  cases k <;> rfl

theorem Unchanged.unchanged_trans {k : Kind} {s s1 s2 : State} (h1 : Unchanged k s s1)
    (h2 : Unchanged k s1 s2) : Unchanged k s s2 := by
  cases k <;> simp only [Unchanged] at * <;> rw [h2, h1]

theorem Unchanged.growsAt {k : Kind} {s s1 : State} (h : Unchanged k s s1) :
    GrowsAt k s s1 := by
  cases k <;> simp only [Unchanged] at h <;> simp only [GrowsAt, h] <;> exact Grows.grows_refl _

theorem Unchanged.linkedAt {k : Kind} {s s1 : State} (h : Unchanged k s s1)
    (hl : LinkedAt k s) : LinkedAt k s1 := by
  cases k <;> simp only [Unchanged] at h <;> simp only [LinkedAt] at hl ⊢ <;> rw [h] <;>
    exact hl

theorem GrowsAt.growsAt_trans {k : Kind} {s s1 s2 : State} (h1 : GrowsAt k s s1)
    (h2 : GrowsAt k s1 s2) : GrowsAt k s s2 := by
  cases k <;> exact Grows.grows_trans h1 h2

theorem Refines.refines_refl (ks : List Kind) (s : State) : Refines ks s s :=
  ⟨fun k _ => Unchanged.unchanged_refl k s, fun k => (Unchanged.unchanged_refl k s).growsAt, fun _ h => h⟩

theorem Refines.refines_trans {ks : List Kind} {s s1 s2 : State} (h1 : Refines ks s s1)
    (h2 : Refines ks s1 s2) : Refines ks s s2 :=
  ⟨fun k hk => (h1.touches k hk).unchanged_trans (h2.touches k hk),
    fun k => (h1.grows k).growsAt_trans (h2.grows k),
    fun k h => h2.linked k (h1.linked k h)⟩

theorem Refines.mono {ks ks1 : List Kind} {s s1 : State} (hsub : ks ⊆ ks1)
    (h : Refines ks s s1) : Refines ks1 s s1 :=
  ⟨fun k hk => h.touches k (fun hmem => hk (hsub hmem)), h.grows, h.linked⟩

theorem sound_pure {α : Type} (ks : List Kind) (a : α) : Sound ks (pure a : Adapt α) :=
  fun s => Refines.refines_refl ks s

theorem sound_fail {α : Type} (ks : List Kind) (e : Failure) : Sound ks (fail e : Adapt α) :=
  fun s => Refines.refines_refl ks s

theorem sound_lift {α : Type} (ks : List Kind) (r : Except Failure α) : Sound ks (lift r) :=
  fun s => Refines.refines_refl ks s

theorem sound_mono {α : Type} {ks ks1 : List Kind} {m : Adapt α}
    (hsub : ks ⊆ ks1) (h : Sound ks m) : Sound ks1 m :=
  fun s => (h s).mono hsub

theorem sound_bind {α β : Type} {ks : List Kind} {m : Adapt α} {f : α → Adapt β}
    (hm : Sound ks m) (hf : ∀ a, Sound ks (f a)) : Sound ks (m >>= f) := by
  intro s
  rw [Adapt.bind_apply]
  have h1 := hm s
  rcases hr : m s with ⟨e | a, s1⟩
  · rw [hr] at h1; exact h1
  · rw [hr] at h1; exact h1.refines_trans (hf a s1)

theorem soundFrom_of_sound {α : Type} {P : State → Prop} {ks : List Kind} {m : Adapt α}
    (h : Sound ks m) : SoundFrom P ks m := fun s _ => h s

/-- Sequencing under a condition that the first step keeps. -/
theorem soundFrom_bind {α β : Type} {P : State → Prop} {ks0 ks : List Kind} {m : Adapt α}
    {f : α → Adapt β} (hm : Sound ks0 m) (hsub : ks0 ⊆ ks)
    (hP : ∀ s s1, Touches ks0 s s1 → P s → P s1) (hf : ∀ a, SoundFrom P ks (f a)) :
    SoundFrom P ks (m >>= f) := by
  intro s hs
  rw [Adapt.bind_apply]
  have h1 := hm s
  rcases hr : m s with ⟨e | a, s1⟩
  · rw [hr] at h1; exact h1.mono hsub
  · rw [hr] at h1
    exact (h1.mono hsub).refines_trans (hf a s1 (hP s s1 h1.touches hs))

theorem sound_skip_if_refined {ks : List Kind} (child : Option Nat) {refine : Adapt Nat}
    (h : child = none → Sound ks refine) : Sound ks (skip_if_refined child refine) := by
  cases child with
  | none => exact h rfl
  | some c => exact sound_pure ks c

/-! ## The arenas, kind by kind -/

theorem sound_get_mesh (ks : List Kind) (id : Nat) : Sound ks (get_mesh id) :=
  fun s => Refines.refines_refl ks s

theorem get_mesh_ok (id : Nat) (s : State) (h : Hierarchical Mesh) (hh : s.meshes[id]? = some h) :
    get_mesh id s = (.ok h, s) := by
  simp [get_mesh, hh, required]

theorem get_mesh_eq_ok (id : Nat) (s s1 : State) (h : Hierarchical Mesh)
    (hh : get_mesh id s = (.ok h, s1)) : s1 = s ∧ s.meshes[id]? = some h := by
  unfold get_mesh at hh
  cases hx : s.meshes[id]? with
  | none => rw [hx] at hh; simp [required] at hh
  | some x =>
    rw [hx] at hh
    simp only [required, Prod.mk.injEq, Except.ok.injEq] at hh
    exact ⟨hh.2.symm, by rw [hh.1]⟩

theorem get_mesh_state (id : Nat) (s : State) : (get_mesh id s).2 = s := rfl

theorem set_parent_child_mesh_refines (p : Nat) (v : Mesh) (s : State) (h : Hierarchical Mesh)
    (hp : s.meshes[p]? = some h) (hc : h.child = none) :
    Refines [.mesh] s (set_parent_child_mesh p v s).2 := by
  refine ⟨?_, ?_, ?_⟩
  · intro k hk
    cases k <;> first | rfl | exact absurd (List.mem_singleton.2 rfl) hk
  · intro k
    cases k <;> first | exact Grows.grows_refl _ | exact set_parent_child_grows _ p v h hp hc
  · intro k hl
    cases k <;> first | exact hl | exact set_parent_child_linked _ p v h hp hc hl

theorem sound_guarded_mesh {ks : List Kind} (id : Nat) (body : Hierarchical Mesh → Adapt Nat)
    (hbody : ∀ h, h.child = none → SoundFrom (fun s => s.meshes[id]? = some h) ks (body h)) :
    Sound ks (get_mesh id >>= fun h => skip_if_refined h.child (body h)) := by
  intro s
  rw [Adapt.bind_apply]
  cases hx : s.meshes[id]? with
  | none => simp only [get_mesh, hx, required]; exact Refines.refines_refl ks s
  | some h =>
    simp only [get_mesh, hx, required]
    cases hc : h.child with
    | some c => exact Refines.refines_refl ks s
    | none =>
      have := hbody h hc s hx
      simpa [skip_if_refined] using this

theorem soundFrom_set_parent_child_mesh {ks : List Kind} (hk : Kind.mesh ∈ ks) (p : Nat) (v : Mesh)
    (h : Hierarchical Mesh) (hc : h.child = none) :
    SoundFrom (fun s => s.meshes[p]? = some h) ks (set_parent_child_mesh p v) :=
  fun s hp => (set_parent_child_mesh_refines p v s h hp hc).mono
    (fun k hmem => by rw [List.mem_singleton.1 hmem]; exact hk)

theorem Touches.keeps_mesh {ks : List Kind} (hk : Kind.mesh ∉ ks) (id : Nat) (h : Hierarchical Mesh)
    (s s1 : State) (ht : Touches ks s s1) (hs : s.meshes[id]? = some h) : s1.meshes[id]? = some h := by
  have := ht .mesh hk
  simp only [Unchanged] at this
  rw [this]; exact hs

theorem sound_get_space (ks : List Kind) (id : Nat) : Sound ks (get_space id) :=
  fun s => Refines.refines_refl ks s

theorem get_space_ok (id : Nat) (s : State) (h : Hierarchical FunctionSpace) (hh : s.spaces[id]? = some h) :
    get_space id s = (.ok h, s) := by
  simp [get_space, hh, required]

theorem get_space_eq_ok (id : Nat) (s s1 : State) (h : Hierarchical FunctionSpace)
    (hh : get_space id s = (.ok h, s1)) : s1 = s ∧ s.spaces[id]? = some h := by
  unfold get_space at hh
  cases hx : s.spaces[id]? with
  | none => rw [hx] at hh; simp [required] at hh
  | some x =>
    rw [hx] at hh
    simp only [required, Prod.mk.injEq, Except.ok.injEq] at hh
    exact ⟨hh.2.symm, by rw [hh.1]⟩

theorem get_space_state (id : Nat) (s : State) : (get_space id s).2 = s := rfl

theorem set_parent_child_space_refines (p : Nat) (v : FunctionSpace) (s : State) (h : Hierarchical FunctionSpace)
    (hp : s.spaces[p]? = some h) (hc : h.child = none) :
    Refines [.space] s (set_parent_child_space p v s).2 := by
  refine ⟨?_, ?_, ?_⟩
  · intro k hk
    cases k <;> first | rfl | exact absurd (List.mem_singleton.2 rfl) hk
  · intro k
    cases k <;> first | exact Grows.grows_refl _ | exact set_parent_child_grows _ p v h hp hc
  · intro k hl
    cases k <;> first | exact hl | exact set_parent_child_linked _ p v h hp hc hl

theorem sound_guarded_space {ks : List Kind} (id : Nat) (body : Hierarchical FunctionSpace → Adapt Nat)
    (hbody : ∀ h, h.child = none → SoundFrom (fun s => s.spaces[id]? = some h) ks (body h)) :
    Sound ks (get_space id >>= fun h => skip_if_refined h.child (body h)) := by
  intro s
  rw [Adapt.bind_apply]
  cases hx : s.spaces[id]? with
  | none => simp only [get_space, hx, required]; exact Refines.refines_refl ks s
  | some h =>
    simp only [get_space, hx, required]
    cases hc : h.child with
    | some c => exact Refines.refines_refl ks s
    | none =>
      have := hbody h hc s hx
      simpa [skip_if_refined] using this

theorem soundFrom_set_parent_child_space {ks : List Kind} (hk : Kind.space ∈ ks) (p : Nat) (v : FunctionSpace)
    (h : Hierarchical FunctionSpace) (hc : h.child = none) :
    SoundFrom (fun s => s.spaces[p]? = some h) ks (set_parent_child_space p v) :=
  fun s hp => (set_parent_child_space_refines p v s h hp hc).mono
    (fun k hmem => by rw [List.mem_singleton.1 hmem]; exact hk)

theorem Touches.keeps_space {ks : List Kind} (hk : Kind.space ∉ ks) (id : Nat) (h : Hierarchical FunctionSpace)
    (s s1 : State) (ht : Touches ks s s1) (hs : s.spaces[id]? = some h) : s1.spaces[id]? = some h := by
  have := ht .space hk
  simp only [Unchanged] at this
  rw [this]; exact hs

theorem sound_get_function (ks : List Kind) (id : Nat) : Sound ks (get_function id) :=
  fun s => Refines.refines_refl ks s

theorem get_function_ok (id : Nat) (s : State) (h : Hierarchical Function) (hh : s.functions[id]? = some h) :
    get_function id s = (.ok h, s) := by
  simp [get_function, hh, required]

theorem get_function_eq_ok (id : Nat) (s s1 : State) (h : Hierarchical Function)
    (hh : get_function id s = (.ok h, s1)) : s1 = s ∧ s.functions[id]? = some h := by
  unfold get_function at hh
  cases hx : s.functions[id]? with
  | none => rw [hx] at hh; simp [required] at hh
  | some x =>
    rw [hx] at hh
    simp only [required, Prod.mk.injEq, Except.ok.injEq] at hh
    exact ⟨hh.2.symm, by rw [hh.1]⟩

theorem get_function_state (id : Nat) (s : State) : (get_function id s).2 = s := rfl

theorem set_parent_child_function_refines (p : Nat) (v : Function) (s : State) (h : Hierarchical Function)
    (hp : s.functions[p]? = some h) (hc : h.child = none) :
    Refines [.function] s (set_parent_child_function p v s).2 := by
  refine ⟨?_, ?_, ?_⟩
  · intro k hk
    cases k <;> first | rfl | exact absurd (List.mem_singleton.2 rfl) hk
  · intro k
    cases k <;> first | exact Grows.grows_refl _ | exact set_parent_child_grows _ p v h hp hc
  · intro k hl
    cases k <;> first | exact hl | exact set_parent_child_linked _ p v h hp hc hl

theorem sound_guarded_function {ks : List Kind} (id : Nat) (body : Hierarchical Function → Adapt Nat)
    (hbody : ∀ h, h.child = none → SoundFrom (fun s => s.functions[id]? = some h) ks (body h)) :
    Sound ks (get_function id >>= fun h => skip_if_refined h.child (body h)) := by
  intro s
  rw [Adapt.bind_apply]
  cases hx : s.functions[id]? with
  | none => simp only [get_function, hx, required]; exact Refines.refines_refl ks s
  | some h =>
    simp only [get_function, hx, required]
    cases hc : h.child with
    | some c => exact Refines.refines_refl ks s
    | none =>
      have := hbody h hc s hx
      simpa [skip_if_refined] using this

theorem soundFrom_set_parent_child_function {ks : List Kind} (hk : Kind.function ∈ ks) (p : Nat) (v : Function)
    (h : Hierarchical Function) (hc : h.child = none) :
    SoundFrom (fun s => s.functions[p]? = some h) ks (set_parent_child_function p v) :=
  fun s hp => (set_parent_child_function_refines p v s h hp hc).mono
    (fun k hmem => by rw [List.mem_singleton.1 hmem]; exact hk)

theorem Touches.keeps_function {ks : List Kind} (hk : Kind.function ∉ ks) (id : Nat) (h : Hierarchical Function)
    (s s1 : State) (ht : Touches ks s s1) (hs : s.functions[id]? = some h) : s1.functions[id]? = some h := by
  have := ht .function hk
  simp only [Unchanged] at this
  rw [this]; exact hs

theorem sound_get_form (ks : List Kind) (id : Nat) : Sound ks (get_form id) :=
  fun s => Refines.refines_refl ks s

theorem get_form_ok (id : Nat) (s : State) (h : Hierarchical Form) (hh : s.forms[id]? = some h) :
    get_form id s = (.ok h, s) := by
  simp [get_form, hh, required]

theorem get_form_eq_ok (id : Nat) (s s1 : State) (h : Hierarchical Form)
    (hh : get_form id s = (.ok h, s1)) : s1 = s ∧ s.forms[id]? = some h := by
  unfold get_form at hh
  cases hx : s.forms[id]? with
  | none => rw [hx] at hh; simp [required] at hh
  | some x =>
    rw [hx] at hh
    simp only [required, Prod.mk.injEq, Except.ok.injEq] at hh
    exact ⟨hh.2.symm, by rw [hh.1]⟩

theorem get_form_state (id : Nat) (s : State) : (get_form id s).2 = s := rfl

theorem set_parent_child_form_refines (p : Nat) (v : Form) (s : State) (h : Hierarchical Form)
    (hp : s.forms[p]? = some h) (hc : h.child = none) :
    Refines [.form] s (set_parent_child_form p v s).2 := by
  refine ⟨?_, ?_, ?_⟩
  · intro k hk
    cases k <;> first | rfl | exact absurd (List.mem_singleton.2 rfl) hk
  · intro k
    cases k <;> first | exact Grows.grows_refl _ | exact set_parent_child_grows _ p v h hp hc
  · intro k hl
    cases k <;> first | exact hl | exact set_parent_child_linked _ p v h hp hc hl

theorem sound_guarded_form {ks : List Kind} (id : Nat) (body : Hierarchical Form → Adapt Nat)
    (hbody : ∀ h, h.child = none → SoundFrom (fun s => s.forms[id]? = some h) ks (body h)) :
    Sound ks (get_form id >>= fun h => skip_if_refined h.child (body h)) := by
  intro s
  rw [Adapt.bind_apply]
  cases hx : s.forms[id]? with
  | none => simp only [get_form, hx, required]; exact Refines.refines_refl ks s
  | some h =>
    simp only [get_form, hx, required]
    cases hc : h.child with
    | some c => exact Refines.refines_refl ks s
    | none =>
      have := hbody h hc s hx
      simpa [skip_if_refined] using this

theorem soundFrom_set_parent_child_form {ks : List Kind} (hk : Kind.form ∈ ks) (p : Nat) (v : Form)
    (h : Hierarchical Form) (hc : h.child = none) :
    SoundFrom (fun s => s.forms[p]? = some h) ks (set_parent_child_form p v) :=
  fun s hp => (set_parent_child_form_refines p v s h hp hc).mono
    (fun k hmem => by rw [List.mem_singleton.1 hmem]; exact hk)

theorem Touches.keeps_form {ks : List Kind} (hk : Kind.form ∉ ks) (id : Nat) (h : Hierarchical Form)
    (s s1 : State) (ht : Touches ks s s1) (hs : s.forms[id]? = some h) : s1.forms[id]? = some h := by
  have := ht .form hk
  simp only [Unchanged] at this
  rw [this]; exact hs

theorem sound_get_bc (ks : List Kind) (id : Nat) : Sound ks (get_bc id) :=
  fun s => Refines.refines_refl ks s

theorem get_bc_ok (id : Nat) (s : State) (h : Hierarchical DirichletBC) (hh : s.bcs[id]? = some h) :
    get_bc id s = (.ok h, s) := by
  simp [get_bc, hh, required]

theorem get_bc_eq_ok (id : Nat) (s s1 : State) (h : Hierarchical DirichletBC)
    (hh : get_bc id s = (.ok h, s1)) : s1 = s ∧ s.bcs[id]? = some h := by
  unfold get_bc at hh
  cases hx : s.bcs[id]? with
  | none => rw [hx] at hh; simp [required] at hh
  | some x =>
    rw [hx] at hh
    simp only [required, Prod.mk.injEq, Except.ok.injEq] at hh
    exact ⟨hh.2.symm, by rw [hh.1]⟩

theorem get_bc_state (id : Nat) (s : State) : (get_bc id s).2 = s := rfl

theorem set_parent_child_bc_refines (p : Nat) (v : DirichletBC) (s : State) (h : Hierarchical DirichletBC)
    (hp : s.bcs[p]? = some h) (hc : h.child = none) :
    Refines [.bc] s (set_parent_child_bc p v s).2 := by
  refine ⟨?_, ?_, ?_⟩
  · intro k hk
    cases k <;> first | rfl | exact absurd (List.mem_singleton.2 rfl) hk
  · intro k
    cases k <;> first | exact Grows.grows_refl _ | exact set_parent_child_grows _ p v h hp hc
  · intro k hl
    cases k <;> first | exact hl | exact set_parent_child_linked _ p v h hp hc hl

theorem sound_guarded_bc {ks : List Kind} (id : Nat) (body : Hierarchical DirichletBC → Adapt Nat)
    (hbody : ∀ h, h.child = none → SoundFrom (fun s => s.bcs[id]? = some h) ks (body h)) :
    Sound ks (get_bc id >>= fun h => skip_if_refined h.child (body h)) := by
  intro s
  rw [Adapt.bind_apply]
  cases hx : s.bcs[id]? with
  | none => simp only [get_bc, hx, required]; exact Refines.refines_refl ks s
  | some h =>
    simp only [get_bc, hx, required]
    cases hc : h.child with
    | some c => exact Refines.refines_refl ks s
    | none =>
      have := hbody h hc s hx
      simpa [skip_if_refined] using this

theorem soundFrom_set_parent_child_bc {ks : List Kind} (hk : Kind.bc ∈ ks) (p : Nat) (v : DirichletBC)
    (h : Hierarchical DirichletBC) (hc : h.child = none) :
    SoundFrom (fun s => s.bcs[p]? = some h) ks (set_parent_child_bc p v) :=
  fun s hp => (set_parent_child_bc_refines p v s h hp hc).mono
    (fun k hmem => by rw [List.mem_singleton.1 hmem]; exact hk)

theorem Touches.keeps_bc {ks : List Kind} (hk : Kind.bc ∉ ks) (id : Nat) (h : Hierarchical DirichletBC)
    (s s1 : State) (ht : Touches ks s s1) (hs : s.bcs[id]? = some h) : s1.bcs[id]? = some h := by
  have := ht .bc hk
  simp only [Unchanged] at this
  rw [this]; exact hs

theorem sound_get_problem (ks : List Kind) (id : Nat) : Sound ks (get_problem id) :=
  fun s => Refines.refines_refl ks s

theorem get_problem_ok (id : Nat) (s : State) (h : Hierarchical VariationalProblem) (hh : s.problems[id]? = some h) :
    get_problem id s = (.ok h, s) := by
  simp [get_problem, hh, required]

theorem get_problem_eq_ok (id : Nat) (s s1 : State) (h : Hierarchical VariationalProblem)
    (hh : get_problem id s = (.ok h, s1)) : s1 = s ∧ s.problems[id]? = some h := by
  unfold get_problem at hh
  cases hx : s.problems[id]? with
  | none => rw [hx] at hh; simp [required] at hh
  | some x =>
    rw [hx] at hh
    simp only [required, Prod.mk.injEq, Except.ok.injEq] at hh
    exact ⟨hh.2.symm, by rw [hh.1]⟩

theorem get_problem_state (id : Nat) (s : State) : (get_problem id s).2 = s := rfl

theorem set_parent_child_problem_refines (p : Nat) (v : VariationalProblem) (s : State) (h : Hierarchical VariationalProblem)
    (hp : s.problems[p]? = some h) (hc : h.child = none) :
    Refines [.problem] s (set_parent_child_problem p v s).2 := by
  refine ⟨?_, ?_, ?_⟩
  · intro k hk
    cases k <;> first | rfl | exact absurd (List.mem_singleton.2 rfl) hk
  · intro k
    cases k <;> first | exact Grows.grows_refl _ | exact set_parent_child_grows _ p v h hp hc
  · intro k hl
    cases k <;> first | exact hl | exact set_parent_child_linked _ p v h hp hc hl

theorem sound_guarded_problem {ks : List Kind} (id : Nat) (body : Hierarchical VariationalProblem → Adapt Nat)
    (hbody : ∀ h, h.child = none → SoundFrom (fun s => s.problems[id]? = some h) ks (body h)) :
    Sound ks (get_problem id >>= fun h => skip_if_refined h.child (body h)) := by
  intro s
  rw [Adapt.bind_apply]
  cases hx : s.problems[id]? with
  | none => simp only [get_problem, hx, required]; exact Refines.refines_refl ks s
  | some h =>
    simp only [get_problem, hx, required]
    cases hc : h.child with
    | some c => exact Refines.refines_refl ks s
    | none =>
      have := hbody h hc s hx
      simpa [skip_if_refined] using this

theorem soundFrom_set_parent_child_problem {ks : List Kind} (hk : Kind.problem ∈ ks) (p : Nat) (v : VariationalProblem)
    (h : Hierarchical VariationalProblem) (hc : h.child = none) :
    SoundFrom (fun s => s.problems[p]? = some h) ks (set_parent_child_problem p v) :=
  fun s hp => (set_parent_child_problem_refines p v s h hp hc).mono
    (fun k hmem => by rw [List.mem_singleton.1 hmem]; exact hk)

theorem Touches.keeps_problem {ks : List Kind} (hk : Kind.problem ∉ ks) (id : Nat) (h : Hierarchical VariationalProblem)
    (s s1 : State) (ht : Touches ks s s1) (hs : s.problems[id]? = some h) : s1.problems[id]? = some h := by
  have := ht .problem hk
  simp only [Unchanged] at this
  rw [this]; exact hs

theorem sound_get_ec (ks : List Kind) (id : Nat) : Sound ks (get_ec id) :=
  fun s => Refines.refines_refl ks s

theorem get_ec_ok (id : Nat) (s : State) (h : Hierarchical ErrorControl) (hh : s.ecs[id]? = some h) :
    get_ec id s = (.ok h, s) := by
  simp [get_ec, hh, required]

theorem get_ec_eq_ok (id : Nat) (s s1 : State) (h : Hierarchical ErrorControl)
    (hh : get_ec id s = (.ok h, s1)) : s1 = s ∧ s.ecs[id]? = some h := by
  unfold get_ec at hh
  cases hx : s.ecs[id]? with
  | none => rw [hx] at hh; simp [required] at hh
  | some x =>
    rw [hx] at hh
    simp only [required, Prod.mk.injEq, Except.ok.injEq] at hh
    exact ⟨hh.2.symm, by rw [hh.1]⟩

theorem get_ec_state (id : Nat) (s : State) : (get_ec id s).2 = s := rfl

theorem set_parent_child_ec_refines (p : Nat) (v : ErrorControl) (s : State) (h : Hierarchical ErrorControl)
    (hp : s.ecs[p]? = some h) (hc : h.child = none) :
    Refines [.ec] s (set_parent_child_ec p v s).2 := by
  refine ⟨?_, ?_, ?_⟩
  · intro k hk
    cases k <;> first | rfl | exact absurd (List.mem_singleton.2 rfl) hk
  · intro k
    cases k <;> first | exact Grows.grows_refl _ | exact set_parent_child_grows _ p v h hp hc
  · intro k hl
    cases k <;> first | exact hl | exact set_parent_child_linked _ p v h hp hc hl

theorem sound_guarded_ec {ks : List Kind} (id : Nat) (body : Hierarchical ErrorControl → Adapt Nat)
    (hbody : ∀ h, h.child = none → SoundFrom (fun s => s.ecs[id]? = some h) ks (body h)) :
    Sound ks (get_ec id >>= fun h => skip_if_refined h.child (body h)) := by
  intro s
  rw [Adapt.bind_apply]
  cases hx : s.ecs[id]? with
  | none => simp only [get_ec, hx, required]; exact Refines.refines_refl ks s
  | some h =>
    simp only [get_ec, hx, required]
    cases hc : h.child with
    | some c => exact Refines.refines_refl ks s
    | none =>
      have := hbody h hc s hx
      simpa [skip_if_refined] using this

theorem soundFrom_set_parent_child_ec {ks : List Kind} (hk : Kind.ec ∈ ks) (p : Nat) (v : ErrorControl)
    (h : Hierarchical ErrorControl) (hc : h.child = none) :
    SoundFrom (fun s => s.ecs[p]? = some h) ks (set_parent_child_ec p v) :=
  fun s hp => (set_parent_child_ec_refines p v s h hp hc).mono
    (fun k hmem => by rw [List.mem_singleton.1 hmem]; exact hk)

theorem Touches.keeps_ec {ks : List Kind} (hk : Kind.ec ∉ ks) (id : Nat) (h : Hierarchical ErrorControl)
    (s s1 : State) (ht : Touches ks s s1) (hs : s.ecs[id]? = some h) : s1.ecs[id]? = some h := by
  have := ht .ec hk
  simp only [Unchanged] at this
  rw [this]; exact hs

theorem sound_get_mesh_function (ks : List Kind) (id : Nat) : Sound ks (get_mesh_function id) :=
  fun s => Refines.refines_refl ks s

theorem get_mesh_function_ok (id : Nat) (s : State) (h : Hierarchical MeshFunction) (hh : s.mesh_functions[id]? = some h) :
    get_mesh_function id s = (.ok h, s) := by
  simp [get_mesh_function, hh, required]

theorem get_mesh_function_eq_ok (id : Nat) (s s1 : State) (h : Hierarchical MeshFunction)
    (hh : get_mesh_function id s = (.ok h, s1)) : s1 = s ∧ s.mesh_functions[id]? = some h := by
  unfold get_mesh_function at hh
  cases hx : s.mesh_functions[id]? with
  | none => rw [hx] at hh; simp [required] at hh
  | some x =>
    rw [hx] at hh
    simp only [required, Prod.mk.injEq, Except.ok.injEq] at hh
    exact ⟨hh.2.symm, by rw [hh.1]⟩

theorem get_mesh_function_state (id : Nat) (s : State) : (get_mesh_function id s).2 = s := rfl

theorem set_parent_child_mesh_function_refines (p : Nat) (v : MeshFunction) (s : State) (h : Hierarchical MeshFunction)
    (hp : s.mesh_functions[p]? = some h) (hc : h.child = none) :
    Refines [.mesh_function] s (set_parent_child_mesh_function p v s).2 := by
  refine ⟨?_, ?_, ?_⟩
  · intro k hk
    cases k <;> first | rfl | exact absurd (List.mem_singleton.2 rfl) hk
  · intro k
    cases k <;> first | exact Grows.grows_refl _ | exact set_parent_child_grows _ p v h hp hc
  · intro k hl
    cases k <;> first | exact hl | exact set_parent_child_linked _ p v h hp hc hl

theorem sound_guarded_mesh_function {ks : List Kind} (id : Nat) (body : Hierarchical MeshFunction → Adapt Nat)
    (hbody : ∀ h, h.child = none → SoundFrom (fun s => s.mesh_functions[id]? = some h) ks (body h)) :
    Sound ks (get_mesh_function id >>= fun h => skip_if_refined h.child (body h)) := by
  intro s
  rw [Adapt.bind_apply]
  cases hx : s.mesh_functions[id]? with
  | none => simp only [get_mesh_function, hx, required]; exact Refines.refines_refl ks s
  | some h =>
    simp only [get_mesh_function, hx, required]
    cases hc : h.child with
    | some c => exact Refines.refines_refl ks s
    | none =>
      have := hbody h hc s hx
      simpa [skip_if_refined] using this

theorem soundFrom_set_parent_child_mesh_function {ks : List Kind} (hk : Kind.mesh_function ∈ ks) (p : Nat) (v : MeshFunction)
    (h : Hierarchical MeshFunction) (hc : h.child = none) :
    SoundFrom (fun s => s.mesh_functions[p]? = some h) ks (set_parent_child_mesh_function p v) :=
  fun s hp => (set_parent_child_mesh_function_refines p v s h hp hc).mono
    (fun k hmem => by rw [List.mem_singleton.1 hmem]; exact hk)

theorem Touches.keeps_mesh_function {ks : List Kind} (hk : Kind.mesh_function ∉ ks) (id : Nat) (h : Hierarchical MeshFunction)
    (s s1 : State) (ht : Touches ks s s1) (hs : s.mesh_functions[id]? = some h) : s1.mesh_functions[id]? = some h := by
  have := ht .mesh_function hk
  simp only [Unchanged] at this
  rw [this]; exact hs

/-! ## Every refiner is a refinement of the state -/

theorem sound_new_space (V : FunctionSpace) : Sound [.space] (new_space V) := by
  intro s
  refine ⟨?_, ?_, ?_⟩
  · intro k hk
    cases k <;> first | rfl | exact absurd (List.mem_singleton.2 rfl) hk
  · intro k
    cases k <;> first | exact Grows.grows_refl _ | skip
    intro i h hi
    exact ⟨h, getElem?_append_of_some s.spaces _ h i hi, rfl, rfl, fun _ hc => hc⟩
  · intro k hl
    cases k <;> first | exact hl | skip
    exact append_unlinked_linked s.spaces V hl

theorem sound_adapt_mesh (ext : External) (mesh : Nat) : Sound [.mesh] (adapt_mesh ext mesh) := by
  unfold adapt_mesh
  apply sound_guarded_mesh
  intro h hc
  exact soundFrom_set_parent_child_mesh (by simp) _ _ h hc

theorem sound_adapt_mesh_markers (ext : External) (mesh : Nat) (cell_markers : List Bool) :
    Sound [.mesh] (adapt_mesh_markers ext mesh cell_markers) := by
  unfold adapt_mesh_markers
  apply sound_guarded_mesh
  intro h hc
  exact soundFrom_set_parent_child_mesh (by simp) _ _ h hc

theorem sound_adapt_space (ext : External) (space refined_mesh : Nat) :
    Sound [.space] (adapt_space ext space refined_mesh) := by
  unfold adapt_space
  apply sound_guarded_space
  intro h hc
  apply soundFrom_bind (sound_get_mesh [] _) (by simp)
    (fun s s1 ht hs => Touches.keeps_space (by decide) space h s s1 ht hs)
  intro rm
  exact soundFrom_set_parent_child_space (by simp) _ _ h hc

theorem sound_adapt_space_uniform (ext : External) (space : Nat) :
    Sound [.mesh, .space] (adapt_space_uniform ext space) := by
  unfold adapt_space_uniform
  exact sound_bind (sound_get_space _ _) fun _ =>
    sound_bind (sound_mono (by simp) (sound_adapt_mesh ext _)) fun _ =>
    sound_bind (sound_get_mesh _ _) fun _ =>
    sound_bind (sound_lift _ _) fun _ =>
    sound_bind (sound_mono (by simp) (sound_adapt_space ext _ _)) fun _ =>
    sound_bind (sound_get_space _ _) fun _ => sound_lift _ _

theorem sound_adapt_space_markers (ext : External) (space : Nat) (cell_markers : List Bool) :
    Sound [.mesh, .space] (adapt_space_markers ext space cell_markers) := by
  unfold adapt_space_markers
  exact sound_bind (sound_get_space _ _) fun _ =>
    sound_bind (sound_mono (by simp) (sound_adapt_mesh_markers ext _ _)) fun _ =>
    sound_bind (sound_get_mesh _ _) fun _ =>
    sound_bind (sound_lift _ _) fun _ =>
    sound_bind (sound_mono (by simp) (sound_adapt_space ext _ _)) fun _ =>
    sound_bind (sound_get_space _ _) fun _ => sound_lift _ _

theorem sound_adapt_function (ext : External) (function refined_mesh : Nat) :
    Sound [.space, .function] (adapt_function ext function refined_mesh) := by
  unfold adapt_function
  apply sound_guarded_function
  intro h hc
  have keep : ∀ s s1, Touches [.space] s s1 → s.functions[function]? = some h →
      s1.functions[function]? = some h :=
    fun s s1 ht hs => Touches.keeps_function (by decide) function h s s1 ht hs
  apply soundFrom_bind (sound_adapt_space ext _ _) (by simp) keep
  intro _
  apply soundFrom_bind (sound_get_space [.space] _) (by simp) keep
  intro _
  apply soundFrom_bind (sound_lift [.space] _) (by simp) keep
  intro _
  apply soundFrom_bind (sound_get_space [.space] _) (by simp) keep
  intro _
  exact soundFrom_set_parent_child_function (by simp) _ _ h hc

theorem sound_adapt_mesh_function (mesh_function refined_mesh : Nat) :
    Sound [.mesh_function] (adapt_mesh_function mesh_function refined_mesh) := by
  unfold adapt_mesh_function
  apply sound_guarded_mesh_function
  intro h hc
  have keep : ∀ s s1, Touches [] s s1 → s.mesh_functions[mesh_function]? = some h →
      s1.mesh_functions[mesh_function]? = some h :=
    fun s s1 ht hs => Touches.keeps_mesh_function (by decide) mesh_function h s s1 ht hs
  apply soundFrom_bind (sound_get_mesh [] _) (by simp) keep
  intro mesh
  refine @soundFrom_bind _ _ _ [] _ _ _ ?_ (by simp) keep ?_
  rotate_left
  · intro parent
    cases parent with
    | none => exact soundFrom_of_sound (sound_fail _ _)
    | some parent =>
      apply soundFrom_bind (sound_get_mesh [] _) (by simp) keep
      intro _
      apply soundFrom_bind (sound_lift [] _) (by simp) keep
      intro _
      exact soundFrom_set_parent_child_mesh_function (by simp) _ _ h hc
  · split
    · exact sound_bind (sound_get_mesh _ _) fun _ => sound_pure _ _
    · split
      · exact sound_bind (sound_get_mesh _ _) fun _ => sound_pure _ _
      · exact sound_fail _ _

theorem sound_refine_spaces (ext : External) (refined_mesh : Nat) :
    ∀ spaces : List Nat, Sound [.space] (refine_spaces ext refined_mesh spaces)
  | [] => sound_pure _ _
  | space :: rest => by
    unfold refine_spaces
    exact sound_bind (sound_adapt_space ext space refined_mesh) fun _ =>
      sound_bind (sound_get_space _ _) fun _ =>
      sound_bind (sound_lift _ _) fun _ =>
      sound_bind (sound_refine_spaces ext refined_mesh rest) fun _ => sound_pure _ _

theorem sound_refine_coefficients (ext : External) (refined_mesh : Nat) :
    ∀ coefficients : List GenericFunction,
      Sound [.space, .function] (refine_coefficients ext refined_mesh coefficients)
  | [] => sound_pure _ _
  | .function g :: rest => by
    unfold refine_coefficients
    exact sound_bind (sound_adapt_function ext g refined_mesh) fun _ =>
      sound_bind (sound_get_function _ _) fun _ =>
      sound_bind (sound_lift _ _) fun _ =>
      sound_bind (sound_refine_coefficients ext refined_mesh rest) fun _ => sound_pure _ _
  | .other x :: rest => by
    unfold refine_coefficients
    exact sound_bind (sound_refine_coefficients ext refined_mesh rest) fun _ => sound_pure _ _

theorem sound_refine_domains (refined_mesh : Nat) :
    ∀ domains : Option Nat, Sound [.mesh_function] (refine_domains refined_mesh domains)
  | none => sound_pure _ _
  | some d => by
    unfold refine_domains
    exact sound_bind (sound_adapt_mesh_function d refined_mesh) fun _ =>
      sound_bind (sound_get_mesh_function _ _) fun _ => sound_pure _ _

theorem sound_adapt_form (ext : External) (form refined_mesh : Nat) :
    Sound [.space, .function, .mesh_function, .form] (adapt_form ext form refined_mesh) := by
  unfold adapt_form
  apply sound_guarded_form
  intro h hc
  have keep : ∀ s s1, Touches [.space, .function, .mesh_function] s s1 →
      s.forms[form]? = some h → s1.forms[form]? = some h :=
    fun s s1 ht hs => Touches.keeps_form (by decide) form h s s1 ht hs
  apply soundFrom_bind (sound_mono (by simp) (sound_refine_spaces ext _ _)) (by simp) keep
  intro _
  apply soundFrom_bind (sound_mono (by simp) (sound_refine_coefficients ext _ _)) (by simp) keep
  intro _
  apply soundFrom_bind (sound_mono (by simp) (sound_refine_domains _ _)) (by simp) keep
  intro _
  apply soundFrom_bind (sound_mono (by simp) (sound_refine_domains _ _)) (by simp) keep
  intro _
  apply soundFrom_bind (sound_mono (by simp) (sound_refine_domains _ _)) (by simp) keep
  intro _
  exact soundFrom_set_parent_child_form (by simp) _ _ h hc

theorem sound_remap_markers (ks : List Kind) (refined_mesh : Mesh) (markers : List (Nat × Nat))
    (mesh : Mesh) : Sound ks (remap_markers refined_mesh markers mesh) := by
  unfold remap_markers
  split
  · exact sound_pure _ _
  · exact sound_fail _ _

theorem sound_adapt_bc (ext : External) (bc refined_mesh S : Nat) :
    Sound [.space, .function, .bc] (adapt_bc ext bc refined_mesh S) := by
  unfold adapt_bc
  apply sound_guarded_bc
  intro h hc
  have keep : ∀ s s1, Touches [.space, .function] s s1 →
      s.bcs[bc]? = some h → s1.bcs[bc]? = some h :=
    fun s s1 ht hs => Touches.keeps_bc (by decide) bc h s s1 ht hs
  apply soundFrom_bind (sound_get_space [.space, .function] _) (by simp) keep
  intro w
  refine @soundFrom_bind _ _ _ [.space, .function] _ _ _ ?_ (by simp) keep ?_
  rotate_left
  · intro V
    apply soundFrom_bind (sound_get_mesh [.space, .function] _) (by simp) keep
    intro _
    apply soundFrom_bind (sound_get_mesh [.space, .function] _) (by simp) keep
    intro _
    apply soundFrom_bind (sound_remap_markers [.space, .function] _ _ _) (by simp) keep
    intro _
    split
    · apply soundFrom_bind (sound_adapt_function ext _ _) (by simp) keep
      intro _
      apply soundFrom_bind (sound_get_function [.space, .function] _) (by simp) keep
      intro _
      apply soundFrom_bind (sound_lift [.space, .function] _) (by simp) keep
      intro _
      exact soundFrom_set_parent_child_bc (by simp) _ _ h hc
    · exact soundFrom_set_parent_child_bc (by simp) _ _ h hc
  · split
    · exact sound_bind (sound_mono (by simp) (sound_adapt_space ext _ _)) fun _ =>
        sound_bind (sound_get_space _ _) fun _ => sound_lift _ _
    · exact sound_bind (sound_mono (by simp) (sound_adapt_space ext _ _)) fun _ =>
        sound_bind (sound_get_space _ _) fun _ =>
        sound_bind (sound_lift _ _) fun _ =>
        sound_bind (sound_get_space _ _) fun _ => sound_mono (by simp) (sound_new_space _)

theorem sound_refine_bcs (ext : External) (refined_mesh S : Nat) :
    ∀ bcs : List BoundaryCondition,
      Sound [.space, .function, .bc] (refine_bcs ext refined_mesh S bcs)
  | [] => sound_pure _ _
  | .dirichlet bc :: rest => by
    unfold refine_bcs
    exact sound_bind (sound_adapt_bc ext bc refined_mesh S) fun _ =>
      sound_bind (sound_get_bc _ _) fun _ =>
      sound_bind (sound_lift _ _) fun _ =>
      sound_bind (sound_refine_bcs ext refined_mesh S rest) fun _ => sound_pure _ _
  | .other _ :: _ => by
    unfold refine_bcs
    exact sound_fail _ _

theorem sound_adapt_problem (ext : External) (problem refined_mesh : Nat) :
    Sound [.space, .function, .mesh_function, .form, .bc, .problem]
      (adapt_problem ext problem refined_mesh) := by
  unfold adapt_problem
  apply sound_guarded_problem
  intro h hc
  have keep : ∀ s s1, Touches [.space, .function, .mesh_function, .form, .bc] s s1 →
      s.problems[problem]? = some h → s1.problems[problem]? = some h :=
    fun s s1 ht hs => Touches.keeps_problem (by decide) problem h s s1 ht hs
  apply soundFrom_bind (sound_mono (by simp) (sound_adapt_form ext _ _)) (by simp) keep
  intro _
  apply soundFrom_bind (sound_mono (by simp) (sound_adapt_form ext _ _)) (by simp) keep
  intro _
  apply soundFrom_bind (sound_mono (by simp) (sound_refine_bcs ext _ _ _)) (by simp) keep
  intro _
  apply soundFrom_bind (sound_get_form _ _) (by simp) keep
  intro _
  apply soundFrom_bind (sound_lift _ _) (by simp) keep
  intro _
  apply soundFrom_bind (sound_get_form _ _) (by simp) keep
  intro _
  apply soundFrom_bind (sound_lift _ _) (by simp) keep
  intro _
  apply soundFrom_bind (sound_get_form _ _) (by simp) keep
  intro _
  apply soundFrom_bind (sound_get_form _ _) (by simp) keep
  intro _
  exact soundFrom_set_parent_child_problem (by simp) _ _ h hc

theorem sound_child_form (ks : List Kind) (form : Nat) : Sound ks (child_form form) := by
  unfold child_form
  exact sound_bind (sound_get_form _ _) fun _ => sound_lift _ _

theorem sound_adapt_ec (ext : External) (ec refined_mesh : Nat) :
    Sound [.space, .function, .mesh_function, .form, .ec] (adapt_ec ext ec refined_mesh) := by
  unfold adapt_ec
  apply sound_guarded_ec
  intro h hc
  have keep : ∀ s s1, Touches [.space, .function, .mesh_function, .form] s s1 →
      s.ecs[ec]? = some h → s1.ecs[ec]? = some h :=
    fun s s1 ht hs => Touches.keeps_ec (by decide) ec h s s1 ht hs
  have hform : ∀ f, Sound [.space, .function, .mesh_function, .form]
      (adapt_form ext f refined_mesh) := fun f => sound_adapt_form ext f refined_mesh
  have hchild : ∀ f, Sound [.space, .function, .mesh_function, .form] (child_form f) :=
    fun f => sound_child_form _ f
  apply soundFrom_bind (hform _) (by simp) keep; intro _
  apply soundFrom_bind (hform _) (by simp) keep; intro _
  apply soundFrom_bind (hform _) (by simp) keep; intro _
  apply soundFrom_bind (hform _) (by simp) keep; intro _
  apply soundFrom_bind (hform _) (by simp) keep; intro _
  apply soundFrom_bind (hform _) (by simp) keep; intro _
  apply soundFrom_bind (hform _) (by simp) keep; intro _
  apply soundFrom_bind (hform _) (by simp) keep; intro _
  apply soundFrom_bind (hchild _) (by simp) keep; intro _
  apply soundFrom_bind (hchild _) (by simp) keep; intro _
  apply soundFrom_bind (hchild _) (by simp) keep; intro _
  apply soundFrom_bind (hchild _) (by simp) keep; intro _
  apply soundFrom_bind (hchild _) (by simp) keep; intro _
  apply soundFrom_bind (hchild _) (by simp) keep; intro _
  apply soundFrom_bind (hchild _) (by simp) keep; intro _
  apply soundFrom_bind (hchild _) (by simp) keep; intro _
  exact soundFrom_set_parent_child_ec (by simp) _ _ h hc

/-! ## The guard of the refiners, kind by kind -/

theorem ensuresFrom_bind {α β : Type} {P : State → Prop} {ks0 : List Kind} {m : Adapt α}
    {f : α → Adapt β} {Q : β → State → Prop} (hm : Sound ks0 m)
    (hP : ∀ s s1, Touches ks0 s s1 → P s → P s1) (hf : ∀ a, EnsuresFrom P (f a) Q) :
    EnsuresFrom P (m >>= f) Q := by
  intro s b s2 hs hrun
  obtain ⟨a, s1, h1, h2⟩ := Adapt.bind_eq_ok _ _ _ _ _ hrun
  have ht := (hm s).touches
  rw [h1] at ht
  exact hf a s1 b s2 (hP s s1 ht hs) h2

theorem Grows.child_of {α : Type} {a a1 : List (Hierarchical α)} (h : Grows a a1) (id c : Nat)
    (hc : child_of a id = some c) : child_of a1 id = some c := by
  unfold Dolfin.child_of at hc ⊢
  cases hh : a[id]? with
  | none => rw [hh] at hc; simp at hc
  | some x =>
    rw [hh] at hc
    obtain ⟨y, hy, _, _, hyc⟩ := h id x hh
    rw [hy]
    exact hyc c hc

theorem Refines.child {ks : List Kind} {s s1 : State} (h : Refines ks s s1) (k : Kind)
    (id c : Nat) (hc : s.child k id = some c) : s1.child k id = some c := by
  have hg := h.grows k
  cases k <;> exact Grows.child_of hg id c hc

theorem ensures_set_parent_child_mesh (p : Nat) (v : Mesh) (h : Hierarchical Mesh) :
    EnsuresFrom (fun s => s.meshes[p]? = some h) (set_parent_child_mesh p v)
      (fun c s1 => child_of s1.meshes p = some c) := by
  intro s c s1 hp hrun
  simp only [set_parent_child_mesh, Prod.mk.injEq, Except.ok.injEq] at hrun
  obtain ⟨hc, hs⟩ := hrun
  subst hs
  subst hc
  simp only [child_of, set_parent_child_parent s.meshes p v h hp, set_parent_child_snd]
  rfl

theorem ensures_guarded_mesh (id : Nat) (body : Hierarchical Mesh → Adapt Nat)
    (hbody : ∀ h, h.child = none → EnsuresFrom (fun s => s.meshes[id]? = some h) (body h)
      (fun c s1 => child_of s1.meshes id = some c)) (s s1 : State) (c : Nat)
    (hrun : (get_mesh id >>= fun h => skip_if_refined h.child (body h)) s = (.ok c, s1)) :
    child_of s1.meshes id = some c := by
  obtain ⟨h, s0, hget, hrest⟩ := Adapt.bind_eq_ok _ _ _ _ _ hrun
  obtain ⟨hs0, hh⟩ := get_mesh_eq_ok id s s0 h hget
  subst hs0
  cases hc : h.child with
  | some c1 =>
    rw [hc] at hrest
    simp only [skip_if_refined, Adapt.pure_apply, Prod.mk.injEq, Except.ok.injEq] at hrest
    obtain ⟨h1, h2⟩ := hrest
    subst h1
    subst h2
    simp [child_of, hh, hc]
  | none =>
    rw [hc] at hrest
    exact hbody h hc s0 c s1 hh hrest

theorem returns_child_mesh (id : Nat) (body : Hierarchical Mesh → Adapt Nat) (s : State) (c : Nat)
    (hc : child_of s.meshes id = some c) :
    (get_mesh id >>= fun h => skip_if_refined h.child (body h)) s = (.ok c, s) := by
  unfold child_of at hc
  cases hh : s.meshes[id]? with
  | none => rw [hh] at hc; simp at hc
  | some h =>
    rw [hh] at hc
    change h.child = some c at hc
    rw [Adapt.bind_ok _ _ s s h (get_mesh_ok id s h hh), hc]
    rfl

theorem ensures_set_parent_child_space (p : Nat) (v : FunctionSpace) (h : Hierarchical FunctionSpace) :
    EnsuresFrom (fun s => s.spaces[p]? = some h) (set_parent_child_space p v)
      (fun c s1 => child_of s1.spaces p = some c) := by
  intro s c s1 hp hrun
  simp only [set_parent_child_space, Prod.mk.injEq, Except.ok.injEq] at hrun
  obtain ⟨hc, hs⟩ := hrun
  subst hs
  subst hc
  simp only [child_of, set_parent_child_parent s.spaces p v h hp, set_parent_child_snd]
  rfl

theorem ensures_guarded_space (id : Nat) (body : Hierarchical FunctionSpace → Adapt Nat)
    (hbody : ∀ h, h.child = none → EnsuresFrom (fun s => s.spaces[id]? = some h) (body h)
      (fun c s1 => child_of s1.spaces id = some c)) (s s1 : State) (c : Nat)
    (hrun : (get_space id >>= fun h => skip_if_refined h.child (body h)) s = (.ok c, s1)) :
    child_of s1.spaces id = some c := by
  obtain ⟨h, s0, hget, hrest⟩ := Adapt.bind_eq_ok _ _ _ _ _ hrun
  obtain ⟨hs0, hh⟩ := get_space_eq_ok id s s0 h hget
  subst hs0
  cases hc : h.child with
  | some c1 =>
    rw [hc] at hrest
    simp only [skip_if_refined, Adapt.pure_apply, Prod.mk.injEq, Except.ok.injEq] at hrest
    obtain ⟨h1, h2⟩ := hrest
    subst h1
    subst h2
    simp [child_of, hh, hc]
  | none =>
    rw [hc] at hrest
    exact hbody h hc s0 c s1 hh hrest

theorem returns_child_space (id : Nat) (body : Hierarchical FunctionSpace → Adapt Nat) (s : State) (c : Nat)
    (hc : child_of s.spaces id = some c) :
    (get_space id >>= fun h => skip_if_refined h.child (body h)) s = (.ok c, s) := by
  unfold child_of at hc
  cases hh : s.spaces[id]? with
  | none => rw [hh] at hc; simp at hc
  | some h =>
    rw [hh] at hc
    change h.child = some c at hc
    rw [Adapt.bind_ok _ _ s s h (get_space_ok id s h hh), hc]
    rfl

theorem ensures_set_parent_child_function (p : Nat) (v : Function) (h : Hierarchical Function) :
    EnsuresFrom (fun s => s.functions[p]? = some h) (set_parent_child_function p v)
      (fun c s1 => child_of s1.functions p = some c) := by
  intro s c s1 hp hrun
  simp only [set_parent_child_function, Prod.mk.injEq, Except.ok.injEq] at hrun
  obtain ⟨hc, hs⟩ := hrun
  subst hs
  subst hc
  simp only [child_of, set_parent_child_parent s.functions p v h hp, set_parent_child_snd]
  rfl

theorem ensures_guarded_function (id : Nat) (body : Hierarchical Function → Adapt Nat)
    (hbody : ∀ h, h.child = none → EnsuresFrom (fun s => s.functions[id]? = some h) (body h)
      (fun c s1 => child_of s1.functions id = some c)) (s s1 : State) (c : Nat)
    (hrun : (get_function id >>= fun h => skip_if_refined h.child (body h)) s = (.ok c, s1)) :
    child_of s1.functions id = some c := by
  obtain ⟨h, s0, hget, hrest⟩ := Adapt.bind_eq_ok _ _ _ _ _ hrun
  obtain ⟨hs0, hh⟩ := get_function_eq_ok id s s0 h hget
  subst hs0
  cases hc : h.child with
  | some c1 =>
    rw [hc] at hrest
    simp only [skip_if_refined, Adapt.pure_apply, Prod.mk.injEq, Except.ok.injEq] at hrest
    obtain ⟨h1, h2⟩ := hrest
    subst h1
    subst h2
    simp [child_of, hh, hc]
  | none =>
    rw [hc] at hrest
    exact hbody h hc s0 c s1 hh hrest

theorem returns_child_function (id : Nat) (body : Hierarchical Function → Adapt Nat) (s : State) (c : Nat)
    (hc : child_of s.functions id = some c) :
    (get_function id >>= fun h => skip_if_refined h.child (body h)) s = (.ok c, s) := by
  unfold child_of at hc
  cases hh : s.functions[id]? with
  | none => rw [hh] at hc; simp at hc
  | some h =>
    rw [hh] at hc
    change h.child = some c at hc
    rw [Adapt.bind_ok _ _ s s h (get_function_ok id s h hh), hc]
    rfl

theorem ensures_set_parent_child_form (p : Nat) (v : Form) (h : Hierarchical Form) :
    EnsuresFrom (fun s => s.forms[p]? = some h) (set_parent_child_form p v)
      (fun c s1 => child_of s1.forms p = some c) := by
  intro s c s1 hp hrun
  simp only [set_parent_child_form, Prod.mk.injEq, Except.ok.injEq] at hrun
  obtain ⟨hc, hs⟩ := hrun
  subst hs
  subst hc
  simp only [child_of, set_parent_child_parent s.forms p v h hp, set_parent_child_snd]
  rfl

theorem ensures_guarded_form (id : Nat) (body : Hierarchical Form → Adapt Nat)
    (hbody : ∀ h, h.child = none → EnsuresFrom (fun s => s.forms[id]? = some h) (body h)
      (fun c s1 => child_of s1.forms id = some c)) (s s1 : State) (c : Nat)
    (hrun : (get_form id >>= fun h => skip_if_refined h.child (body h)) s = (.ok c, s1)) :
    child_of s1.forms id = some c := by
  obtain ⟨h, s0, hget, hrest⟩ := Adapt.bind_eq_ok _ _ _ _ _ hrun
  obtain ⟨hs0, hh⟩ := get_form_eq_ok id s s0 h hget
  subst hs0
  cases hc : h.child with
  | some c1 =>
    rw [hc] at hrest
    simp only [skip_if_refined, Adapt.pure_apply, Prod.mk.injEq, Except.ok.injEq] at hrest
    obtain ⟨h1, h2⟩ := hrest
    subst h1
    subst h2
    simp [child_of, hh, hc]
  | none =>
    rw [hc] at hrest
    exact hbody h hc s0 c s1 hh hrest

theorem returns_child_form (id : Nat) (body : Hierarchical Form → Adapt Nat) (s : State) (c : Nat)
    (hc : child_of s.forms id = some c) :
    (get_form id >>= fun h => skip_if_refined h.child (body h)) s = (.ok c, s) := by
  unfold child_of at hc
  cases hh : s.forms[id]? with
  | none => rw [hh] at hc; simp at hc
  | some h =>
    rw [hh] at hc
    change h.child = some c at hc
    rw [Adapt.bind_ok _ _ s s h (get_form_ok id s h hh), hc]
    rfl

theorem ensures_set_parent_child_bc (p : Nat) (v : DirichletBC) (h : Hierarchical DirichletBC) :
    EnsuresFrom (fun s => s.bcs[p]? = some h) (set_parent_child_bc p v)
      (fun c s1 => child_of s1.bcs p = some c) := by
  intro s c s1 hp hrun
  simp only [set_parent_child_bc, Prod.mk.injEq, Except.ok.injEq] at hrun
  obtain ⟨hc, hs⟩ := hrun
  subst hs
  subst hc
  simp only [child_of, set_parent_child_parent s.bcs p v h hp, set_parent_child_snd]
  rfl

theorem ensures_guarded_bc (id : Nat) (body : Hierarchical DirichletBC → Adapt Nat)
    (hbody : ∀ h, h.child = none → EnsuresFrom (fun s => s.bcs[id]? = some h) (body h)
      (fun c s1 => child_of s1.bcs id = some c)) (s s1 : State) (c : Nat)
    (hrun : (get_bc id >>= fun h => skip_if_refined h.child (body h)) s = (.ok c, s1)) :
    child_of s1.bcs id = some c := by
  obtain ⟨h, s0, hget, hrest⟩ := Adapt.bind_eq_ok _ _ _ _ _ hrun
  obtain ⟨hs0, hh⟩ := get_bc_eq_ok id s s0 h hget
  subst hs0
  cases hc : h.child with
  | some c1 =>
    rw [hc] at hrest
    simp only [skip_if_refined, Adapt.pure_apply, Prod.mk.injEq, Except.ok.injEq] at hrest
    obtain ⟨h1, h2⟩ := hrest
    subst h1
    subst h2
    simp [child_of, hh, hc]
  | none =>
    rw [hc] at hrest
    exact hbody h hc s0 c s1 hh hrest

theorem returns_child_bc (id : Nat) (body : Hierarchical DirichletBC → Adapt Nat) (s : State) (c : Nat)
    (hc : child_of s.bcs id = some c) :
    (get_bc id >>= fun h => skip_if_refined h.child (body h)) s = (.ok c, s) := by
  unfold child_of at hc
  cases hh : s.bcs[id]? with
  | none => rw [hh] at hc; simp at hc
  | some h =>
    rw [hh] at hc
    change h.child = some c at hc
    rw [Adapt.bind_ok _ _ s s h (get_bc_ok id s h hh), hc]
    rfl

theorem ensures_set_parent_child_problem (p : Nat) (v : VariationalProblem) (h : Hierarchical VariationalProblem) :
    EnsuresFrom (fun s => s.problems[p]? = some h) (set_parent_child_problem p v)
      (fun c s1 => child_of s1.problems p = some c) := by
  intro s c s1 hp hrun
  simp only [set_parent_child_problem, Prod.mk.injEq, Except.ok.injEq] at hrun
  obtain ⟨hc, hs⟩ := hrun
  subst hs
  subst hc
  simp only [child_of, set_parent_child_parent s.problems p v h hp, set_parent_child_snd]
  rfl

theorem ensures_guarded_problem (id : Nat) (body : Hierarchical VariationalProblem → Adapt Nat)
    (hbody : ∀ h, h.child = none → EnsuresFrom (fun s => s.problems[id]? = some h) (body h)
      (fun c s1 => child_of s1.problems id = some c)) (s s1 : State) (c : Nat)
    (hrun : (get_problem id >>= fun h => skip_if_refined h.child (body h)) s = (.ok c, s1)) :
    child_of s1.problems id = some c := by
  obtain ⟨h, s0, hget, hrest⟩ := Adapt.bind_eq_ok _ _ _ _ _ hrun
  obtain ⟨hs0, hh⟩ := get_problem_eq_ok id s s0 h hget
  subst hs0
  cases hc : h.child with
  | some c1 =>
    rw [hc] at hrest
    simp only [skip_if_refined, Adapt.pure_apply, Prod.mk.injEq, Except.ok.injEq] at hrest
    obtain ⟨h1, h2⟩ := hrest
    subst h1
    subst h2
    simp [child_of, hh, hc]
  | none =>
    rw [hc] at hrest
    exact hbody h hc s0 c s1 hh hrest

theorem returns_child_problem (id : Nat) (body : Hierarchical VariationalProblem → Adapt Nat) (s : State) (c : Nat)
    (hc : child_of s.problems id = some c) :
    (get_problem id >>= fun h => skip_if_refined h.child (body h)) s = (.ok c, s) := by
  unfold child_of at hc
  cases hh : s.problems[id]? with
  | none => rw [hh] at hc; simp at hc
  | some h =>
    rw [hh] at hc
    change h.child = some c at hc
    rw [Adapt.bind_ok _ _ s s h (get_problem_ok id s h hh), hc]
    rfl

theorem ensures_set_parent_child_ec (p : Nat) (v : ErrorControl) (h : Hierarchical ErrorControl) :
    EnsuresFrom (fun s => s.ecs[p]? = some h) (set_parent_child_ec p v)
      (fun c s1 => child_of s1.ecs p = some c) := by
  intro s c s1 hp hrun
  simp only [set_parent_child_ec, Prod.mk.injEq, Except.ok.injEq] at hrun
  obtain ⟨hc, hs⟩ := hrun
  subst hs
  subst hc
  simp only [child_of, set_parent_child_parent s.ecs p v h hp, set_parent_child_snd]
  rfl

theorem ensures_guarded_ec (id : Nat) (body : Hierarchical ErrorControl → Adapt Nat)
    (hbody : ∀ h, h.child = none → EnsuresFrom (fun s => s.ecs[id]? = some h) (body h)
      (fun c s1 => child_of s1.ecs id = some c)) (s s1 : State) (c : Nat)
    (hrun : (get_ec id >>= fun h => skip_if_refined h.child (body h)) s = (.ok c, s1)) :
    child_of s1.ecs id = some c := by
  obtain ⟨h, s0, hget, hrest⟩ := Adapt.bind_eq_ok _ _ _ _ _ hrun
  obtain ⟨hs0, hh⟩ := get_ec_eq_ok id s s0 h hget
  subst hs0
  cases hc : h.child with
  | some c1 =>
    rw [hc] at hrest
    simp only [skip_if_refined, Adapt.pure_apply, Prod.mk.injEq, Except.ok.injEq] at hrest
    obtain ⟨h1, h2⟩ := hrest
    subst h1
    subst h2
    simp [child_of, hh, hc]
  | none =>
    rw [hc] at hrest
    exact hbody h hc s0 c s1 hh hrest

theorem returns_child_ec (id : Nat) (body : Hierarchical ErrorControl → Adapt Nat) (s : State) (c : Nat)
    (hc : child_of s.ecs id = some c) :
    (get_ec id >>= fun h => skip_if_refined h.child (body h)) s = (.ok c, s) := by
  unfold child_of at hc
  cases hh : s.ecs[id]? with
  | none => rw [hh] at hc; simp at hc
  | some h =>
    rw [hh] at hc
    change h.child = some c at hc
    rw [Adapt.bind_ok _ _ s s h (get_ec_ok id s h hh), hc]
    rfl

theorem ensures_set_parent_child_mesh_function (p : Nat) (v : MeshFunction) (h : Hierarchical MeshFunction) :
    EnsuresFrom (fun s => s.mesh_functions[p]? = some h) (set_parent_child_mesh_function p v)
      (fun c s1 => child_of s1.mesh_functions p = some c) := by
  intro s c s1 hp hrun
  simp only [set_parent_child_mesh_function, Prod.mk.injEq, Except.ok.injEq] at hrun
  obtain ⟨hc, hs⟩ := hrun
  subst hs
  subst hc
  simp only [child_of, set_parent_child_parent s.mesh_functions p v h hp, set_parent_child_snd]
  rfl

theorem ensures_guarded_mesh_function (id : Nat) (body : Hierarchical MeshFunction → Adapt Nat)
    (hbody : ∀ h, h.child = none → EnsuresFrom (fun s => s.mesh_functions[id]? = some h) (body h)
      (fun c s1 => child_of s1.mesh_functions id = some c)) (s s1 : State) (c : Nat)
    (hrun : (get_mesh_function id >>= fun h => skip_if_refined h.child (body h)) s = (.ok c, s1)) :
    child_of s1.mesh_functions id = some c := by
  obtain ⟨h, s0, hget, hrest⟩ := Adapt.bind_eq_ok _ _ _ _ _ hrun
  obtain ⟨hs0, hh⟩ := get_mesh_function_eq_ok id s s0 h hget
  subst hs0
  cases hc : h.child with
  | some c1 =>
    rw [hc] at hrest
    simp only [skip_if_refined, Adapt.pure_apply, Prod.mk.injEq, Except.ok.injEq] at hrest
    obtain ⟨h1, h2⟩ := hrest
    subst h1
    subst h2
    simp [child_of, hh, hc]
  | none =>
    rw [hc] at hrest
    exact hbody h hc s0 c s1 hh hrest

theorem returns_child_mesh_function (id : Nat) (body : Hierarchical MeshFunction → Adapt Nat) (s : State) (c : Nat)
    (hc : child_of s.mesh_functions id = some c) :
    (get_mesh_function id >>= fun h => skip_if_refined h.child (body h)) s = (.ok c, s) := by
  unfold child_of at hc
  cases hh : s.mesh_functions[id]? with
  | none => rw [hh] at hc; simp at hc
  | some h =>
    rw [hh] at hc
    change h.child = some c at hc
    rw [Adapt.bind_ok _ _ s s h (get_mesh_function_ok id s h hh), hc]
    rfl

/-! ## A refiner that returns has linked the child it returns -/

theorem adapt_mesh_links (ext : External) (mesh : Nat) (s s1 : State) (c : Nat)
    (h : adapt_mesh ext mesh s = (.ok c, s1)) : child_of s1.meshes mesh = some c := by
  unfold adapt_mesh at h
  exact ensures_guarded_mesh mesh _ (fun x _ => ensures_set_parent_child_mesh _ _ x) s s1 c h

theorem adapt_mesh_markers_links (ext : External) (mesh : Nat) (cell_markers : List Bool)
    (s s1 : State) (c : Nat) (h : adapt_mesh_markers ext mesh cell_markers s = (.ok c, s1)) :
    child_of s1.meshes mesh = some c := by
  unfold adapt_mesh_markers at h
  exact ensures_guarded_mesh mesh _ (fun x _ => ensures_set_parent_child_mesh _ _ x) s s1 c h

theorem adapt_space_links (ext : External) (space refined_mesh : Nat) (s s1 : State) (c : Nat)
    (h : adapt_space ext space refined_mesh s = (.ok c, s1)) :
    child_of s1.spaces space = some c := by
  unfold adapt_space at h
  refine ensures_guarded_space space _ (fun x _ => ?_) s s1 c h
  refine ensuresFrom_bind (sound_get_mesh [] _)
    (fun s s1 ht hs => Touches.keeps_space (by decide) space x s s1 ht hs) (fun _ => ?_)
  exact ensures_set_parent_child_space _ _ x

theorem child_of_final_lookup {α : Type} (get : Nat → Adapt (Hierarchical α))
    (arena : State → List (Hierarchical α))
    (hget : ∀ id s s1 x, get id s = (.ok x, s1) → s1 = s ∧ (arena s)[id]? = some x)
    (id : Nat) (s s1 : State) (c : Nat)
    (h : (get id >>= fun x => lift (required x.child)) s = (.ok c, s1)) :
    child_of (arena s1) id = some c := by
  obtain ⟨x, s0, h1, h2⟩ := Adapt.bind_eq_ok _ _ _ _ _ h
  obtain ⟨hs, hx⟩ := hget id s s0 x h1
  subst hs
  cases hc : x.child with
  | none => rw [hc] at h2; simp [lift, required] at h2
  | some c1 =>
    rw [hc] at h2
    simp only [lift, required, Prod.mk.injEq, Except.ok.injEq] at h2
    obtain ⟨e1, e2⟩ := h2
    subst e1
    subst e2
    simp [child_of, hx, hc]

theorem adapt_space_uniform_links (ext : External) (space : Nat) (s s1 : State) (c : Nat)
    (h : adapt_space_uniform ext space s = (.ok c, s1)) : child_of s1.spaces space = some c := by
  unfold adapt_space_uniform at h
  obtain ⟨_, _, _, h⟩ := Adapt.bind_eq_ok _ _ _ _ _ h
  obtain ⟨_, _, _, h⟩ := Adapt.bind_eq_ok _ _ _ _ _ h
  obtain ⟨_, _, _, h⟩ := Adapt.bind_eq_ok _ _ _ _ _ h
  obtain ⟨_, _, _, h⟩ := Adapt.bind_eq_ok _ _ _ _ _ h
  obtain ⟨_, _, _, h⟩ := Adapt.bind_eq_ok _ _ _ _ _ h
  exact child_of_final_lookup get_space State.spaces get_space_eq_ok space _ _ c h

theorem adapt_space_markers_links (ext : External) (space : Nat) (cell_markers : List Bool)
    (s s1 : State) (c : Nat) (h : adapt_space_markers ext space cell_markers s = (.ok c, s1)) :
    child_of s1.spaces space = some c := by
  unfold adapt_space_markers at h
  obtain ⟨_, _, _, h⟩ := Adapt.bind_eq_ok _ _ _ _ _ h
  obtain ⟨_, _, _, h⟩ := Adapt.bind_eq_ok _ _ _ _ _ h
  obtain ⟨_, _, _, h⟩ := Adapt.bind_eq_ok _ _ _ _ _ h
  obtain ⟨_, _, _, h⟩ := Adapt.bind_eq_ok _ _ _ _ _ h
  obtain ⟨_, _, _, h⟩ := Adapt.bind_eq_ok _ _ _ _ _ h
  exact child_of_final_lookup get_space State.spaces get_space_eq_ok space _ _ c h

theorem adapt_function_links (ext : External) (function refined_mesh : Nat) (s s1 : State)
    (c : Nat) (h : adapt_function ext function refined_mesh s = (.ok c, s1)) :
    child_of s1.functions function = some c := by
  unfold adapt_function at h
  refine ensures_guarded_function function _ (fun x _ => ?_) s s1 c h
  have keep : ∀ s s1, Touches [.space] s s1 → s.functions[function]? = some x →
      s1.functions[function]? = some x :=
    fun s s1 ht hs => Touches.keeps_function (by decide) function x s s1 ht hs
  refine ensuresFrom_bind (sound_adapt_space ext _ _) keep (fun _ => ?_)
  refine ensuresFrom_bind (sound_get_space [.space] _) keep (fun _ => ?_)
  refine ensuresFrom_bind (sound_lift [.space] _) keep (fun _ => ?_)
  refine ensuresFrom_bind (sound_get_space [.space] _) keep (fun _ => ?_)
  exact ensures_set_parent_child_function _ _ x

theorem adapt_mesh_function_links (mesh_function refined_mesh : Nat) (s s1 : State) (c : Nat)
    (h : adapt_mesh_function mesh_function refined_mesh s = (.ok c, s1)) :
    child_of s1.mesh_functions mesh_function = some c := by
  unfold adapt_mesh_function at h
  refine ensures_guarded_mesh_function mesh_function _ (fun x _ => ?_) s s1 c h
  have keep : ∀ s s1, Touches [] s s1 → s.mesh_functions[mesh_function]? = some x →
      s1.mesh_functions[mesh_function]? = some x :=
    fun s s1 ht hs => Touches.keeps_mesh_function (by decide) mesh_function x s s1 ht hs
  refine ensuresFrom_bind (sound_get_mesh [] _) keep (fun mesh => ?_)
  refine @ensuresFrom_bind _ _ _ [] _ _ _ ?_ keep ?_
  rotate_left
  · intro parent
    cases parent with
    | none => intro s a s1 _ hrun; simp [fail] at hrun
    | some parent =>
      refine ensuresFrom_bind (sound_get_mesh [] _) keep (fun _ => ?_)
      refine ensuresFrom_bind (sound_lift [] _) keep (fun _ => ?_)
      exact ensures_set_parent_child_mesh_function _ _ x
  · split
    · exact sound_bind (sound_get_mesh _ _) fun _ => sound_pure _ _
    · split
      · exact sound_bind (sound_get_mesh _ _) fun _ => sound_pure _ _
      · exact sound_fail _ _

theorem adapt_form_links (ext : External) (form refined_mesh : Nat) (s s1 : State) (c : Nat)
    (h : adapt_form ext form refined_mesh s = (.ok c, s1)) :
    child_of s1.forms form = some c := by
  unfold adapt_form at h
  refine ensures_guarded_form form _ (fun x _ => ?_) s s1 c h
  have keep : ∀ s s1, Touches [.space, .function, .mesh_function] s s1 →
      s.forms[form]? = some x → s1.forms[form]? = some x :=
    fun s s1 ht hs => Touches.keeps_form (by decide) form x s s1 ht hs
  refine ensuresFrom_bind (sound_mono (by simp) (sound_refine_spaces ext _ _)) keep (fun _ => ?_)
  refine ensuresFrom_bind (sound_mono (by simp) (sound_refine_coefficients ext _ _)) keep (fun _ => ?_)
  refine ensuresFrom_bind (sound_mono (by simp) (sound_refine_domains _ _)) keep (fun _ => ?_)
  refine ensuresFrom_bind (sound_mono (by simp) (sound_refine_domains _ _)) keep (fun _ => ?_)
  refine ensuresFrom_bind (sound_mono (by simp) (sound_refine_domains _ _)) keep (fun _ => ?_)
  exact ensures_set_parent_child_form _ _ x

theorem adapt_bc_links (ext : External) (bc refined_mesh S : Nat) (s s1 : State) (c : Nat)
    (h : adapt_bc ext bc refined_mesh S s = (.ok c, s1)) : child_of s1.bcs bc = some c := by
  unfold adapt_bc at h
  refine ensures_guarded_bc bc _ (fun x _ => ?_) s s1 c h
  have keep : ∀ s s1, Touches [.space, .function] s s1 →
      s.bcs[bc]? = some x → s1.bcs[bc]? = some x :=
    fun s s1 ht hs => Touches.keeps_bc (by decide) bc x s s1 ht hs
  refine ensuresFrom_bind (sound_get_space [.space, .function] _) keep (fun w => ?_)
  refine @ensuresFrom_bind _ _ _ [.space, .function] _ _ _ ?_ keep ?_
  rotate_left
  · intro V
    refine ensuresFrom_bind (sound_get_mesh [.space, .function] _) keep (fun _ => ?_)
    refine ensuresFrom_bind (sound_get_mesh [.space, .function] _) keep (fun _ => ?_)
    refine ensuresFrom_bind (sound_remap_markers [.space, .function] _ _ _) keep (fun _ => ?_)
    split
    · refine ensuresFrom_bind (sound_adapt_function ext _ _) keep (fun _ => ?_)
      refine ensuresFrom_bind (sound_get_function [.space, .function] _) keep (fun _ => ?_)
      refine ensuresFrom_bind (sound_lift [.space, .function] _) keep (fun _ => ?_)
      exact ensures_set_parent_child_bc _ _ x
    · exact ensures_set_parent_child_bc _ _ x
  · split
    · exact sound_bind (sound_mono (by simp) (sound_adapt_space ext _ _)) fun _ =>
        sound_bind (sound_get_space _ _) fun _ => sound_lift _ _
    · exact sound_bind (sound_mono (by simp) (sound_adapt_space ext _ _)) fun _ =>
        sound_bind (sound_get_space _ _) fun _ =>
        sound_bind (sound_lift _ _) fun _ =>
        sound_bind (sound_get_space _ _) fun _ => sound_mono (by simp) (sound_new_space _)

theorem adapt_problem_links (ext : External) (problem refined_mesh : Nat) (s s1 : State)
    (c : Nat) (h : adapt_problem ext problem refined_mesh s = (.ok c, s1)) :
    child_of s1.problems problem = some c := by
  unfold adapt_problem at h
  refine ensures_guarded_problem problem _ (fun x _ => ?_) s s1 c h
  have keep : ∀ s s1, Touches [.space, .function, .mesh_function, .form, .bc] s s1 →
      s.problems[problem]? = some x → s1.problems[problem]? = some x :=
    fun s s1 ht hs => Touches.keeps_problem (by decide) problem x s s1 ht hs
  refine ensuresFrom_bind (sound_mono (by simp) (sound_adapt_form ext _ _)) keep (fun _ => ?_)
  refine ensuresFrom_bind (sound_mono (by simp) (sound_adapt_form ext _ _)) keep (fun _ => ?_)
  refine ensuresFrom_bind (sound_mono (by simp) (sound_refine_bcs ext _ _ _)) keep (fun _ => ?_)
  refine ensuresFrom_bind (sound_get_form _ _) keep (fun _ => ?_)
  refine ensuresFrom_bind (sound_lift _ _) keep (fun _ => ?_)
  refine ensuresFrom_bind (sound_get_form _ _) keep (fun _ => ?_)
  refine ensuresFrom_bind (sound_lift _ _) keep (fun _ => ?_)
  refine ensuresFrom_bind (sound_get_form _ _) keep (fun _ => ?_)
  refine ensuresFrom_bind (sound_get_form _ _) keep (fun _ => ?_)
  exact ensures_set_parent_child_problem _ _ x

theorem adapt_ec_links (ext : External) (ec refined_mesh : Nat) (s s1 : State) (c : Nat)
    (h : adapt_ec ext ec refined_mesh s = (.ok c, s1)) : child_of s1.ecs ec = some c := by
  unfold adapt_ec at h
  refine ensures_guarded_ec ec _ (fun x _ => ?_) s s1 c h
  have keep : ∀ s s1, Touches [.space, .function, .mesh_function, .form] s s1 →
      s.ecs[ec]? = some x → s1.ecs[ec]? = some x :=
    fun s s1 ht hs => Touches.keeps_ec (by decide) ec x s s1 ht hs
  have hform : ∀ f, Sound [.space, .function, .mesh_function, .form]
      (adapt_form ext f refined_mesh) := fun f => sound_adapt_form ext f refined_mesh
  have hchild : ∀ f, Sound [.space, .function, .mesh_function, .form] (child_form f) :=
    fun f => sound_child_form _ f
  refine ensuresFrom_bind (hform _) keep (fun _ => ?_)
  refine ensuresFrom_bind (hform _) keep (fun _ => ?_)
  refine ensuresFrom_bind (hform _) keep (fun _ => ?_)
  refine ensuresFrom_bind (hform _) keep (fun _ => ?_)
  refine ensuresFrom_bind (hform _) keep (fun _ => ?_)
  refine ensuresFrom_bind (hform _) keep (fun _ => ?_)
  refine ensuresFrom_bind (hform _) keep (fun _ => ?_)
  refine ensuresFrom_bind (hform _) keep (fun _ => ?_)
  refine ensuresFrom_bind (hchild _) keep (fun _ => ?_)
  refine ensuresFrom_bind (hchild _) keep (fun _ => ?_)
  refine ensuresFrom_bind (hchild _) keep (fun _ => ?_)
  refine ensuresFrom_bind (hchild _) keep (fun _ => ?_)
  refine ensuresFrom_bind (hchild _) keep (fun _ => ?_)
  refine ensuresFrom_bind (hchild _) keep (fun _ => ?_)
  refine ensuresFrom_bind (hchild _) keep (fun _ => ?_)
  refine ensuresFrom_bind (hchild _) keep (fun _ => ?_)
  exact ensures_set_parent_child_ec _ _ x

/-- A call that returns `c` has linked `c` as the child of its entity. -/
theorem Call.run_links (ext : External) (call : Call) (s s1 : State) (c : Nat)
    (h : call.run ext s = (.ok c, s1)) : s1.child call.kind call.entity = some c := by
  cases call with
  | mesh x => exact adapt_mesh_links ext x s s1 c h
  | mesh_markers x cm => exact adapt_mesh_markers_links ext x cm s s1 c h
  | space_uniform x => exact adapt_space_uniform_links ext x s s1 c h
  | space_markers x cm => exact adapt_space_markers_links ext x cm s s1 c h
  | space x rm => exact adapt_space_links ext x rm s s1 c h
  | function x rm => exact adapt_function_links ext x rm s s1 c h
  | form x rm => exact adapt_form_links ext x rm s s1 c h
  | problem x rm => exact adapt_problem_links ext x rm s s1 c h
  | bc x rm S => exact adapt_bc_links ext x rm S s s1 c h
  | ec x rm => exact adapt_ec_links ext x rm s s1 c h
  | mesh_function x rm => exact adapt_mesh_function_links x rm s s1 c h

/-! ## A refined entity is not refined again -/

/-- A call of an entry point that opens with the guard, on an entity that has
a child, returns that child and leaves the state as it is. -/
theorem Call.run_returns_child (ext : External) (call : Call) (s : State) (c : Nat)
    (hguard : call.refines_mesh_first = false)
    (hc : s.child call.kind call.entity = some c) : call.run ext s = (.ok c, s) := by
  cases call with
  | mesh x => exact returns_child_mesh x _ s c hc
  | mesh_markers x cm => exact returns_child_mesh x _ s c hc
  | space_uniform x => simp [Call.refines_mesh_first] at hguard
  | space_markers x cm => simp [Call.refines_mesh_first] at hguard
  | space x rm => exact returns_child_space x _ s c hc
  | function x rm => exact returns_child_function x _ s c hc
  | form x rm => exact returns_child_form x _ s c hc
  | problem x rm => exact returns_child_problem x _ s c hc
  | bc x rm S => exact returns_child_bc x _ s c hc
  | ec x rm => exact returns_child_ec x _ s c hc
  | mesh_function x rm => exact returns_child_mesh_function x _ s c hc

theorem mesh_guard_returns (mesh : Nat) (refine : Hierarchical Mesh → Mesh) (s : State)
    (m : Hierarchical Mesh) (hm : s.meshes[mesh]? = some m) :
    ∃ c1 s1, (get_mesh mesh >>= fun x =>
      skip_if_refined x.child (set_parent_child_mesh mesh (refine x))) s = (.ok c1, s1) := by
  rw [Adapt.bind_ok _ _ s s m (get_mesh_ok mesh s m hm)]
  cases m.child with
  | some c => exact ⟨c, s, rfl⟩
  | none => exact ⟨_, _, rfl⟩

/-- The common part of the two entry points for a function space that take no
refined mesh, once the mesh of the space has been refined. -/
theorem space_after_mesh (ext : External) (space : Nat) (sp : Hierarchical FunctionSpace)
    (s s1 : State) (c c1 : Nat) (hsp : s.spaces[space]? = some sp) (hc : sp.child = some c)
    (hs : s1.spaces = s.spaces) (hm : child_of s1.meshes sp.val.mesh = some c1) :
    (get_mesh sp.val.mesh >>= fun m => lift (required m.child) >>= fun refined_mesh =>
      adapt_space ext space refined_mesh >>= fun _ => get_space space >>= fun sp1 =>
      lift (required sp1.child)) s1 = (.ok c, s1) := by
  unfold child_of at hm
  cases hx : s1.meshes[sp.val.mesh]? with
  | none => rw [hx] at hm; simp at hm
  | some m =>
    rw [hx] at hm
    change m.child = some c1 at hm
    have hsp1 : s1.spaces[space]? = some sp := by rw [hs]; exact hsp
    have hchild : child_of s1.spaces space = some c := by simp [child_of, hsp1, hc]
    rw [Adapt.bind_ok _ _ s1 s1 m (get_mesh_ok _ s1 m hx)]
    rw [Adapt.bind_ok _ _ s1 s1 c1 (by simp [lift, required, hm])]
    have hret : adapt_space ext space c1 s1 = (.ok c, s1) := by
      unfold adapt_space
      exact returns_child_space space _ s1 c hchild
    rw [Adapt.bind_ok _ _ s1 s1 c hret]
    rw [Adapt.bind_ok _ _ s1 s1 sp (get_space_ok _ s1 sp hsp1)]
    simp [lift, required, hc]

theorem adapt_space_uniform_refined (ext : External) (space : Nat) (s : State) (c : Nat)
    (hc : child_of s.spaces space = some c) (hmesh : s.has_mesh_of space) :
    (adapt_space_uniform ext space s).1 = .ok c ∧
      Refines [.mesh] s (adapt_space_uniform ext space s).2 := by
  obtain ⟨sp, m, hsp, hm⟩ := hmesh
  have hspc : sp.child = some c := by simpa [child_of, hsp] using hc
  obtain ⟨c1, s1, hrun⟩ := mesh_guard_returns sp.val.mesh (fun x => ext.refine_uniform x.val) s m hm
  have hrun1 : adapt_mesh ext sp.val.mesh s = (.ok c1, s1) := hrun
  have hsound := sound_adapt_mesh ext sp.val.mesh s
  rw [hrun1] at hsound
  have hs : s1.spaces = s.spaces := hsound.touches .space (by decide)
  have hlink := adapt_mesh_links ext sp.val.mesh s s1 c1 hrun1
  have key : adapt_space_uniform ext space s = (.ok c, s1) := by
    unfold adapt_space_uniform
    rw [Adapt.bind_ok _ _ s s sp (get_space_ok _ s sp hsp)]
    rw [Adapt.bind_ok _ _ s s1 c1 hrun1]
    exact space_after_mesh ext space sp s s1 c c1 hsp hspc hs hlink
  rw [key]
  exact ⟨rfl, hsound⟩

theorem adapt_space_markers_refined (ext : External) (space : Nat) (cell_markers : List Bool)
    (s : State) (c : Nat)
    (hc : child_of s.spaces space = some c) (hmesh : s.has_mesh_of space) :
    (adapt_space_markers ext space cell_markers s).1 = .ok c ∧
      Refines [.mesh] s (adapt_space_markers ext space cell_markers s).2 := by
  obtain ⟨sp, m, hsp, hm⟩ := hmesh
  have hspc : sp.child = some c := by simpa [child_of, hsp] using hc
  obtain ⟨c1, s1, hrun⟩ := mesh_guard_returns sp.val.mesh
    (fun x => ext.refine_local x.val cell_markers) s m hm
  have hrun1 : adapt_mesh_markers ext sp.val.mesh cell_markers s = (.ok c1, s1) := hrun
  have hsound := sound_adapt_mesh_markers ext sp.val.mesh cell_markers s
  rw [hrun1] at hsound
  have hs : s1.spaces = s.spaces := hsound.touches .space (by decide)
  have hlink := adapt_mesh_markers_links ext sp.val.mesh cell_markers s s1 c1 hrun1
  have key : adapt_space_markers ext space cell_markers s = (.ok c, s1) := by
    unfold adapt_space_markers
    rw [Adapt.bind_ok _ _ s s sp (get_space_ok _ s sp hsp)]
    rw [Adapt.bind_ok _ _ s s1 c1 hrun1]
    exact space_after_mesh ext space sp s s1 c c1 hsp hspc hs hlink
  rw [key]
  exact ⟨rfl, hsound⟩

theorem sound_run {α : Type} {ks : List Kind} {m : Adapt α} (h : Sound ks m) {s s1 : State}
    {r : Except Failure α} (hr : m s = (r, s1)) : Refines ks s s1 := by
  have := h s
  rw [hr] at this
  exact this

/-- The mesh of a function space that has been refined stays refined. -/
theorem State.mesh_of_space_refined_later {ks : List Kind} {s s1 : State} (h : Refines ks s s1)
    (space : Nat) (hm : s.mesh_of_space_refined space) : s1.mesh_of_space_refined space := by
  obtain ⟨sp, cm, hsp, hcm⟩ := hm
  have hg : Grows s.spaces s1.spaces := h.grows .space
  have hgm : Grows s.meshes s1.meshes := h.grows .mesh
  obtain ⟨sp1, hsp1, hval, _, _⟩ := hg space sp hsp
  refine ⟨sp1, cm, hsp1, ?_⟩
  rw [hval]
  exact Grows.child_of hgm _ _ hcm

/-- The part of `adapt(space)` and `adapt(space, cell_markers)` that follows
the refinement of the mesh touches only the function spaces. -/
theorem sound_space_after_mesh (ext : External) (space mesh : Nat) :
    Sound [.space] (get_mesh mesh >>= fun m => lift (required m.child) >>= fun refined_mesh =>
      adapt_space ext space refined_mesh >>= fun _ => get_space space >>= fun sp1 =>
      lift (required sp1.child)) :=
  sound_bind (sound_get_mesh _ _) fun _ => sound_bind (sound_lift _ _) fun _ =>
    sound_bind (sound_adapt_space ext _ _) fun _ => sound_bind (sound_get_space _ _) fun _ =>
    sound_lift _ _

/-- After a run of a mesh refiner that has linked a child to the mesh of the
function space, followed by the rest of `adapt(space)`, the mesh of the space
has a child. -/
theorem mesh_refined_after (ext : External) (space : Nat) (sp : Hierarchical FunctionSpace)
    (s sa s1 : State) (c c1 : Nat) (hsp : s.spaces[space]? = some sp)
    (hmesh : Refines [.mesh] s sa) (hlink : child_of sa.meshes sp.val.mesh = some c1)
    (htail : (get_mesh sp.val.mesh >>= fun m => lift (required m.child) >>= fun refined_mesh =>
      adapt_space ext space refined_mesh >>= fun _ => get_space space >>= fun sp1 =>
      lift (required sp1.child)) sa = (.ok c, s1)) : s1.mesh_of_space_refined space := by
  have hs : sa.spaces = s.spaces := hmesh.touches .space (by decide)
  have hr : Refines [.space] sa s1 := sound_run (sound_space_after_mesh ext space sp.val.mesh) htail
  exact State.mesh_of_space_refined_later hr space ⟨sp, c1, by rw [hs]; exact hsp, hlink⟩

/-- A call of `adapt(space)` that returns leaves the mesh of the space with a
child. -/
theorem adapt_space_uniform_refines_mesh (ext : External) (space : Nat) (s s1 : State) (c : Nat)
    (h : adapt_space_uniform ext space s = (.ok c, s1)) : s1.mesh_of_space_refined space := by
  unfold adapt_space_uniform at h
  obtain ⟨sp, s0, hget, h⟩ := Adapt.bind_eq_ok _ _ _ _ _ h
  obtain ⟨hs0, hsp⟩ := get_space_eq_ok space s s0 sp hget
  rw [hs0] at h
  obtain ⟨c1, sa, hmesh, h⟩ := Adapt.bind_eq_ok _ _ _ _ _ h
  exact mesh_refined_after ext space sp s sa s1 c c1 hsp
    (sound_run (sound_adapt_mesh ext sp.val.mesh) hmesh)
    (adapt_mesh_links ext sp.val.mesh s sa c1 hmesh) h

/-- A call of `adapt(space, cell_markers)` that returns leaves the mesh of the
space with a child. -/
theorem adapt_space_markers_refines_mesh (ext : External) (space : Nat)
    (cell_markers : List Bool) (s s1 : State) (c : Nat)
    (h : adapt_space_markers ext space cell_markers s = (.ok c, s1)) :
    s1.mesh_of_space_refined space := by
  unfold adapt_space_markers at h
  obtain ⟨sp, s0, hget, h⟩ := Adapt.bind_eq_ok _ _ _ _ _ h
  obtain ⟨hs0, hsp⟩ := get_space_eq_ok space s s0 sp hget
  rw [hs0] at h
  obtain ⟨c1, sa, hmesh, h⟩ := Adapt.bind_eq_ok _ _ _ _ _ h
  exact mesh_refined_after ext space sp s sa s1 c c1 hsp
    (sound_run (sound_adapt_mesh_markers ext sp.val.mesh cell_markers) hmesh)
    (adapt_mesh_markers_links ext sp.val.mesh cell_markers s sa c1 hmesh) h

/-- A call of one of the entry points that refine the mesh first, when it
returns, leaves the mesh of the space with a child. -/
theorem Call.run_refines_mesh (ext : External) (call : Call) (s s1 : State) (c : Nat)
    (hfirst : call.refines_mesh_first = true) (h : call.run ext s = (.ok c, s1)) :
    s1.mesh_of_space_refined call.entity := by
  cases call with
  | space_uniform x => exact adapt_space_uniform_refines_mesh ext x s s1 c h
  | space_markers x cm => exact adapt_space_markers_refines_mesh ext x cm s s1 c h
  | _ => simp [Call.refines_mesh_first] at hfirst

/-- On a function space that has the child `c` and whose mesh has a child,
`adapt(space)` returns `c` and leaves the state as it is. -/
theorem adapt_space_uniform_unchanged (ext : External) (space : Nat) (s : State) (c : Nat)
    (hc : child_of s.spaces space = some c) (hm : s.mesh_of_space_refined space) :
    adapt_space_uniform ext space s = (.ok c, s) := by
  obtain ⟨sp, cm, hsp, hcm⟩ := hm
  have hspc : sp.child = some c := by simpa [child_of, hsp] using hc
  have hrun : adapt_mesh ext sp.val.mesh s = (.ok cm, s) := by
    unfold adapt_mesh
    exact returns_child_mesh sp.val.mesh _ s cm hcm
  unfold adapt_space_uniform
  rw [Adapt.bind_ok _ _ s s sp (get_space_ok _ s sp hsp)]
  rw [Adapt.bind_ok _ _ s s cm hrun]
  exact space_after_mesh ext space sp s s c cm hsp hspc rfl hcm

/-- On a function space that has the child `c` and whose mesh has a child,
`adapt(space, cell_markers)` returns `c` and leaves the state as it is. -/
theorem adapt_space_markers_unchanged (ext : External) (space : Nat) (cell_markers : List Bool)
    (s : State) (c : Nat)
    (hc : child_of s.spaces space = some c) (hm : s.mesh_of_space_refined space) :
    adapt_space_markers ext space cell_markers s = (.ok c, s) := by
  obtain ⟨sp, cm, hsp, hcm⟩ := hm
  have hspc : sp.child = some c := by simpa [child_of, hsp] using hc
  have hrun : adapt_mesh_markers ext sp.val.mesh cell_markers s = (.ok cm, s) := by
    unfold adapt_mesh_markers
    exact returns_child_mesh sp.val.mesh _ s cm hcm
  unfold adapt_space_markers
  rw [Adapt.bind_ok _ _ s s sp (get_space_ok _ s sp hsp)]
  rw [Adapt.bind_ok _ _ s s cm hrun]
  exact space_after_mesh ext space sp s s c cm hsp hspc rfl hcm

/-- On a function space that has the child `c` and whose mesh has no child,
`adapt(space)` returns `c` and the only change is the link of one new mesh as
the child of the mesh of the space. -/
theorem adapt_space_uniform_new_mesh (ext : External) (space : Nat) (s : State) (c : Nat)
    (sp : Hierarchical FunctionSpace) (m : Hierarchical Mesh)
    (hc : child_of s.spaces space = some c) (hsp : s.spaces[space]? = some sp)
    (hm : s.meshes[sp.val.mesh]? = some m) (hnone : m.child = none) :
    adapt_space_uniform ext space s =
      (.ok c, (set_parent_child_mesh sp.val.mesh (ext.refine_uniform m.val) s).2) := by
  have hspc : sp.child = some c := by simpa [child_of, hsp] using hc
  have hrun : adapt_mesh ext sp.val.mesh s =
      (.ok (set_parent_child s.meshes sp.val.mesh (ext.refine_uniform m.val)).2,
        (set_parent_child_mesh sp.val.mesh (ext.refine_uniform m.val) s).2) := by
    unfold adapt_mesh
    rw [Adapt.bind_ok _ _ s s m (get_mesh_ok _ s m hm), hnone]
    rfl
  unfold adapt_space_uniform
  rw [Adapt.bind_ok _ _ s s sp (get_space_ok _ s sp hsp)]
  rw [Adapt.bind_ok _ _ s _ _ hrun]
  exact space_after_mesh ext space sp s _ c _ hsp hspc rfl
    (adapt_mesh_links ext sp.val.mesh s _ _ hrun)

/-- On a function space that has the child `c` and whose mesh has no child,
`adapt(space, cell_markers)` returns `c` and the only change is the link of
one new mesh as the child of the mesh of the space. -/
theorem adapt_space_markers_new_mesh (ext : External) (space : Nat) (cell_markers : List Bool)
    (s : State) (c : Nat) (sp : Hierarchical FunctionSpace) (m : Hierarchical Mesh)
    (hc : child_of s.spaces space = some c) (hsp : s.spaces[space]? = some sp)
    (hm : s.meshes[sp.val.mesh]? = some m) (hnone : m.child = none) :
    adapt_space_markers ext space cell_markers s =
      (.ok c, (set_parent_child_mesh sp.val.mesh (ext.refine_local m.val cell_markers) s).2) := by
  have hspc : sp.child = some c := by simpa [child_of, hsp] using hc
  have hrun : adapt_mesh_markers ext sp.val.mesh cell_markers s =
      (.ok (set_parent_child s.meshes sp.val.mesh (ext.refine_local m.val cell_markers)).2,
        (set_parent_child_mesh sp.val.mesh (ext.refine_local m.val cell_markers) s).2) := by
    unfold adapt_mesh_markers
    rw [Adapt.bind_ok _ _ s s m (get_mesh_ok _ s m hm), hnone]
    rfl
  unfold adapt_space_markers
  rw [Adapt.bind_ok _ _ s s sp (get_space_ok _ s sp hsp)]
  rw [Adapt.bind_ok _ _ s _ _ hrun]
  exact space_after_mesh ext space sp s _ c _ hsp hspc rfl
    (adapt_mesh_markers_links ext sp.val.mesh cell_markers s _ _ hrun)

/-- **C3** (idempotence, as amended). Let a call of a refinement entry point
on an entity return the child `c`, and let any refinements follow. A second
call of any entry point on the same entity returns `c` and leaves the whole
state as it is (nothing is constructed, nothing is changed) in each of these
cases: the second call is of an entry point that opens with the `has_child`
guard (every entry point but `adapt(space)` and `adapt(space, cell_markers)`);
or the first call was itself `adapt(space)` or `adapt(space, cell_markers)`,
which covers every repeated identical call; or the mesh of the space has a
child at the second call. In the one case left, `adapt(space)` or
`adapt(space, cell_markers)` called while the mesh of the space has no child,
the second call returns `c` as well, and the state it leaves is the state
before with one new mesh linked as the child of the mesh of the space: only
the arena of the meshes differs. -/
theorem adapt_twice (ext : External) (first second : Call) (ks : List Kind) (s s1 s2 : State)
    (c : Nat) (hkind : second.kind = first.kind) (hentity : second.entity = first.entity)
    (hfirst : first.run ext s = (.ok c, s1)) (hlater : Refines ks s1 s2) :
    (second.refines_mesh_first = false ∨ first.refines_mesh_first = true ∨
        s2.mesh_of_space_refined second.entity → second.run ext s2 = (.ok c, s2)) ∧
    (second.refines_mesh_first = true →
      ∀ (sp : Hierarchical FunctionSpace) (m : Hierarchical Mesh),
        s2.spaces[second.entity]? = some sp → s2.meshes[sp.val.mesh]? = some m →
        m.child = none →
        (∃ fine, second.run ext s2 =
          (.ok c, (set_parent_child_mesh sp.val.mesh fine s2).2)) ∧
        Refines [.mesh] s2 (second.run ext s2).2) := by
  have hchild : s2.child second.kind second.entity = some c := by
    rw [hkind, hentity]
    exact hlater.child _ _ _ (Call.run_links ext first s s1 c hfirst)
  constructor
  · intro hcase
    by_cases hg : second.refines_mesh_first = false
    · exact Call.run_returns_child ext second s2 c hg hchild
    · have hmesh : s2.mesh_of_space_refined second.entity := by
        rcases hcase with h | h | h
        · exact absurd h hg
        · rw [hentity]
          exact State.mesh_of_space_refined_later hlater _
            (Call.run_refines_mesh ext first s s1 c h hfirst)
        · exact h
      cases second with
      | space_uniform x => exact adapt_space_uniform_unchanged ext x s2 c hchild hmesh
      | space_markers x cm => exact adapt_space_markers_unchanged ext x cm s2 c hchild hmesh
      | _ => simp [Call.refines_mesh_first] at hg
  · intro hg sp m hsp hm hnone
    cases second with
    | space_uniform x =>
      exact ⟨⟨_, adapt_space_uniform_new_mesh ext x s2 c sp m hchild hsp hm hnone⟩,
        (adapt_space_uniform_refined ext x s2 c hchild ⟨sp, m, hsp, hm⟩).2⟩
    | space_markers x cm =>
      exact ⟨⟨_, adapt_space_markers_new_mesh ext x cm s2 c sp m hchild hsp hm hnone⟩,
        (adapt_space_markers_refined ext x cm s2 c hchild ⟨sp, m, hsp, hm⟩).2⟩
    | _ => simp [Call.refines_mesh_first] at hg

/-- Counterexample to C3 as stated: the function space 0 is refined against
the mesh 1 and gets the child 1; a second call, of `adapt(space)`, returns
the child 1 again but constructs a third mesh and links it as the child of
the mesh of the space. -/
theorem adapt_space_uniform_constructs_mesh :
    (Call.run example_external (.space 0 1) space_state).1 = .ok 1 ∧
    (Call.run example_external (.space_uniform 0)
      (Call.run example_external (.space 0 1) space_state).2).1 = .ok 1 ∧
    (Call.run example_external (.space 0 1) space_state).2.meshes.length = 2 ∧
    child_of (Call.run example_external (.space 0 1) space_state).2.meshes 0 = none ∧
    (Call.run example_external (.space_uniform 0)
      (Call.run example_external (.space 0 1) space_state).2).2.meshes.length = 3 ∧
    child_of (Call.run example_external (.space_uniform 0)
      (Call.run example_external (.space 0 1) space_state).2).2.meshes 0 = some 2 := by
  refine ⟨by rfl, by rfl, by rfl, by rfl, by rfl, by rfl⟩

/-- Witness of C3. The call `adapt(space)` on the function space 0, repeated:
the second call returns the child of the first and leaves the state as it is.
The call `adapt(space, mesh 1)` repeated does the same. And `adapt(space)`
after `adapt(space, mesh 1)`, the mesh 0 of the space having no child, leaves
the state with one new mesh linked as the child of the mesh 0. -/
theorem adapt_twice_witness :
    (Call.space_uniform 0).run example_external
        ((Call.space_uniform 0).run example_external space_state).2 =
      (.ok 1, ((Call.space_uniform 0).run example_external space_state).2) ∧
    (Call.space 0 1).run example_external
        ((Call.space 0 1).run example_external space_state).2 =
      (.ok 1, ((Call.space 0 1).run example_external space_state).2) ∧
    ∃ fine, (Call.space_uniform 0).run example_external
        ((Call.space 0 1).run example_external space_state).2 =
      (.ok 1, (set_parent_child_mesh 0 fine
        ((Call.space 0 1).run example_external space_state).2).2) :=
  ⟨(adapt_twice example_external (.space_uniform 0) (.space_uniform 0) [] space_state
      ((Call.space_uniform 0).run example_external space_state).2
      ((Call.space_uniform 0).run example_external space_state).2 1 rfl rfl rfl
      (Refines.refines_refl _ _)).1 (Or.inr (Or.inl rfl)),
    (adapt_twice example_external (.space 0 1) (.space 0 1) [] space_state
      ((Call.space 0 1).run example_external space_state).2
      ((Call.space 0 1).run example_external space_state).2 1 rfl rfl rfl
      (Refines.refines_refl _ _)).1 (Or.inl rfl),
    ((adapt_twice example_external (.space 0 1) (.space_uniform 0) [] space_state
      ((Call.space 0 1).run example_external space_state).2
      ((Call.space 0 1).run example_external space_state).2 1 rfl rfl rfl
      (Refines.refines_refl _ _)).2 rfl _ _ rfl rfl rfl).1⟩

/-! ## Form refiner -/

theorem forall₂_getElem? {α β : Type} {R : α → β → Prop} {l1 : List α} {l2 : List β}
    (h : List.Forall₂ R l1 l2) : ∀ (i : Nat) (a : α), l1[i]? = some a →
      ∃ b, l2[i]? = some b ∧ R a b := by
  induction h with
  | nil => intro i a ha; simp at ha
  | cons hab _ ih =>
    intro i a ha
    cases i with
    | zero =>
      simp only [List.getElem?_cons_zero, Option.some.injEq] at ha
      subst ha
      exact ⟨_, by simp, hab⟩
    | succ j =>
      simp only [List.getElem?_cons_succ] at ha
      obtain ⟨b, hb, hr⟩ := ih j a ha
      exact ⟨b, by simpa using hb, hr⟩

theorem required_child_eq_ok {α : Type} (x : Hierarchical α) (s s1 : State) (c : Nat)
    (h : lift (required x.child) s = (.ok c, s1)) : s1 = s ∧ x.child = some c := by
  cases hc : x.child with
  | none => rw [hc] at h; simp [lift, required] at h
  | some c1 =>
    rw [hc] at h
    simp only [lift, required, Prod.mk.injEq, Except.ok.injEq] at h
    exact ⟨h.2.symm, by rw [h.1]⟩

theorem refine_spaces_spec (ext : External) (refined_mesh : Nat) :
    ∀ (spaces : List Nat) (s s1 : State) (rs : List Nat),
      refine_spaces ext refined_mesh spaces s = (.ok rs, s1) →
      List.Forall₂ (fun v c => child_of s1.spaces v = some c) spaces rs
  | [], s, s1, rs, h => by
    simp only [refine_spaces, Adapt.pure_apply, Prod.mk.injEq, Except.ok.injEq] at h
    rw [← h.1]
    exact List.Forall₂.nil
  | v :: rest, s, s1, rs, h => by
    unfold refine_spaces at h
    obtain ⟨_, sa, _, k1⟩ := Adapt.bind_eq_ok _ _ _ _ _ h
    obtain ⟨sp, sb, h2, k2⟩ := Adapt.bind_eq_ok _ _ _ _ _ k1
    obtain ⟨hsb, hsp⟩ := get_space_eq_ok v sa sb sp h2
    obtain ⟨c, sc, h3, k3⟩ := Adapt.bind_eq_ok _ _ _ _ _ k2
    obtain ⟨hsc, hc⟩ := required_child_eq_ok sp sb sc c h3
    obtain ⟨cs, sd, h4, k4⟩ := Adapt.bind_eq_ok _ _ _ _ _ k3
    simp only [Adapt.pure_apply, Prod.mk.injEq, Except.ok.injEq] at k4
    obtain ⟨hrs, hsd⟩ := k4
    rw [hsc, hsb] at h4
    rw [← hrs, ← hsd]
    have ih := refine_spaces_spec ext refined_mesh rest sa sd cs h4
    have hg := (sound_run (sound_refine_spaces ext refined_mesh rest) h4).grows .space
    refine List.Forall₂.cons ?_ ih
    exact Grows.child_of hg v c (by simp [child_of, hsp, hc])

theorem refine_coefficients_spec (ext : External) (refined_mesh : Nat) :
    ∀ (coefficients : List GenericFunction) (s s1 : State) (rc : List GenericFunction),
      refine_coefficients ext refined_mesh coefficients s = (.ok rc, s1) →
      List.Forall₂ (RefinedCoefficient s1) coefficients rc
  | [], s, s1, rc, h => by
    simp only [refine_coefficients, Adapt.pure_apply, Prod.mk.injEq, Except.ok.injEq] at h
    rw [← h.1]
    exact List.Forall₂.nil
  | .function g :: rest, s, s1, rc, h => by
    unfold refine_coefficients at h
    obtain ⟨_, sa, _, k1⟩ := Adapt.bind_eq_ok _ _ _ _ _ h
    obtain ⟨f, sb, h2, k2⟩ := Adapt.bind_eq_ok _ _ _ _ _ k1
    obtain ⟨hsb, hf⟩ := get_function_eq_ok g sa sb f h2
    obtain ⟨c, sc, h3, k3⟩ := Adapt.bind_eq_ok _ _ _ _ _ k2
    obtain ⟨hsc, hc⟩ := required_child_eq_ok f sb sc c h3
    obtain ⟨cs, sd, h4, k4⟩ := Adapt.bind_eq_ok _ _ _ _ _ k3
    simp only [Adapt.pure_apply, Prod.mk.injEq, Except.ok.injEq] at k4
    obtain ⟨hrs, hsd⟩ := k4
    rw [hsc, hsb] at h4
    rw [← hrs, ← hsd]
    have ih := refine_coefficients_spec ext refined_mesh rest sa sd cs h4
    have hg := (sound_run (sound_refine_coefficients ext refined_mesh rest) h4).grows .function
    refine List.Forall₂.cons ?_ ih
    exact ⟨c, Grows.child_of hg g c (by simp [child_of, hf, hc]), rfl⟩
  | .other x :: rest, s, s1, rc, h => by
    unfold refine_coefficients at h
    obtain ⟨cs, sd, h4, k4⟩ := Adapt.bind_eq_ok _ _ _ _ _ h
    simp only [Adapt.pure_apply, Prod.mk.injEq, Except.ok.injEq] at k4
    obtain ⟨hrs, hsd⟩ := k4
    rw [← hrs, ← hsd]
    exact List.Forall₂.cons rfl (refine_coefficients_spec ext refined_mesh rest s sd cs h4)

/-- The steps of a run of the form refiner that returns, on a form without a
child. -/
theorem adapt_form_inv (ext : External) (form refined_mesh : Nat) (s s1 : State) (c : Nat)
    (f : Hierarchical Form) (hf : s.forms[form]? = some f) (hchild : f.child = none)
    (hrun : adapt_form ext form refined_mesh s = (.ok c, s1)) :
    ∃ (rs : List Nat) (rc : List GenericFunction) (d1 d2 d3 : Option Nat) (sa sb se : State),
      refine_spaces ext refined_mesh f.val.function_spaces s = (.ok rs, sa) ∧
      refine_coefficients ext refined_mesh f.val.coefficients sa = (.ok rc, sb) ∧
      Refines [.mesh_function] sb se ∧
      set_parent_child_form form
        { ufc_form := f.val.ufc_form, function_spaces := rs, coefficients := rc,
          mesh := some refined_mesh, cell_domains := d1, exterior_facet_domains := d2,
          interior_facet_domains := d3 } se = (.ok c, s1) := by
  unfold adapt_form at hrun
  rw [Adapt.bind_ok _ _ s s f (get_form_ok form s f hf), hchild] at hrun
  simp only [skip_if_refined] at hrun
  obtain ⟨rs, sa, h1, k1⟩ := Adapt.bind_eq_ok _ _ _ _ _ hrun
  obtain ⟨rc, sb, h2, k2⟩ := Adapt.bind_eq_ok _ _ _ _ _ k1
  obtain ⟨d1, sc, h3, k3⟩ := Adapt.bind_eq_ok _ _ _ _ _ k2
  obtain ⟨d2, sd, h4, k4⟩ := Adapt.bind_eq_ok _ _ _ _ _ k3
  obtain ⟨d3, se, h5, k5⟩ := Adapt.bind_eq_ok _ _ _ _ _ k4
  refine ⟨rs, rc, d1, d2, d3, sa, sb, se, h1, h2, ?_, k5⟩
  exact ((sound_run (sound_refine_domains _ _) h3).refines_trans
    (sound_run (sound_refine_domains _ _) h4)).refines_trans (sound_run (sound_refine_domains _ _) h5)

theorem set_parent_child_form_inv (form : Nat) (v : Form) (se s1 : State) (c : Nat)
    (h : set_parent_child_form form v se = (.ok c, s1)) :
    s1.forms[c]? = some { val := v, child := none, parent := some form } ∧
      s1.spaces = se.spaces ∧ s1.functions = se.functions ∧
      s1.mesh_functions = se.mesh_functions ∧ s1.meshes = se.meshes := by
  simp only [set_parent_child_form, Prod.mk.injEq, Except.ok.injEq] at h
  obtain ⟨hc, hs⟩ := h
  rw [← hs, ← hc, set_parent_child_snd]
  exact ⟨set_parent_child_new _ _ _, rfl, rfl, rfl, rfl⟩

/-- The content of the child that the form refiner builds. -/
theorem adapt_form_content (ext : External) (form refined_mesh : Nat) (s s1 : State)
    (c : Nat) (f : Hierarchical Form) (hf : s.forms[form]? = some f) (hchild : f.child = none)
    (hrun : adapt_form ext form refined_mesh s = (.ok c, s1)) :
    ∃ r : Hierarchical Form, s1.forms[c]? = some r ∧
      r.val.coefficients.length = f.val.coefficients.length ∧
      (∀ (i g : Nat), f.val.coefficients[i]? = some (GenericFunction.function g) →
        ∃ gc, child_of s1.functions g = some gc ∧
          r.val.coefficients[i]? = some (GenericFunction.function gc)) ∧
      (∀ (i x : Nat), f.val.coefficients[i]? = some (GenericFunction.other x) →
        r.val.coefficients[i]? = some (GenericFunction.other x)) ∧
      r.val.function_spaces.length = f.val.function_spaces.length ∧
      (∀ (i v : Nat), f.val.function_spaces[i]? = some v →
        ∃ vc, child_of s1.spaces v = some vc ∧ r.val.function_spaces[i]? = some vc) := by
  obtain ⟨rs, rc, d1, d2, d3, sa, sb, se, h1, h2, h3, h4⟩ :=
    adapt_form_inv ext form refined_mesh s s1 c f hf hchild hrun
  obtain ⟨hnew, hsp, hfn, _, _⟩ := set_parent_child_form_inv form _ se s1 c h4
  have hspaces := refine_spaces_spec ext refined_mesh _ s sa rs h1
  have hcoeffs := refine_coefficients_spec ext refined_mesh _ sa sb rc h2
  have hab := sound_run (sound_refine_coefficients ext refined_mesh _) h2
  refine ⟨_, hnew, hcoeffs.length_eq.symm, ?_, ?_, hspaces.length_eq.symm, ?_⟩
  · intro i g hi
    obtain ⟨b, hb, gc, hgc, hbe⟩ := forall₂_getElem? hcoeffs i _ hi
    refine ⟨gc, ?_, by rw [← hbe]; exact hb⟩
    rw [hfn]
    exact Grows.child_of (h3.grows .function) g gc hgc
  · intro i x hi
    obtain ⟨b, hb, hbe⟩ := forall₂_getElem? hcoeffs i _ hi
    have hbe1 : b = .other x := hbe
    rw [← hbe1]; exact hb
  · intro i v hi
    obtain ⟨vc, hb, hvc⟩ := forall₂_getElem? hspaces i _ hi
    refine ⟨vc, ?_, hb⟩
    rw [hsp]
    exact Grows.child_of (h3.grows .space) v vc (Grows.child_of (hab.grows .space) v vc hvc)

/-- **C6** (form refiner, coefficients and function spaces). When the form
refiner returns the child `c` of a form `f` that had no child, the
coefficients of `c` are as many as those of `f` and in the same order: at
each position the child of the coefficient of `f` when that coefficient is a
`Function`, and the coefficient of `f` itself when it is not; and the
function spaces of `c` are, position by position, the children of the
function spaces of `f`. -/
theorem adapt_form_coefficients (ext : External) (form refined_mesh : Nat) (s s1 : State)
    (c : Nat) (f : Hierarchical Form) (hf : s.forms[form]? = some f) (hchild : f.child = none)
    (hrun : adapt_form ext form refined_mesh s = (.ok c, s1)) :
    ∃ r : Hierarchical Form, s1.forms[c]? = some r ∧
      r.val.coefficients.length = f.val.coefficients.length ∧
      (∀ (i g : Nat), f.val.coefficients[i]? = some (GenericFunction.function g) →
        ∃ gc, child_of s1.functions g = some gc ∧
          r.val.coefficients[i]? = some (GenericFunction.function gc)) ∧
      (∀ (i x : Nat), f.val.coefficients[i]? = some (GenericFunction.other x) →
        r.val.coefficients[i]? = some (GenericFunction.other x)) ∧
      r.val.function_spaces.length = f.val.function_spaces.length ∧
      (∀ (i v : Nat), f.val.function_spaces[i]? = some v →
        ∃ vc, child_of s1.spaces v = some vc ∧ r.val.function_spaces[i]? = some vc) :=
  adapt_form_content ext form refined_mesh s s1 c f hf hchild hrun

/-- Witness of C6: the form 0 of `form_state` refined against the fine
triangle. -/
theorem adapt_form_coefficients_witness :
    ∃ r : Hierarchical Form,
      (adapt_form example_external 0 1 form_state).2.forms[1]? = some r ∧
      r.val.coefficients.length = 2 ∧
      (∀ (i g : Nat), [GenericFunction.function 0, GenericFunction.other 5][i]? =
          some (GenericFunction.function g) →
        ∃ gc, child_of (adapt_form example_external 0 1 form_state).2.functions g = some gc ∧
          r.val.coefficients[i]? = some (GenericFunction.function gc)) ∧
      (∀ (i x : Nat), [GenericFunction.function 0, GenericFunction.other 5][i]? =
          some (GenericFunction.other x) →
        r.val.coefficients[i]? = some (GenericFunction.other x)) ∧
      r.val.function_spaces.length = 2 ∧
      (∀ (i v : Nat), [0, 0][i]? = some v →
        ∃ vc, child_of (adapt_form example_external 0 1 form_state).2.spaces v = some vc ∧
          r.val.function_spaces[i]? = some vc) :=
  adapt_form_coefficients example_external 0 1 form_state
    (adapt_form example_external 0 1 form_state).2 1
    ⟨⟨13, [0, 0], [.function 0, .other 5], some 0, none, none, none⟩, none, none⟩ rfl rfl rfl

/-! ## Boundary-condition refiner -/

theorem remap_markers_eq_ok (refined_mesh : Mesh) (markers : List (Nat × Nat)) (mesh : Mesh)
    (s s1 : State) (out : List (Nat × Nat))
    (h : remap_markers refined_mesh markers mesh s = (.ok out, s1)) :
    s1 = s ∧ adapt_markers [] refined_mesh markers mesh = (.ok (), out) := by
  unfold remap_markers at h
  rcases hr : adapt_markers [] refined_mesh markers mesh with ⟨e | u, l⟩
  · rw [hr] at h; simp [fail] at h
  · rw [hr] at h
    simp only [Adapt.pure_apply, Prod.mk.injEq, Except.ok.injEq] at h
    exact ⟨h.2.symm, by rw [h.1]⟩

theorem Grows.val {α : Type} {a a1 : List (Hierarchical α)} (h : Grows a a1) (id : Nat)
    (x : Hierarchical α) (hx : a[id]? = some x) :
    (a1[id]?).map Hierarchical.val = some x.val := by
  obtain ⟨y, hy, hv, _, _⟩ := h id x hx
  rw [hy]
  simp [hv]

/-- The function space `V` that the boundary-condition refiner builds
(lines 305-326). -/
theorem adapt_bc_space (ext : External) (W refined_mesh S : Nat) (w : Hierarchical FunctionSpace)
    (s sv : State) (V : Nat)
    (h : (if w.val.component.length = 0 then do
        let _child ← adapt_space ext W refined_mesh
        let w1 ← get_space W
        lift (required w1.child)
      else do
        let _child ← adapt_space ext S refined_mesh
        let s1 ← get_space S
        let Sc ← lift (required s1.child)
        let sc ← get_space Sc
        new_space (SubSpace ext sc.val w.val.component)) s = (.ok V, sv)) :
    (w.val.component = [] → child_of sv.spaces W = some V) ∧
    (w.val.component ≠ [] → ∃ Sc sc, child_of sv.spaces S = some Sc ∧
      (sv.spaces[Sc]?).map Hierarchical.val = some sc ∧
      (sv.spaces[V]?).map Hierarchical.val = some (SubSpace ext sc w.val.component)) := by
  by_cases hcomp : w.val.component.length = 0
  · rw [if_pos hcomp] at h
    have hnil : w.val.component = [] := List.length_eq_zero.1 hcomp
    refine ⟨fun _ => ?_, fun hne => absurd hnil hne⟩
    obtain ⟨_, sa, _, k1⟩ := Adapt.bind_eq_ok _ _ _ _ _ h
    exact child_of_final_lookup get_space State.spaces get_space_eq_ok W sa sv V k1
  · rw [if_neg hcomp] at h
    refine ⟨fun hnil => absurd (by rw [hnil]; rfl) hcomp, fun _ => ?_⟩
    obtain ⟨_, sa, _, k1⟩ := Adapt.bind_eq_ok _ _ _ _ _ h
    obtain ⟨x, sb, h2, k2⟩ := Adapt.bind_eq_ok _ _ _ _ _ k1
    obtain ⟨hsb, hx⟩ := get_space_eq_ok S sa sb x h2
    obtain ⟨Sc, sc, h3, k3⟩ := Adapt.bind_eq_ok _ _ _ _ _ k2
    obtain ⟨hsc, hSc⟩ := required_child_eq_ok x sb sc Sc h3
    obtain ⟨y, sd, h4, k4⟩ := Adapt.bind_eq_ok _ _ _ _ _ k3
    obtain ⟨hsd, hy⟩ := get_space_eq_ok Sc sc sd y h4
    rw [hsd, hsc, hsb] at k4
    rw [hsc, hsb] at hy
    simp only [new_space, Prod.mk.injEq, Except.ok.injEq] at k4
    obtain ⟨hV, hsv⟩ := k4
    refine ⟨Sc, y.val, ?_, ?_, ?_⟩
    · rw [← hsv]
      simp only [child_of]
      rw [List.getElem?_append_left (lt_length_of_getElem? hx), hx]
      exact hSc
    · rw [← hsv]
      simp only
      rw [List.getElem?_append_left (lt_length_of_getElem? hy), hy]
      rfl
    · rw [← hsv, ← hV]
      simp

/-- **C7** (boundary-condition refiner). When the refiner returns the child
`c` of a Dirichlet condition that had no child, with function space `W`,
value `g` and markers `m`, the child is built from `(V, g', m')`: `V` is the
child of `W` when the component path of `W` is empty, and otherwise a
`SubSpace` of the child of the full space `S` with the component path of `W`;
`g'` is the child of `g` when `g` is a `Function` and `g` itself otherwise;
and `m'` is the output of `adapt_markers` on `m`, with the mesh of `W` as
coarse mesh and the refined mesh as fine mesh. -/
theorem adapt_bc_content (ext : External) (bc refined_mesh S : Nat) (s s1 : State) (c : Nat)
    (b : Hierarchical DirichletBC) (hb : s.bcs[bc]? = some b) (hchild : b.child = none)
    (hrun : adapt_bc ext bc refined_mesh S s = (.ok c, s1)) :
    ∃ (r : Hierarchical DirichletBC) (w : Hierarchical FunctionSpace)
      (fine coarse : Hierarchical Mesh),
      s1.bcs[c]? = some r ∧ r.parent = some bc ∧
      s.spaces[b.val.function_space]? = some w ∧
      s.meshes[refined_mesh]? = some fine ∧ s.meshes[w.val.mesh]? = some coarse ∧
      (w.val.component = [] →
        child_of s1.spaces b.val.function_space = some r.val.function_space) ∧
      (w.val.component ≠ [] → ∃ Sc sc, child_of s1.spaces S = some Sc ∧
        (s1.spaces[Sc]?).map Hierarchical.val = some sc ∧
        (s1.spaces[r.val.function_space]?).map Hierarchical.val =
          some (SubSpace ext sc w.val.component)) ∧
      RefinedCoefficient s1 b.val.value r.val.value ∧
      adapt_markers [] fine.val b.val.markers coarse.val = (.ok (), r.val.markers) := by
  unfold adapt_bc at hrun
  rw [Adapt.bind_ok _ _ s s b (get_bc_ok bc s b hb), hchild] at hrun
  simp only [skip_if_refined] at hrun
  obtain ⟨w, sa, h1, k1⟩ := Adapt.bind_eq_ok _ _ _ _ _ hrun
  obtain ⟨hsa, hw⟩ := get_space_eq_ok _ s sa w h1
  rw [hsa] at k1
  obtain ⟨V, sv, h2, k2⟩ := Adapt.bind_eq_ok _ _ _ _ _ k1
  have hV := adapt_bc_space ext _ refined_mesh S w s sv V h2
  have hsound_V : Refines [.space] s sv := by
    have hs : Sound [.space] (if w.val.component.length = 0 then do
        let _child ← adapt_space ext b.val.function_space refined_mesh
        let w1 ← get_space b.val.function_space
        lift (required w1.child)
      else do
        let _child ← adapt_space ext S refined_mesh
        let s1 ← get_space S
        let Sc ← lift (required s1.child)
        let sc ← get_space Sc
        new_space (SubSpace ext sc.val w.val.component)) := by
      split
      · exact sound_bind (sound_adapt_space ext _ _) fun _ =>
          sound_bind (sound_get_space _ _) fun _ => sound_lift _ _
      · exact sound_bind (sound_adapt_space ext _ _) fun _ =>
          sound_bind (sound_get_space _ _) fun _ =>
          sound_bind (sound_lift _ _) fun _ =>
          sound_bind (sound_get_space _ _) fun _ => sound_new_space _
    exact sound_run hs h2
  have hmeshes : sv.meshes = s.meshes := hsound_V.touches .mesh (by decide)
  obtain ⟨fine, sb, h3, k3⟩ := Adapt.bind_eq_ok _ _ _ _ _ k2
  obtain ⟨hsb, hfine⟩ := get_mesh_eq_ok _ sv sb fine h3
  rw [hsb] at k3
  obtain ⟨coarse, sc, h4, k4⟩ := Adapt.bind_eq_ok _ _ _ _ _ k3
  obtain ⟨hsc, hcoarse⟩ := get_mesh_eq_ok _ sv sc coarse h4
  rw [hsc] at k4
  obtain ⟨out, sd, h5, k5⟩ := Adapt.bind_eq_ok _ _ _ _ _ k4
  obtain ⟨hsd, hout⟩ := remap_markers_eq_ok _ _ _ sv sd out h5
  rw [hsd] at k5
  rw [hmeshes] at hfine hcoarse
  -- what is left is the refinement of the value and the link
  have finish : ∀ (se : State) (v : DirichletBC), Refines [.space, .function] sv se →
      set_parent_child_bc bc v se = (.ok c, s1) →
      s1.bcs[c]? = some { val := v, child := none, parent := some bc } ∧
        Grows sv.spaces s1.spaces ∧ s1.functions = se.functions := by
    intro se v href hlink
    simp only [set_parent_child_bc, Prod.mk.injEq, Except.ok.injEq] at hlink
    obtain ⟨hc, hs⟩ := hlink
    rw [← hs, ← hc, set_parent_child_snd]
    exact ⟨set_parent_child_new _ _ _, href.grows .space, rfl⟩
  have transport : Grows sv.spaces s1.spaces →
      (w.val.component = [] → child_of s1.spaces b.val.function_space = some V) ∧
      (w.val.component ≠ [] → ∃ Sc sc, child_of s1.spaces S = some Sc ∧
        (s1.spaces[Sc]?).map Hierarchical.val = some sc ∧
        (s1.spaces[V]?).map Hierarchical.val = some (SubSpace ext sc w.val.component)) := by
    intro hg
    refine ⟨fun hnil => Grows.child_of hg _ _ (hV.1 hnil), fun hne => ?_⟩
    obtain ⟨Sc, scv, h6, h7, h8⟩ := hV.2 hne
    refine ⟨Sc, scv, Grows.child_of hg _ _ h6, ?_, ?_⟩
    · cases hx : sv.spaces[Sc]? with
      | none => rw [hx] at h7; simp at h7
      | some x =>
        rw [hx] at h7
        simp only [Option.map_some', Option.some.injEq] at h7
        rw [← h7]
        exact Grows.val hg Sc x hx
    · cases hx : sv.spaces[V]? with
      | none => rw [hx] at h8; simp at h8
      | some x =>
        rw [hx] at h8
        simp only [Option.map_some', Option.some.injEq] at h8
        rw [← h8]
        exact Grows.val hg V x hx
  cases hval : b.val.value with
  | function g =>
    rw [hval] at k5
    simp only at k5
    obtain ⟨_, se, h6, k6⟩ := Adapt.bind_eq_ok _ _ _ _ _ k5
    obtain ⟨gf, sf, h7, k7⟩ := Adapt.bind_eq_ok _ _ _ _ _ k6
    obtain ⟨hsf, hgf⟩ := get_function_eq_ok g se sf gf h7
    rw [hsf] at k7
    obtain ⟨gc, sg, h8, k8⟩ := Adapt.bind_eq_ok _ _ _ _ _ k7
    obtain ⟨hsg, hgc⟩ := required_child_eq_ok gf se sg gc h8
    rw [hsg] at k8
    obtain ⟨hnew, hg, hfn⟩ := finish se _ (sound_run (sound_adapt_function ext g refined_mesh) h6) k8
    obtain ⟨t1, t2⟩ := transport hg
    refine ⟨_, w, fine, coarse, hnew, rfl, hw, hfine, hcoarse, t1, t2, ?_, hout⟩
    exact ⟨gc, by rw [hfn]; simp [child_of, hgf, hgc], rfl⟩
  | other x =>
    rw [hval] at k5
    simp only at k5
    obtain ⟨hnew, hg, _⟩ := finish sv _ (Refines.refines_refl _ _) k5
    obtain ⟨t1, t2⟩ := transport hg
    exact ⟨_, w, fine, coarse, hnew, rfl, hw, hfine, hcoarse, t1, t2, rfl, hout⟩

/-- Witness of C7 (Scenario C): the Dirichlet condition 0 of `form_state`,
marked on `(cell 0, local facet 2)` with a `Function` as value. -/
theorem adapt_bc_content_witness :
    ∃ (r : Hierarchical DirichletBC) (w : Hierarchical FunctionSpace)
      (fine coarse : Hierarchical Mesh),
      bc_state.bcs[2]? = some r ∧ r.parent = some 0 ∧
      form_state.spaces[0]? = some w ∧
      form_state.meshes[1]? = some fine ∧ form_state.meshes[w.val.mesh]? = some coarse ∧
      (w.val.component = [] → child_of bc_state.spaces 0 = some r.val.function_space) ∧
      (w.val.component ≠ [] → ∃ Sc sc, child_of bc_state.spaces 0 = some Sc ∧
        (bc_state.spaces[Sc]?).map Hierarchical.val = some sc ∧
        (bc_state.spaces[r.val.function_space]?).map Hierarchical.val =
          some (SubSpace example_external sc w.val.component)) ∧
      RefinedCoefficient bc_state (GenericFunction.function 0) r.val.value ∧
      adapt_markers [] fine.val [(0, 2)] coarse.val = (.ok (), r.val.markers) :=
  adapt_bc_content example_external 0 1 0 form_state bc_state 2
    ⟨⟨0, .function 0, [(0, 2)]⟩, none, none⟩ rfl rfl rfl


/-! ## The fatal errors of the refiners -/

theorem onlyRaises_pure {α : Type} (es : List Failure) (a : α) :
    OnlyRaises es (pure a : Adapt α) := by
  intro s e s1 h
  simp [Adapt.pure_apply] at h

theorem onlyRaises_fail {α : Type} (es : List Failure) (e : Failure) (he : e ∈ es) :
    OnlyRaises es (fail e : Adapt α) := by
  intro s e1 s1 h
  simp only [fail, Prod.mk.injEq, Except.error.injEq] at h
  rw [← h.1]; exact he

theorem onlyRaises_required {α : Type} (es : List Failure) (he : Failure.library ∈ es)
    (x : Option α) : OnlyRaises es (lift (required x)) := by
  intro s e s1 h
  cases x with
  | none =>
    simp only [lift, required, Prod.mk.injEq, Except.error.injEq] at h
    rw [← h.1]; exact he
  | some a => simp [lift, required] at h

theorem onlyRaises_bind {α β : Type} {es : List Failure} {m : Adapt α} {f : α → Adapt β}
    (hm : OnlyRaises es m) (hf : ∀ a, OnlyRaises es (f a)) : OnlyRaises es (m >>= f) := by
  intro s e s2 h
  rcases Adapt.bind_eq_error _ _ _ _ _ h with h1 | ⟨a, s1, _, h2⟩
  · exact hm s e s2 h1
  · exact hf a s1 e s2 h2

theorem onlyRaises_mono {α : Type} {es es1 : List Failure} {m : Adapt α} (hsub : es ⊆ es1)
    (h : OnlyRaises es m) : OnlyRaises es1 m :=
  fun s e s1 hr => hsub (h s e s1 hr)

theorem onlyRaises_skip_if_refined {es : List Failure} (child : Option Nat)
    {refine : Adapt Nat} (h : OnlyRaises es refine) :
    OnlyRaises es (skip_if_refined child refine) := by
  cases child with
  | none => exact h
  | some c => exact onlyRaises_pure es c

theorem onlyRaises_new_space (es : List Failure) (V : FunctionSpace) :
    OnlyRaises es (new_space V) := by
  intro s e s1 h
  simp [new_space] at h

theorem onlyRaises_get_mesh (es : List Failure) (he : Failure.library ∈ es) (id : Nat) :
    OnlyRaises es (get_mesh id) := by
  intro s e s1 h
  unfold get_mesh at h
  cases hx : s.meshes[id]? with
  | none =>
    rw [hx] at h
    simp only [required, Prod.mk.injEq, Except.error.injEq] at h
    rw [← h.1]; exact he
  | some x => rw [hx] at h; simp [required] at h

theorem onlyRaises_set_parent_child_mesh (es : List Failure) (p : Nat) (v : Mesh) :
    OnlyRaises es (set_parent_child_mesh p v) := by
  intro s e s1 h
  simp [set_parent_child_mesh] at h

theorem onlyRaises_get_space (es : List Failure) (he : Failure.library ∈ es) (id : Nat) :
    OnlyRaises es (get_space id) := by
  intro s e s1 h
  unfold get_space at h
  cases hx : s.spaces[id]? with
  | none =>
    rw [hx] at h
    simp only [required, Prod.mk.injEq, Except.error.injEq] at h
    rw [← h.1]; exact he
  | some x => rw [hx] at h; simp [required] at h

theorem onlyRaises_set_parent_child_space (es : List Failure) (p : Nat) (v : FunctionSpace) :
    OnlyRaises es (set_parent_child_space p v) := by
  intro s e s1 h
  simp [set_parent_child_space] at h

theorem onlyRaises_get_function (es : List Failure) (he : Failure.library ∈ es) (id : Nat) :
    OnlyRaises es (get_function id) := by
  intro s e s1 h
  unfold get_function at h
  cases hx : s.functions[id]? with
  | none =>
    rw [hx] at h
    simp only [required, Prod.mk.injEq, Except.error.injEq] at h
    rw [← h.1]; exact he
  | some x => rw [hx] at h; simp [required] at h

theorem onlyRaises_set_parent_child_function (es : List Failure) (p : Nat) (v : Function) :
    OnlyRaises es (set_parent_child_function p v) := by
  intro s e s1 h
  simp [set_parent_child_function] at h

theorem onlyRaises_get_form (es : List Failure) (he : Failure.library ∈ es) (id : Nat) :
    OnlyRaises es (get_form id) := by
  intro s e s1 h
  unfold get_form at h
  cases hx : s.forms[id]? with
  | none =>
    rw [hx] at h
    simp only [required, Prod.mk.injEq, Except.error.injEq] at h
    rw [← h.1]; exact he
  | some x => rw [hx] at h; simp [required] at h

theorem onlyRaises_set_parent_child_form (es : List Failure) (p : Nat) (v : Form) :
    OnlyRaises es (set_parent_child_form p v) := by
  intro s e s1 h
  simp [set_parent_child_form] at h

theorem onlyRaises_get_bc (es : List Failure) (he : Failure.library ∈ es) (id : Nat) :
    OnlyRaises es (get_bc id) := by
  intro s e s1 h
  unfold get_bc at h
  cases hx : s.bcs[id]? with
  | none =>
    rw [hx] at h
    simp only [required, Prod.mk.injEq, Except.error.injEq] at h
    rw [← h.1]; exact he
  | some x => rw [hx] at h; simp [required] at h

theorem onlyRaises_set_parent_child_bc (es : List Failure) (p : Nat) (v : DirichletBC) :
    OnlyRaises es (set_parent_child_bc p v) := by
  intro s e s1 h
  simp [set_parent_child_bc] at h

theorem onlyRaises_get_problem (es : List Failure) (he : Failure.library ∈ es) (id : Nat) :
    OnlyRaises es (get_problem id) := by
  intro s e s1 h
  unfold get_problem at h
  cases hx : s.problems[id]? with
  | none =>
    rw [hx] at h
    simp only [required, Prod.mk.injEq, Except.error.injEq] at h
    rw [← h.1]; exact he
  | some x => rw [hx] at h; simp [required] at h

theorem onlyRaises_set_parent_child_problem (es : List Failure) (p : Nat) (v : VariationalProblem) :
    OnlyRaises es (set_parent_child_problem p v) := by
  intro s e s1 h
  simp [set_parent_child_problem] at h

theorem onlyRaises_get_ec (es : List Failure) (he : Failure.library ∈ es) (id : Nat) :
    OnlyRaises es (get_ec id) := by
  intro s e s1 h
  unfold get_ec at h
  cases hx : s.ecs[id]? with
  | none =>
    rw [hx] at h
    simp only [required, Prod.mk.injEq, Except.error.injEq] at h
    rw [← h.1]; exact he
  | some x => rw [hx] at h; simp [required] at h

theorem onlyRaises_set_parent_child_ec (es : List Failure) (p : Nat) (v : ErrorControl) :
    OnlyRaises es (set_parent_child_ec p v) := by
  intro s e s1 h
  simp [set_parent_child_ec] at h

theorem onlyRaises_get_mesh_function (es : List Failure) (he : Failure.library ∈ es) (id : Nat) :
    OnlyRaises es (get_mesh_function id) := by
  intro s e s1 h
  unfold get_mesh_function at h
  cases hx : s.mesh_functions[id]? with
  | none =>
    rw [hx] at h
    simp only [required, Prod.mk.injEq, Except.error.injEq] at h
    rw [← h.1]; exact he
  | some x => rw [hx] at h; simp [required] at h

theorem onlyRaises_set_parent_child_mesh_function (es : List Failure) (p : Nat) (v : MeshFunction) :
    OnlyRaises es (set_parent_child_mesh_function p v) := by
  intro s e s1 h
  simp [set_parent_child_mesh_function] at h

theorem library_mem_lower : Failure.library ∈ lower_errors := by decide

theorem onlyRaises_adapt_space (ext : External) (space refined_mesh : Nat) :
    OnlyRaises lower_errors (adapt_space ext space refined_mesh) := by
  unfold adapt_space
  exact onlyRaises_bind (onlyRaises_get_space _ library_mem_lower _) fun _ =>
    onlyRaises_skip_if_refined _ (onlyRaises_bind (onlyRaises_get_mesh _ library_mem_lower _)
      fun _ => onlyRaises_set_parent_child_space _ _ _)

theorem onlyRaises_adapt_function (ext : External) (function refined_mesh : Nat) :
    OnlyRaises lower_errors (adapt_function ext function refined_mesh) := by
  unfold adapt_function
  exact onlyRaises_bind (onlyRaises_get_function _ library_mem_lower _) fun _ =>
    onlyRaises_skip_if_refined _ (onlyRaises_bind (onlyRaises_adapt_space ext _ _) fun _ =>
      onlyRaises_bind (onlyRaises_get_space _ library_mem_lower _) fun _ =>
      onlyRaises_bind (onlyRaises_required _ library_mem_lower _) fun _ =>
      onlyRaises_bind (onlyRaises_get_space _ library_mem_lower _) fun _ =>
      onlyRaises_set_parent_child_function _ _ _)

theorem map_values_error (mesh_function parent : List Nat) (undefined : Nat) :
    ∀ (indices : List Nat) (e : Failure),
      map_values mesh_function parent undefined indices = .error e → e = .library
  | [], e, h => by simp [map_values] at h
  | i :: rest, e, h => by
    unfold map_values at h
    cases hp : parent[i]? with
    | none =>
      rw [hp] at h
      simp only [required, Except.error.injEq] at h
      exact h.symm
    | some p =>
      rw [hp] at h
      simp only [required] at h
      cases hr : map_values mesh_function parent undefined rest with
      | error e1 =>
        rw [hr] at h
        simp only [Except.error.injEq] at h
        rw [← h]
        exact map_values_error mesh_function parent undefined rest e1 hr
      | ok v => rw [hr] at h; simp at h

theorem onlyRaises_adapt_mesh_function (mesh_function refined_mesh : Nat) :
    OnlyRaises lower_errors (adapt_mesh_function mesh_function refined_mesh) := by
  unfold adapt_mesh_function
  refine onlyRaises_bind (onlyRaises_get_mesh_function _ library_mem_lower _) fun mf =>
    onlyRaises_skip_if_refined _ (onlyRaises_bind (onlyRaises_get_mesh _ library_mem_lower _)
      fun mesh => onlyRaises_bind ?_ fun parent => ?_)
  · split
    · exact onlyRaises_bind (onlyRaises_get_mesh _ library_mem_lower _) fun _ =>
        onlyRaises_pure _ _
    · split
      · exact onlyRaises_bind (onlyRaises_get_mesh _ library_mem_lower _) fun _ =>
          onlyRaises_pure _ _
      · exact onlyRaises_fail _ _ (by decide)
  · cases parent with
    | none => exact onlyRaises_fail _ _ (by decide)
    | some parent =>
      refine onlyRaises_bind (onlyRaises_get_mesh _ library_mem_lower _) fun rm =>
        onlyRaises_bind ?_ fun _ => onlyRaises_set_parent_child_mesh_function _ _ _
      intro s e s1 h
      simp only [lift, Prod.mk.injEq] at h
      rw [map_values_error _ _ _ _ e h.1]
      exact library_mem_lower

theorem onlyRaises_refine_spaces (ext : External) (refined_mesh : Nat) :
    ∀ spaces : List Nat, OnlyRaises lower_errors (refine_spaces ext refined_mesh spaces)
  | [] => onlyRaises_pure _ _
  | space :: rest => by
    unfold refine_spaces
    exact onlyRaises_bind (onlyRaises_adapt_space ext _ _) fun _ =>
      onlyRaises_bind (onlyRaises_get_space _ library_mem_lower _) fun _ =>
      onlyRaises_bind (onlyRaises_required _ library_mem_lower _) fun _ =>
      onlyRaises_bind (onlyRaises_refine_spaces ext refined_mesh rest) fun _ =>
      onlyRaises_pure _ _

theorem onlyRaises_refine_coefficients (ext : External) (refined_mesh : Nat) :
    ∀ coefficients : List GenericFunction,
      OnlyRaises lower_errors (refine_coefficients ext refined_mesh coefficients)
  | [] => onlyRaises_pure _ _
  | .function g :: rest => by
    unfold refine_coefficients
    exact onlyRaises_bind (onlyRaises_adapt_function ext _ _) fun _ =>
      onlyRaises_bind (onlyRaises_get_function _ library_mem_lower _) fun _ =>
      onlyRaises_bind (onlyRaises_required _ library_mem_lower _) fun _ =>
      onlyRaises_bind (onlyRaises_refine_coefficients ext refined_mesh rest) fun _ =>
      onlyRaises_pure _ _
  | .other x :: rest => by
    unfold refine_coefficients
    exact onlyRaises_bind (onlyRaises_refine_coefficients ext refined_mesh rest) fun _ =>
      onlyRaises_pure _ _

theorem onlyRaises_refine_domains (refined_mesh : Nat) :
    ∀ domains : Option Nat, OnlyRaises lower_errors (refine_domains refined_mesh domains)
  | none => onlyRaises_pure _ _
  | some d => by
    unfold refine_domains
    exact onlyRaises_bind (onlyRaises_adapt_mesh_function _ _) fun _ =>
      onlyRaises_bind (onlyRaises_get_mesh_function _ library_mem_lower _) fun _ =>
      onlyRaises_pure _ _

theorem onlyRaises_adapt_form (ext : External) (form refined_mesh : Nat) :
    OnlyRaises lower_errors (adapt_form ext form refined_mesh) := by
  unfold adapt_form
  exact onlyRaises_bind (onlyRaises_get_form _ library_mem_lower _) fun _ =>
    onlyRaises_skip_if_refined _ (onlyRaises_bind (onlyRaises_refine_spaces ext _ _) fun _ =>
      onlyRaises_bind (onlyRaises_refine_coefficients ext _ _) fun _ =>
      onlyRaises_bind (onlyRaises_refine_domains _ _) fun _ =>
      onlyRaises_bind (onlyRaises_refine_domains _ _) fun _ =>
      onlyRaises_bind (onlyRaises_refine_domains _ _) fun _ =>
      onlyRaises_set_parent_child_form _ _ _)

theorem facet_step_error (refined_mesh mesh : Mesh) (pc pf : List Nat) (children : ChildTable)
    (facet : Nat) (e : Failure)
    (h : facet_step refined_mesh mesh pc pf children facet = .error e) : e = .library := by
  unfold facet_step at h
  have hreq : ∀ {α : Type} (x : Option α) (e1 : Failure), required x = .error e1 →
      e1 = .library := by
    intro α x e1 hx
    cases x with
    | none => simp only [required, Except.error.injEq] at hx; exact hx.symm
    | some a => simp [required] at hx
  simp only at h
  split at h
  · simp at h
  · split at h
    · rename_i e1 h1
      simp only [Except.error.injEq] at h
      rw [← h]; exact hreq _ _ h1
    · split at h
      · rename_i e1 h1
        simp only [Except.error.injEq] at h
        rw [← h]; exact hreq _ _ h1
      · split at h
        · rename_i e1 h1
          simp only [Except.error.injEq] at h
          rw [← h]; exact hreq _ _ h1
        · split at h
          · rename_i e1 h1
            simp only [Except.error.injEq] at h
            rw [← h]; exact hreq _ _ h1
          · split at h
            · rename_i e1 h1
              simp only [Except.error.injEq] at h
              rw [← h]; exact hreq _ _ h1
            · simp at h

theorem build_children_error (refined_mesh mesh : Mesh) (pc pf : List Nat) :
    ∀ (facets : List Nat) (children : ChildTable) (e : Failure),
      build_children refined_mesh mesh pc pf facets children = .error e → e = .library
  | [], _, e, h => by simp [build_children] at h
  | facet :: rest, children, e, h => by
    unfold build_children at h
    cases hs : facet_step refined_mesh mesh pc pf children facet with
    | error e1 =>
      rw [hs] at h
      simp only [Except.error.injEq] at h
      rw [← h]
      exact facet_step_error _ _ _ _ _ _ _ hs
    | ok t =>
      rw [hs] at h
      exact build_children_error refined_mesh mesh pc pf rest t e h

theorem adapt_markers_error (acc : List (Nat × Nat)) (refined_mesh : Mesh)
    (markers : List (Nat × Nat)) (mesh : Mesh) (e : Failure) (out : List (Nat × Nat))
    (h : adapt_markers acc refined_mesh markers mesh = (.error e, out)) :
    (e = .missing_parent_info ∨ e = .library) ∧ out = acc := by
  unfold adapt_markers at h
  split at h
  · rename_i pc pf _ _
    cases hb : build_children refined_mesh mesh pc pf (List.range refined_mesh.num_facets)
      (fun _ => []) with
    | error e1 =>
      rw [hb] at h
      simp only [Prod.mk.injEq, Except.error.injEq] at h
      exact ⟨Or.inr (by rw [← h.1]; exact build_children_error _ _ _ _ _ _ _ hb), h.2.symm⟩
    | ok t => rw [hb] at h; simp at h
  · simp only [Prod.mk.injEq, Except.error.injEq] at h
    exact ⟨Or.inl h.1.symm, h.2.symm⟩

theorem onlyRaises_remap_markers (refined_mesh : Mesh) (markers : List (Nat × Nat))
    (mesh : Mesh) : OnlyRaises lower_errors (remap_markers refined_mesh markers mesh) := by
  intro s e s1 h
  unfold remap_markers at h
  rcases hr : adapt_markers [] refined_mesh markers mesh with ⟨e1 | u, l⟩
  · rw [hr] at h
    simp only [fail, Prod.mk.injEq, Except.error.injEq] at h
    rw [← h.1]
    rcases (adapt_markers_error _ _ _ _ _ _ hr).1 with h1 | h1 <;> rw [h1] <;> decide
  · rw [hr] at h; simp [Adapt.pure_apply] at h

theorem onlyRaises_adapt_bc (ext : External) (bc refined_mesh S : Nat) :
    OnlyRaises lower_errors (adapt_bc ext bc refined_mesh S) := by
  unfold adapt_bc
  refine onlyRaises_bind (onlyRaises_get_bc _ library_mem_lower _) fun b =>
    onlyRaises_skip_if_refined _ (onlyRaises_bind (onlyRaises_get_space _ library_mem_lower _)
      fun w => onlyRaises_bind ?_ fun V =>
      onlyRaises_bind (onlyRaises_get_mesh _ library_mem_lower _) fun _ =>
      onlyRaises_bind (onlyRaises_get_mesh _ library_mem_lower _) fun _ =>
      onlyRaises_bind (onlyRaises_remap_markers _ _ _) fun _ => ?_)
  · split
    · exact onlyRaises_bind (onlyRaises_adapt_space ext _ _) fun _ =>
        onlyRaises_bind (onlyRaises_get_space _ library_mem_lower _) fun _ =>
        onlyRaises_required _ library_mem_lower _
    · exact onlyRaises_bind (onlyRaises_adapt_space ext _ _) fun _ =>
        onlyRaises_bind (onlyRaises_get_space _ library_mem_lower _) fun _ =>
        onlyRaises_bind (onlyRaises_required _ library_mem_lower _) fun _ =>
        onlyRaises_bind (onlyRaises_get_space _ library_mem_lower _) fun _ =>
        onlyRaises_new_space _ _
  · split
    · exact onlyRaises_bind (onlyRaises_adapt_function ext _ _) fun _ =>
        onlyRaises_bind (onlyRaises_get_function _ library_mem_lower _) fun _ =>
        onlyRaises_bind (onlyRaises_required _ library_mem_lower _) fun _ =>
        onlyRaises_set_parent_child_bc _ _ _
    · exact onlyRaises_set_parent_child_bc _ _ _

/-! ## Variational problem with an unsupported boundary condition -/

theorem exists_first_other : ∀ (bcs : List BoundaryCondition),
    (∃ x, BoundaryCondition.other x ∈ bcs) →
    ∃ (pre : List Nat) (x : Nat) (post : List BoundaryCondition),
      bcs = pre.map BoundaryCondition.dirichlet ++ BoundaryCondition.other x :: post
  | [], h => by obtain ⟨x, hx⟩ := h; simp at hx
  | .other y :: rest, _ => ⟨[], y, rest, rfl⟩
  | .dirichlet bc :: rest, h => by
    obtain ⟨x, hx⟩ := h
    have hx1 : BoundaryCondition.other x ∈ rest := by simpa using hx
    obtain ⟨pre, y, post, hdec⟩ := exists_first_other rest ⟨x, hx1⟩
    exact ⟨bc :: pre, y, post, by rw [hdec]; rfl⟩

theorem not_dirichlet_not_lower {e : Failure} (h : e ∈ lower_errors)
    (he : e = .bcs_not_dirichlet) : False := by
  subst he
  revert h
  decide

/-- The loop over the boundary conditions stops at the first condition that
is not a `DirichletBC`, or before. -/
theorem refine_bcs_stops (ext : External) (refined_mesh S : Nat) (x : Nat)
    (post : List BoundaryCondition) :
    ∀ (pre : List Nat) (s : State), ∃ e s1,
      refine_bcs ext refined_mesh S
        (pre.map BoundaryCondition.dirichlet ++ BoundaryCondition.other x :: post) s =
          (.error e, s1) ∧
      (e = .bcs_not_dirichlet → ∀ bc ∈ pre, ∃ c, child_of s1.bcs bc = some c)
  | [], s => ⟨.bcs_not_dirichlet, s, rfl, fun _ bc hbc => by simp at hbc⟩
  | bc :: pre, s => by
    simp only [List.map_cons, List.cons_append]
    unfold refine_bcs
    rcases h0 : adapt_bc ext bc refined_mesh S s with ⟨e | c0, sa⟩
    · rw [Adapt.bind_error _ _ _ _ _ h0]
      exact ⟨e, sa, rfl, fun he =>
        (not_dirichlet_not_lower (onlyRaises_adapt_bc ext bc refined_mesh S s e sa h0) he).elim⟩
    · rw [Adapt.bind_ok _ _ _ _ _ h0]
      cases hb : sa.bcs[bc]? with
      | none =>
        refine ⟨.library, sa, ?_, fun he => by simp at he⟩
        rw [Adapt.bind_error _ _ sa sa .library (by simp [get_bc, hb, required])]
      | some b =>
        rw [Adapt.bind_ok _ _ sa sa b (get_bc_ok bc sa b hb)]
        cases hc : b.child with
        | none =>
          refine ⟨.library, sa, ?_, fun he => by simp at he⟩
          rw [Adapt.bind_error _ _ sa sa .library (by simp [lift, required])]
        | some c =>
          rw [Adapt.bind_ok _ _ sa sa c (by simp [lift, required])]
          obtain ⟨e, s1, hr, hpre⟩ := refine_bcs_stops ext refined_mesh S x post pre sa
          rw [Adapt.bind_error _ _ _ _ _ hr]
          refine ⟨e, s1, rfl, fun he bc1 hbc1 => ?_⟩
          rcases List.mem_cons.1 hbc1 with h1 | h1
          · rw [h1]
            have hg := (sound_run (sound_refine_bcs ext refined_mesh S _) hr).grows .bc
            exact ⟨c, Grows.child_of hg bc c (by simp [child_of, hb, hc])⟩
          · exact hpre he bc1 h1

/-- A run of the problem refiner on a problem without a child whose boundary
conditions, after the Dirichlet conditions `pre`, hold one that is not a
`DirichletBC`. -/
theorem adapt_problem_stops (ext : External) (problem refined_mesh : Nat) (s : State)
    (p : Hierarchical VariationalProblem) (hp : s.problems[problem]? = some p)
    (hchild : p.child = none) (pre : List Nat) (x : Nat) (post : List BoundaryCondition)
    (hdec : p.val.bcs = pre.map BoundaryCondition.dirichlet ++ BoundaryCondition.other x :: post) :
    ∃ e s1, adapt_problem ext problem refined_mesh s = (.error e, s1) ∧
      s1.problems = s.problems ∧
      (e = .bcs_not_dirichlet →
        (∃ c0, child_of s1.forms p.val.form_0 = some c0) ∧
        (∃ c1, child_of s1.forms p.val.form_1 = some c1) ∧
        ∀ bc ∈ pre, ∃ c, child_of s1.bcs bc = some c) := by
  unfold adapt_problem
  rw [Adapt.bind_ok _ _ s s p (get_problem_ok problem s p hp), hchild]
  simp only [skip_if_refined]
  rcases h0 : adapt_form ext p.val.form_0 refined_mesh s with ⟨e | c0, sa⟩
  · rw [Adapt.bind_error _ _ _ _ _ h0]
    exact ⟨e, sa, rfl, (sound_run (sound_adapt_form ext _ _) h0).touches .problem (by decide),
      fun he => (not_dirichlet_not_lower (onlyRaises_adapt_form ext _ _ s e sa h0) he).elim⟩
  · rw [Adapt.bind_ok _ _ _ _ _ h0]
    have hr0 := sound_run (sound_adapt_form ext _ _) h0
    rcases h1 : adapt_form ext p.val.form_1 refined_mesh sa with ⟨e | c1, sb⟩
    · rw [Adapt.bind_error _ _ _ _ _ h1]
      refine ⟨e, sb, rfl, ?_, fun he =>
        (not_dirichlet_not_lower (onlyRaises_adapt_form ext _ _ sa e sb h1) he).elim⟩
      have := (hr0.refines_trans (sound_run (sound_adapt_form ext _ _) h1)).touches .problem (by decide)
      exact this
    · rw [Adapt.bind_ok _ _ _ _ _ h1]
      have hr1 := sound_run (sound_adapt_form ext _ _) h1
      rw [hdec]
      obtain ⟨e, sc, hr, hpre⟩ := refine_bcs_stops ext refined_mesh p.val.trial_space x post pre sb
      rw [Adapt.bind_error _ _ _ _ _ hr]
      have hr2 : Refines [.space, .function, .mesh_function, .form, .bc] sb sc :=
        (sound_run (sound_refine_bcs ext refined_mesh _ _) hr).mono (by simp)
      have hr01 : Refines [.space, .function, .mesh_function, .form, .bc] s sb :=
        (hr0.refines_trans hr1).mono (by simp)
      refine ⟨e, sc, rfl, (hr01.refines_trans hr2).touches .problem (by decide), fun he => ⟨?_, ?_, hpre he⟩⟩
      · exact ⟨c0, Grows.child_of (hr2.grows .form) _ _ (Grows.child_of (hr1.grows .form) _ _
          (adapt_form_links ext _ _ s sa c0 h0))⟩
      · exact ⟨c1, Grows.child_of (hr2.grows .form) _ _ (adapt_form_links ext _ _ sa sb c1 h1)⟩

/-- **C9** (unsupported boundary-condition variant). For a variational
problem without a child whose list of boundary conditions holds a condition
that is not a `DirichletBC`, the refiner ends in a fatal error. The problem
is left as it was, without a child; the state reached is a refinement of the
initial state, so every child linked before the error is still linked; and
when the error is the one raised for the unsupported condition, the two
forms of the problem have their children and so has every Dirichlet
condition that precedes the first condition that is not one. -/
theorem adapt_problem_unsupported_bc (ext : External) (problem refined_mesh : Nat) (s : State)
    (p : Hierarchical VariationalProblem) (hp : s.problems[problem]? = some p)
    (hchild : p.child = none) (hbc : ∃ x, BoundaryCondition.other x ∈ p.val.bcs) :
    (∃ e, (adapt_problem ext problem refined_mesh s).1 = .error e) ∧
    (adapt_problem ext problem refined_mesh s).2.problems = s.problems ∧
    child_of (adapt_problem ext problem refined_mesh s).2.problems problem = none ∧
    Refines [.space, .function, .mesh_function, .form, .bc, .problem] s
      (adapt_problem ext problem refined_mesh s).2 ∧
    ((adapt_problem ext problem refined_mesh s).1 = .error .bcs_not_dirichlet →
      (∃ c0, child_of (adapt_problem ext problem refined_mesh s).2.forms p.val.form_0 = some c0) ∧
      (∃ c1, child_of (adapt_problem ext problem refined_mesh s).2.forms p.val.form_1 = some c1) ∧
      ∃ (pre : List Nat) (x : Nat) (post : List BoundaryCondition),
        p.val.bcs = pre.map BoundaryCondition.dirichlet ++ BoundaryCondition.other x :: post ∧
        ∀ bc ∈ pre, ∃ c,
          child_of (adapt_problem ext problem refined_mesh s).2.bcs bc = some c) := by
  obtain ⟨pre, x, post, hdec⟩ := exists_first_other p.val.bcs hbc
  obtain ⟨e, s1, hrun, hprob, hlinked⟩ :=
    adapt_problem_stops ext problem refined_mesh s p hp hchild pre x post hdec
  have hsound := sound_adapt_problem ext problem refined_mesh s
  rw [hrun] at hsound ⊢
  refine ⟨⟨e, rfl⟩, hprob, ?_, hsound, ?_⟩
  · show child_of s1.problems problem = none
    rw [hprob]
    simp [child_of, hp, hchild]
  · intro he
    simp only [Except.error.injEq] at he
    obtain ⟨h0, h1, h2⟩ := hlinked he
    exact ⟨h0, h1, pre, x, post, hdec, h2⟩

/-- Witness of C9: the problem 0 of `form_state`, whose second boundary
condition is not a `DirichletBC`. -/
theorem adapt_problem_unsupported_bc_witness :
    (adapt_problem example_external 0 1 form_state).1 = .error .bcs_not_dirichlet ∧
    child_of (adapt_problem example_external 0 1 form_state).2.problems 0 = none ∧
    child_of (adapt_problem example_external 0 1 form_state).2.forms 0 = some 1 ∧
    child_of (adapt_problem example_external 0 1 form_state).2.bcs 0 = some 2 ∧
    child_of (adapt_problem example_external 0 1 form_state).2.bcs 1 = none :=
  have h := adapt_problem_unsupported_bc example_external 0 1 form_state
    ⟨⟨0, 0, [.dirichlet 0, .other 3, .dirichlet 1], 0⟩, none, none⟩ rfl rfl
    ⟨3, by decide⟩
  ⟨by rfl, h.2.2.1, by rfl, by rfl, by rfl⟩

/-! ## Dependency ordering and sharing -/

/-- The steps of a run of the function refiner that returns, on a function
without a child: the function space of the function is refined first, and
the new function is built on the child of that space. -/
theorem adapt_function_inv (ext : External) (function refined_mesh : Nat) (s s1 : State)
    (c : Nat) (f : Hierarchical Function) (hf : s.functions[function]? = some f)
    (hchild : f.child = none)
    (hrun : adapt_function ext function refined_mesh s = (.ok c, s1)) :
    ∃ (se : State) (vc : Nat) (rs : Hierarchical FunctionSpace),
      adapt_space ext f.val.function_space refined_mesh s = (.ok vc, se) ∧
      Refines [.space] s se ∧
      child_of se.spaces f.val.function_space = some vc ∧ se.spaces[vc]? = some rs ∧
      set_parent_child_function function
        { function_space := vc, vector := ext.interpolate f.val rs.val } se = (.ok c, s1) := by
  unfold adapt_function at hrun
  rw [Adapt.bind_ok _ _ s s f (get_function_ok function s f hf), hchild] at hrun
  simp only [skip_if_refined] at hrun
  obtain ⟨vc0, se, h1, k1⟩ := Adapt.bind_eq_ok _ _ _ _ _ hrun
  obtain ⟨sp, sb, h2, k2⟩ := Adapt.bind_eq_ok _ _ _ _ _ k1
  obtain ⟨hsb, hsp⟩ := get_space_eq_ok _ se sb sp h2
  rw [hsb] at k2
  obtain ⟨vc, sc, h3, k3⟩ := Adapt.bind_eq_ok _ _ _ _ _ k2
  obtain ⟨hsc, hvc⟩ := required_child_eq_ok sp se sc vc h3
  rw [hsc] at k3
  obtain ⟨rs, sd, h4, k4⟩ := Adapt.bind_eq_ok _ _ _ _ _ k3
  obtain ⟨hsd, hrs⟩ := get_space_eq_ok _ se sd rs h4
  rw [hsd] at k4
  have hlink := adapt_space_links ext _ _ s se vc0 h1
  have hchild_se : child_of se.spaces f.val.function_space = some vc := by
    simp [child_of, hsp, hvc]
  have hvv : vc0 = vc := by
    rw [hlink] at hchild_se
    exact Option.some.inj hchild_se
  rw [hvv] at h1
  exact ⟨se, vc, rs, h1, sound_run (sound_adapt_space ext _ _) h1, hchild_se, hrs, k4⟩

theorem set_parent_child_function_inv (function : Nat) (v : Function) (se s1 : State) (c : Nat)
    (h : set_parent_child_function function v se = (.ok c, s1)) :
    c = se.functions.length ∧ s1.spaces = se.spaces ∧
      s1.functions = (set_parent_child se.functions function v).1 ∧
      s1.functions[c]? = some { val := v, child := none, parent := some function } := by
  simp only [set_parent_child_function, Prod.mk.injEq, Except.ok.injEq] at h
  obtain ⟨hc, hs⟩ := h
  rw [← hs, ← hc, set_parent_child_snd]
  exact ⟨rfl, rfl, rfl, set_parent_child_new _ _ _⟩

/-- The function refiner leaves the other functions as they are. -/
theorem adapt_function_other (ext : External) (function refined_mesh : Nat) (s s1 : State)
    (c : Nat) (hrun : adapt_function ext function refined_mesh s = (.ok c, s1))
    (g : Nat) (hne : g ≠ function) (gh : Hierarchical Function)
    (hg : s.functions[g]? = some gh) : s1.functions[g]? = some gh := by
  cases hf : s.functions[function]? with
  | none =>
    unfold adapt_function at hrun
    rw [Adapt.bind_error _ _ s s .library (by simp [get_function, hf, required])] at hrun
    simp at hrun
  | some f =>
    cases hc : f.child with
    | some c1 =>
      have hret : adapt_function ext function refined_mesh s = (.ok c1, s) := by
        unfold adapt_function
        exact returns_child_function function _ s c1 (by simp [child_of, hf, hc])
      rw [hret] at hrun
      simp only [Prod.mk.injEq] at hrun
      rw [← hrun.2]; exact hg
    | none =>
      obtain ⟨se, vc, rs, _, href, _, _, hlink⟩ :=
        adapt_function_inv ext function refined_mesh s s1 c f hf hc hrun
      obtain ⟨_, _, hfn, _⟩ := set_parent_child_function_inv _ _ se s1 c hlink
      have hsame : se.functions = s.functions := href.touches .function (by decide)
      rw [hfn, hsame, set_parent_child_other _ _ _ g hne (lt_length_of_getElem? hg)]
      exact hg

/-- The loop over the coefficients refines the function space of every
coefficient that is a `Function` without a child. -/
theorem refine_coefficients_refines_space (ext : External) (refined_mesh : Nat) :
    ∀ (coefficients : List GenericFunction) (s s1 : State) (rc : List GenericFunction),
      refine_coefficients ext refined_mesh coefficients s = (.ok rc, s1) →
      ∀ (g : Nat) (gh : Hierarchical Function), GenericFunction.function g ∈ coefficients →
        s.functions[g]? = some gh → gh.child = none →
        ∃ vc, child_of s1.spaces gh.val.function_space = some vc
  | [], _, _, _, _, g, _, hmem, _, _ => by simp at hmem
  | .function g1 :: rest, s, s1, rc, h, g, gh, hmem, hg, hgc => by
    unfold refine_coefficients at h
    obtain ⟨c0, sa, h1, k1⟩ := Adapt.bind_eq_ok _ _ _ _ _ h
    obtain ⟨f, sb, h2, k2⟩ := Adapt.bind_eq_ok _ _ _ _ _ k1
    obtain ⟨hsb, _⟩ := get_function_eq_ok g1 sa sb f h2
    obtain ⟨c, sc, h3, k3⟩ := Adapt.bind_eq_ok _ _ _ _ _ k2
    obtain ⟨hsc, _⟩ := required_child_eq_ok f sb sc c h3
    obtain ⟨cs, sd, h4, k4⟩ := Adapt.bind_eq_ok _ _ _ _ _ k3
    simp only [Adapt.pure_apply, Prod.mk.injEq, Except.ok.injEq] at k4
    rw [hsc, hsb] at h4
    rw [← k4.2]
    by_cases hgg : g = g1
    · subst hgg
      obtain ⟨se, vc, rs, _, _, hvc, _, hlink⟩ :=
        adapt_function_inv ext g refined_mesh s sa c0 gh hg hgc h1
      obtain ⟨_, hsp, _, _⟩ := set_parent_child_function_inv _ _ se sa c0 hlink
      have hg1 := (sound_run (sound_refine_coefficients ext refined_mesh rest) h4).grows .space
      exact ⟨vc, Grows.child_of hg1 _ _ (by rw [hsp]; exact hvc)⟩
    · have hmem1 : GenericFunction.function g ∈ rest := by
        rcases List.mem_cons.1 hmem with h5 | h5
        · simp only [GenericFunction.function.injEq] at h5
          exact absurd h5 hgg
        · exact h5
      exact refine_coefficients_refines_space ext refined_mesh rest sa sd cs h4 g gh hmem1
        (adapt_function_other ext g1 refined_mesh s sa c0 h1 g hgg gh hg) hgc
  | .other x :: rest, s, s1, rc, h, g, gh, hmem, hg, hgc => by
    unfold refine_coefficients at h
    obtain ⟨cs, sd, h4, k4⟩ := Adapt.bind_eq_ok _ _ _ _ _ h
    simp only [Adapt.pure_apply, Prod.mk.injEq, Except.ok.injEq] at k4
    rw [← k4.2]
    have hmem1 : GenericFunction.function g ∈ rest := by
      rcases List.mem_cons.1 hmem with h5 | h5
      · simp at h5
      · exact h5
    exact refine_coefficients_refines_space ext refined_mesh rest s sd cs h4 g gh hmem1 hg hgc

theorem unique_child_object {α : Type} (a : List (Hierarchical α)) (hl : Linked a) (p c : Nat)
    (hc : child_of a p = some c) : ∃! c1, IsChildObject a p c1 := by
  unfold child_of at hc
  cases hp : a[p]? with
  | none => rw [hp] at hc; simp at hc
  | some x =>
    rw [hp] at hc
    change x.child = some c at hc
    refine ⟨c, hl.2 p x c hp hc, ?_⟩
    rintro c1 ⟨y, hy, hyp⟩
    obtain ⟨x1, hx1, hx1c⟩ := hl.1 c1 y p hy hyp
    rw [hp] at hx1
    simp only [Option.some.injEq] at hx1
    rw [← hx1, hc] at hx1c
    exact (Option.some.inj hx1c).symm

theorem mem_getElem? {α : Type} {l : List α} {a : α} (h : a ∈ l) :
    ∃ i : Nat, l[i]? = some a := by
  obtain ⟨i, hi, he⟩ := List.mem_iff_getElem.1 h
  exact ⟨i, by rw [List.getElem?_eq_getElem hi, he]⟩

/-- A form whose coefficient is a function without a child: after the form
refiner both the function and its function space have a child. -/
theorem adapt_form_refines_field (ext : External) (form refined_mesh : Nat) (s s1 : State)
    (c : Nat) (f : Hierarchical Form) (hf : s.forms[form]? = some f) (hchild : f.child = none)
    (hrun : adapt_form ext form refined_mesh s = (.ok c, s1))
    (g : Nat) (gh : Hierarchical Function) (hmem : GenericFunction.function g ∈ f.val.coefficients)
    (hg : s.functions[g]? = some gh) (hgc : gh.child = none) :
    (∃ gc, child_of s1.functions g = some gc) ∧
      (∃ vc, child_of s1.spaces gh.val.function_space = some vc) := by
  obtain ⟨rs, rc, d1, d2, d3, sa, sb, se, h1, h2, h3, h4⟩ :=
    adapt_form_inv ext form refined_mesh s s1 c f hf hchild hrun
  obtain ⟨_, hsp, hfn, _, _⟩ := set_parent_child_form_inv form _ se s1 c h4
  have hsa : sa.functions = s.functions :=
    (sound_run (sound_refine_spaces ext refined_mesh _) h1).touches .function (by decide)
  have hg1 : sa.functions[g]? = some gh := by rw [hsa]; exact hg
  constructor
  · obtain ⟨i, hi⟩ := mem_getElem? hmem
    obtain ⟨b, _, gc, hgc1, _⟩ :=
      forall₂_getElem? (refine_coefficients_spec ext refined_mesh _ sa sb rc h2) i _ hi
    exact ⟨gc, by rw [hfn]; exact Grows.child_of (h3.grows .function) g gc hgc1⟩
  · obtain ⟨vc, hvc⟩ :=
      refine_coefficients_refines_space ext refined_mesh _ sa sb rc h2 g gh hmem hg1 hgc
    exact ⟨vc, by rw [hsp]; exact Grows.child_of (h3.grows .space) _ vc hvc⟩

/-- **C8** (dependency ordering and sharing). Let the links of the functions
and of the function spaces be consistent, let the form `A` be refined, let any
refinements follow, and let the form `B` be refined, both against the same
mesh. For every coefficient of `A` that is a function `g` without a child,
after the refinement of `A` exactly one function is a child object of `g` and
exactly one function space is a child object of the function space of `g`.
And wherever `A` and `B` reference the same function space (the same
function), their children reference the very same object, the child of that
function space (of that function). -/
theorem adapt_form_sharing (ext : External) (formA formB refined_mesh : Nat) (ks : List Kind)
    (s s1 s2 s3 : State) (cA cB : Nat) (fA fB : Hierarchical Form)
    (hlinkS : Linked s.spaces) (hlinkF : Linked s.functions)
    (hA : s.forms[formA]? = some fA) (hAc : fA.child = none)
    (hrunA : adapt_form ext formA refined_mesh s = (.ok cA, s1))
    (hlater : Refines ks s1 s2)
    (hB : s2.forms[formB]? = some fB) (hBc : fB.child = none)
    (hrunB : adapt_form ext formB refined_mesh s2 = (.ok cB, s3)) :
    (∀ (g : Nat) (gh : Hierarchical Function),
      GenericFunction.function g ∈ fA.val.coefficients →
      s.functions[g]? = some gh → gh.child = none →
      (∃! gc, IsChildObject s1.functions g gc) ∧
        (∃! vc, IsChildObject s1.spaces gh.val.function_space vc)) ∧
    (∀ (i j v : Nat), fA.val.function_spaces[i]? = some v →
      fB.val.function_spaces[j]? = some v →
      ∃ (vc : Nat) (rA rB : Hierarchical Form), child_of s3.spaces v = some vc ∧
        s3.forms[cA]? = some rA ∧ s3.forms[cB]? = some rB ∧
        rA.val.function_spaces[i]? = some vc ∧ rB.val.function_spaces[j]? = some vc) ∧
    (∀ (i j g : Nat), fA.val.coefficients[i]? = some (GenericFunction.function g) →
      fB.val.coefficients[j]? = some (GenericFunction.function g) →
      ∃ (gc : Nat) (rA rB : Hierarchical Form), child_of s3.functions g = some gc ∧
        s3.forms[cA]? = some rA ∧ s3.forms[cB]? = some rB ∧
        rA.val.coefficients[i]? = some (GenericFunction.function gc) ∧
        rB.val.coefficients[j]? = some (GenericFunction.function gc)) := by
  have hsA := sound_run (sound_adapt_form ext formA refined_mesh) hrunA
  have hsB := sound_run (sound_adapt_form ext formB refined_mesh) hrunB
  obtain ⟨rA0, hrA0, _, hcoefA, _, _, hspA⟩ :=
    adapt_form_content ext formA refined_mesh s s1 cA fA hA hAc hrunA
  obtain ⟨rB, hrB, _, hcoefB, _, _, hspB⟩ :=
    adapt_form_content ext formB refined_mesh s2 s3 cB fB hB hBc hrunB
  obtain ⟨rA1, hrA1, hvA1, _, _⟩ := hlater.grows .form cA rA0 hrA0
  obtain ⟨rA, hrA, hvA, _, _⟩ := hsB.grows .form cA rA1 hrA1
  have hval : rA.val = rA0.val := hvA.trans hvA1
  refine ⟨?_, ?_, ?_⟩
  · intro g gh hmem hg hgc
    obtain ⟨⟨gc, hgc1⟩, ⟨vc, hvc⟩⟩ :=
      adapt_form_refines_field ext formA refined_mesh s s1 cA fA hA hAc hrunA g gh hmem hg hgc
    exact ⟨unique_child_object s1.functions (hsA.linked .function hlinkF) g gc hgc1,
      unique_child_object s1.spaces (hsA.linked .space hlinkS) _ vc hvc⟩
  · intro i j v hi hj
    obtain ⟨vcA, hcA, hiA⟩ := hspA i v hi
    obtain ⟨vcB, hcB, hjB⟩ := hspB j v hj
    have h3 : child_of s3.spaces v = some vcA :=
      Grows.child_of (hsB.grows .space) v vcA (Grows.child_of (hlater.grows .space) v vcA hcA)
    have heq : vcB = vcA := by
      rw [hcB] at h3
      exact Option.some.inj h3
    exact ⟨vcA, rA, rB, h3, hrA, hrB, by rw [hval]; exact hiA, by rw [← heq]; exact hjB⟩
  · intro i j g hi hj
    obtain ⟨gcA, hcA, hiA⟩ := hcoefA i g hi
    obtain ⟨gcB, hcB, hjB⟩ := hcoefB j g hj
    have h3 : child_of s3.functions g = some gcA :=
      Grows.child_of (hsB.grows .function) g gcA
        (Grows.child_of (hlater.grows .function) g gcA hcA)
    have heq : gcB = gcA := by
      rw [hcB] at h3
      exact Option.some.inj h3
    exact ⟨gcA, rA, rB, h3, hrA, hrB, by rw [hval]; exact hiA, by rw [← heq]; exact hjB⟩

theorem linked_of_unlinked {α : Type} (a : List (Hierarchical α))
    (h : ∀ x ∈ a, x.child = none ∧ x.parent = none) : Linked a := by
  constructor
  · intro c x p hx hp
    have := (h x (List.getElem?_mem hx)).2
    rw [this] at hp; simp at hp
  · intro p x c hx hc
    have := (h x (List.getElem?_mem hx)).1
    rw [this] at hc; simp at hc

/-- Witness of C8: the two forms of `sharing_state`, which share the function
space 0 and the function 0, refined one after the other. -/
theorem adapt_form_sharing_witness :
    (∃! gc, IsChildObject sharing_state_1.functions 0 gc) ∧
    (∃! vc, IsChildObject sharing_state_1.spaces 0 vc) ∧
    (∃ (vc : Nat) (rA rB : Hierarchical Form), child_of sharing_state_2.spaces 0 = some vc ∧
      sharing_state_2.forms[2]? = some rA ∧ sharing_state_2.forms[3]? = some rB ∧
      rA.val.function_spaces[1]? = some vc ∧ rB.val.function_spaces[0]? = some vc) ∧
    (∃ (gc : Nat) (rA rB : Hierarchical Form), child_of sharing_state_2.functions 0 = some gc ∧
      sharing_state_2.forms[2]? = some rA ∧ sharing_state_2.forms[3]? = some rB ∧
      rA.val.coefficients[0]? = some (GenericFunction.function gc) ∧
      rB.val.coefficients[1]? = some (GenericFunction.function gc)) :=
  have h := adapt_form_sharing example_external 0 1 1 [] sharing_state sharing_state_1
    sharing_state_1 sharing_state_2 2 3
    ⟨⟨13, [0, 0], [.function 0, .other 5], some 0, none, none, none⟩, none, none⟩
    ⟨⟨14, [0], [.other 6, .function 0], some 0, none, none, none⟩, none, none⟩
    (linked_of_unlinked _ (by decide)) (linked_of_unlinked _ (by decide))
    rfl rfl rfl (Refines.refines_refl _ _) rfl rfl rfl
  ⟨(h.1 0 ⟨⟨0, 11⟩, none, none⟩ (by decide) rfl rfl).1,
    (h.1 0 ⟨⟨0, 11⟩, none, none⟩ (by decide) rfl rfl).2,
    h.2.1 1 0 0 rfl rfl, h.2.2 0 1 0 rfl rfl⟩

/-! ## Mesh-function refiner: the values when `max_value + 1` does not wrap -/

theorem max_value_loop_ge (values : List Nat) :
    ∀ m : Nat, m ≤ max_value_loop values m ∧ ∀ v ∈ values, v ≤ max_value_loop values m := by
  induction values with
  | nil => intro m; exact ⟨Nat.le_refl m, fun v hv => by simp at hv⟩
  | cons x rest ih =>
    intro m
    unfold max_value_loop
    obtain ⟨h1, h2⟩ := ih (if x > m then x else m)
    refine ⟨le_trans (by split <;> omega) h1, fun v hv => ?_⟩
    rcases List.mem_cons.1 hv with h | h
    · rw [h]; exact le_trans (by split <;> omega) h1
    · exact h2 v h

theorem max_value_loop_mem (values : List Nat) :
    ∀ m : Nat, max_value_loop values m = m ∨ max_value_loop values m ∈ values := by
  induction values with
  | nil => intro m; exact Or.inl rfl
  | cons x rest ih =>
    intro m
    unfold max_value_loop
    rcases ih (if x > m then x else m) with h | h
    · rw [h]
      split
      · exact Or.inr (List.mem_cons_self _ _)
      · exact Or.inl rfl
    · exact Or.inr (List.mem_cons_of_mem _ h)

/-- Without wrap-around the sentinel is one plus the maximum of the values
(the maximum of no value being 0) and is none of the values. -/
theorem undefined_value_unused (values : List Nat)
    (h : max_value_loop values 0 + 1 < UINT_SIZE) :
    undefined_value values = max_value_loop values 0 + 1 ∧
      (∀ v ∈ values, v ≤ max_value_loop values 0) ∧ undefined_value values ∉ values := by
  have heq : undefined_value values = max_value_loop values 0 + 1 := by
    unfold undefined_value uint_add
    exact Nat.mod_eq_of_lt h
  refine ⟨heq, (max_value_loop_ge values 0).2, fun hmem => ?_⟩
  have := (max_value_loop_ge values 0).2 _ hmem
  omega

theorem map_values_spec (mesh_function parent : List Nat) (undefined : Nat) :
    ∀ (indices values : List Nat),
      map_values mesh_function parent undefined indices = .ok values →
      List.Forall₂ (fun i v => ∃ p, parent[i]? = some p ∧
        v = if h : p < mesh_function.length then mesh_function[p] else undefined)
        indices values
  | [], values, h => by
    simp only [map_values, Except.ok.injEq] at h
    rw [← h]; exact List.Forall₂.nil
  | i :: rest, values, h => by
    unfold map_values at h
    cases hp : parent[i]? with
    | none => rw [hp] at h; simp [required] at h
    | some p =>
      rw [hp] at h
      simp only [required] at h
      cases hr : map_values mesh_function parent undefined rest with
      | error e => rw [hr] at h; simp at h
      | ok vs =>
        rw [hr] at h
        simp only [Except.ok.injEq] at h
        rw [← h]
        exact List.Forall₂.cons ⟨p, hp, rfl⟩
          (map_values_spec mesh_function parent undefined rest vs hr)

/-- The values of the refined mesh function (lines 429-440): one value per
fine entity of the dimension of `f`, the value of the parent when the parent
index is in range and the value `undefined` otherwise. -/
theorem adapt_mesh_function_values (s : State) (mesh_function refined_mesh : Nat)
    (mf : Hierarchical MeshFunction) (mesh rm : Hierarchical Mesh) (parent : List Nat)
    (hmf : s.mesh_functions[mesh_function]? = some mf) (hchild : mf.child = none)
    (hmesh : s.meshes[mf.val.mesh]? = some mesh) (hrm : s.meshes[refined_mesh]? = some rm)
    (hdim : mf.val.dim = mesh.val.dim ∨ mf.val.dim = uint_sub mesh.val.dim 1)
    (hsel : (if mf.val.dim = mesh.val.dim then rm.val.parent_cell else rm.val.parent_facet)
      = some parent)
    (hsize : rm.val.num_entities mf.val.dim ≤ parent.length) :
    ∃ (c : Nat) (s1 : State) (values : List Nat),
      adapt_mesh_function mesh_function refined_mesh s = (.ok c, s1) ∧
      s1.mesh_functions[c]? = some
        { val := { mesh := refined_mesh, dim := mf.val.dim, values := values },
          child := none, parent := some mesh_function } ∧
      values.length = rm.val.num_entities mf.val.dim ∧
      ∀ i : Nat, i < rm.val.num_entities mf.val.dim → ∃ p, parent[i]? = some p ∧
        values[i]? = some (if h : p < mf.val.values.length then mf.val.values[p]
          else undefined_value mf.val.values) := by
  obtain ⟨values, hv⟩ := map_values_ok mf.val.values parent (undefined_value mf.val.values)
    (List.range (rm.val.num_entities mf.val.dim))
    (fun i hi => lt_of_lt_of_le (List.mem_range.1 hi) hsize)
  have hspec := map_values_spec _ _ _ _ _ hv
  refine ⟨s.mesh_functions.length, (set_parent_child_mesh_function mesh_function
    { mesh := refined_mesh, dim := mf.val.dim, values := values } s).2, values, ?_, ?_, ?_, ?_⟩
  · rw [adapt_mesh_function_eval s mesh_function refined_mesh mf mesh rm hmf hchild hmesh hrm,
      if_pos hdim, hsel]
    simp only [hv, set_parent_child_mesh_function, set_parent_child_snd]
  · exact set_parent_child_new _ _ _
  · rw [← hspec.length_eq, List.length_range]
  · intro i hi
    obtain ⟨v, hvi, p, hp, hvp⟩ := forall₂_getElem? hspec i i
      (by rw [List.getElem?_range hi])
    exact ⟨p, hp, by rw [hvi, hvp]⟩

/-- Scenario B of the specification: the cell function `[0, 1]` refined
uniformly reads `0` on the four children of cell 0 and `1` on the four
children of cell 1. -/
theorem scenario_B_values :
    (adapt_mesh_function 0 1 scenario_B).1 = .ok 1 ∧
    (adapt_mesh_function 0 1 scenario_B).2.values_of 1 = some [0, 0, 0, 0, 1, 1, 1, 1] ∧
    child_of (adapt_mesh_function 0 1 scenario_B).2.mesh_functions 0 = some 1 := by
  refine ⟨by rfl, by rfl, by rfl⟩

/-! ## Field refiner -/

/-- The child that the function-space refiner builds for a space without a
child: a space on the refined mesh, without component path. -/
theorem adapt_space_new (ext : External) (space refined_mesh : Nat) (s s1 : State) (c : Nat)
    (sp : Hierarchical FunctionSpace) (hsp : s.spaces[space]? = some sp)
    (hchild : sp.child = none)
    (hrun : adapt_space ext space refined_mesh s = (.ok c, s1)) :
    ∃ rm : Hierarchical Mesh, s.meshes[refined_mesh]? = some rm ∧
      c = s.spaces.length ∧
      s1.spaces[c]? = some
        { val := { mesh := refined_mesh, element := ext.create sp.val.element,
                   dofmap := ext.copy sp.val.dofmap rm.val, component := [] },
          child := none, parent := some space } := by
  unfold adapt_space at hrun
  rw [Adapt.bind_ok _ _ s s sp (get_space_ok space s sp hsp), hchild] at hrun
  simp only [skip_if_refined] at hrun
  obtain ⟨rm, sa, h1, k1⟩ := Adapt.bind_eq_ok _ _ _ _ _ hrun
  obtain ⟨hsa, hrm⟩ := get_mesh_eq_ok _ s sa rm h1
  rw [hsa] at k1
  simp only [set_parent_child_space, Prod.mk.injEq, Except.ok.injEq] at k1
  obtain ⟨hc, hs⟩ := k1
  refine ⟨rm, hrm, ?_, ?_⟩
  · rw [← hc, set_parent_child_snd]
  · rw [← hs, ← hc, set_parent_child_snd]
    exact set_parent_child_new _ _ _

/-- The child function that the field refiner builds, and the function space
it is built on. -/
theorem adapt_function_content (ext : External) (function refined_mesh : Nat) (s s1 : State)
    (c : Nat) (f : Hierarchical Function) (hf : s.functions[function]? = some f)
    (hchild : f.child = none)
    (hrun : adapt_function ext function refined_mesh s = (.ok c, s1)) :
    ∃ (vc : Nat) (rs : Hierarchical FunctionSpace),
      s1.functions[c]? = some
        { val := { function_space := vc, vector := ext.interpolate f.val rs.val },
          child := none, parent := some function } ∧
      child_of s1.spaces f.val.function_space = some vc ∧
      s1.spaces[vc]? = some rs ∧
      (child_of s.spaces f.val.function_space = none → rs.val.mesh = refined_mesh) ∧
      (∀ vc0, child_of s.spaces f.val.function_space = some vc0 →
        vc = vc0 ∧ s1.spaces = s.spaces) := by
  obtain ⟨se, vc, rs, hspace, _, hvc, hrs, hlink⟩ :=
    adapt_function_inv ext function refined_mesh s s1 c f hf hchild hrun
  obtain ⟨_, hsp, _, hnew⟩ := set_parent_child_function_inv _ _ se s1 c hlink
  refine ⟨vc, rs, hnew, by rw [hsp]; exact hvc, by rw [hsp]; exact hrs, ?_, ?_⟩
  · intro hnone
    cases hx : s.spaces[f.val.function_space]? with
    | none =>
      unfold adapt_space at hspace
      rw [Adapt.bind_error _ _ s s .library (by simp [get_space, hx, required])] at hspace
      simp at hspace
    | some sp =>
      have hspc : sp.child = none := by simpa [child_of, hx] using hnone
      obtain ⟨rm, _, _, hobj⟩ :=
        adapt_space_new ext _ refined_mesh s se vc sp hx hspc hspace
      rw [hobj] at hrs
      simp only [Option.some.injEq] at hrs
      rw [← hrs]
  · intro vc0 hsome
    have hret : adapt_space ext f.val.function_space refined_mesh s = (.ok vc0, s) := by
      unfold adapt_space
      exact returns_child_space _ _ s vc0 hsome
    rw [hret] at hspace
    simp only [Prod.mk.injEq, Except.ok.injEq] at hspace
    exact ⟨hspace.1.symm, by rw [hsp, ← hspace.2]⟩

/-- **C11** (the field refiner and its target mesh, as amended). When the
field refiner returns the child of a function `u` that had no child, the
child function is defined on the child of the function space of `u`. That
refined function space is built on the target mesh when the function space of
`u` had no child before the call; when it already had a child, this child is
the space of the child function and the function spaces are what they were,
whatever mesh the child was built on. -/
theorem adapt_function_target (ext : External) (function refined_mesh : Nat) (s s1 : State)
    (c : Nat) (u : Hierarchical Function) (hu : s.functions[function]? = some u)
    (hchild : u.child = none)
    (hrun : adapt_function ext function refined_mesh s = (.ok c, s1)) :
    ∃ (vc : Nat) (rs : Hierarchical FunctionSpace),
      s1.functions[c]? = some
        { val := { function_space := vc, vector := ext.interpolate u.val rs.val },
          child := none, parent := some function } ∧
      child_of s1.spaces u.val.function_space = some vc ∧
      s1.spaces[vc]? = some rs ∧
      (child_of s.spaces u.val.function_space = none → rs.val.mesh = refined_mesh) ∧
      (∀ vc0, child_of s.spaces u.val.function_space = some vc0 →
        vc = vc0 ∧ s1.spaces = s.spaces) :=
  adapt_function_content ext function refined_mesh s s1 c u hu hchild hrun

/-- Counterexample to C11 as stated: the function space 0 has been refined
against the mesh 1; the function 0 on it is then refined against the mesh 2.
The child function is defined on the child of the function space, the space
1, and this space is built on the mesh 1, not on the target mesh 2. -/
theorem adapt_function_reuses_space :
    child_of field_state_1.spaces 0 = some 1 ∧
    (adapt_function example_external 0 2 field_state_1).1 = .ok 1 ∧
    ((adapt_function example_external 0 2 field_state_1).2.functions[1]?).map
      (fun r => r.val.function_space) = some 1 ∧
    child_of (adapt_function example_external 0 2 field_state_1).2.spaces 0 = some 1 ∧
    ((adapt_function example_external 0 2 field_state_1).2.spaces[1]?).map
      (fun r => r.val.mesh) = some 1 := by
  refine ⟨by rfl, by rfl, by rfl, by rfl, by rfl⟩

/-- Witness of C11: the function 0 of `field_state`, whose function space has
no child, refined against the mesh 2. -/
theorem adapt_function_target_witness :
    ∃ (vc : Nat) (rs : Hierarchical FunctionSpace),
      (adapt_function example_external 0 2 field_state).2.functions[1]? = some
        { val := { function_space := vc,
                   vector := example_external.interpolate ⟨0, 11⟩ rs.val },
          child := none, parent := some 0 } ∧
      child_of (adapt_function example_external 0 2 field_state).2.spaces 0 = some vc ∧
      (adapt_function example_external 0 2 field_state).2.spaces[vc]? = some rs ∧
      (child_of field_state.spaces 0 = none → rs.val.mesh = 2) ∧
      (∀ vc0, child_of field_state.spaces 0 = some vc0 →
        vc = vc0 ∧ (adapt_function example_external 0 2 field_state).2.spaces
          = field_state.spaces) :=
  adapt_function_target example_external 0 2 field_state
    (adapt_function example_external 0 2 field_state).2 1 ⟨⟨0, 11⟩, none, none⟩ rfl rfl rfl

/-! ## The child that a refiner constructs has the refined entity as parent -/

theorem ensures_bind_last {α β : Type} {m : Adapt α} {f : α → Adapt β}
    {Q : β → State → Prop} (hf : ∀ a, EnsuresFrom (fun _ => True) (f a) Q) :
    EnsuresFrom (fun _ => True) (m >>= f) Q := by
  intro s b s2 _ hrun
  obtain ⟨a, s1, _, h2⟩ := Adapt.bind_eq_ok _ _ _ _ _ hrun
  exact hf a s1 b s2 trivial h2

theorem ensures_fail {α : Type} (e : Failure) (Q : α → State → Prop) :
    EnsuresFrom (fun _ => True) (fail e : Adapt α) Q := by
  intro s a s1 _ hrun
  simp [fail] at hrun

theorem ensures_new_set_parent_child_mesh (p : Nat) (v : Mesh) :
    EnsuresFrom (fun _ => True) (set_parent_child_mesh p v)
      (fun c s1 => IsChildObject s1.meshes p c) := by
  intro s c s1 _ hrun
  simp only [set_parent_child_mesh, Prod.mk.injEq, Except.ok.injEq] at hrun
  obtain ⟨hc, hs⟩ := hrun
  rw [← hs, ← hc, set_parent_child_snd]
  exact ⟨_, set_parent_child_new _ _ _, rfl⟩

theorem new_child_mesh (id : Nat) (body : Hierarchical Mesh → Adapt Nat)
    (hbody : ∀ h, EnsuresFrom (fun _ => True) (body h)
      (fun c s1 => IsChildObject s1.meshes id c))
    (s s1 : State) (c : Nat) (hnone : child_of s.meshes id = none)
    (hrun : (get_mesh id >>= fun h => skip_if_refined h.child (body h)) s = (.ok c, s1)) :
    IsChildObject s1.meshes id c := by
  obtain ⟨h, s0, hget, hrest⟩ := Adapt.bind_eq_ok _ _ _ _ _ hrun
  obtain ⟨hs0, hh⟩ := get_mesh_eq_ok id s s0 h hget
  have hc : h.child = none := by simpa [child_of, hh] using hnone
  rw [hc, hs0] at hrest
  exact hbody h s c s1 trivial hrest

theorem ensures_new_set_parent_child_space (p : Nat) (v : FunctionSpace) :
    EnsuresFrom (fun _ => True) (set_parent_child_space p v)
      (fun c s1 => IsChildObject s1.spaces p c) := by
  intro s c s1 _ hrun
  simp only [set_parent_child_space, Prod.mk.injEq, Except.ok.injEq] at hrun
  obtain ⟨hc, hs⟩ := hrun
  rw [← hs, ← hc, set_parent_child_snd]
  exact ⟨_, set_parent_child_new _ _ _, rfl⟩

theorem new_child_space (id : Nat) (body : Hierarchical FunctionSpace → Adapt Nat)
    (hbody : ∀ h, EnsuresFrom (fun _ => True) (body h)
      (fun c s1 => IsChildObject s1.spaces id c))
    (s s1 : State) (c : Nat) (hnone : child_of s.spaces id = none)
    (hrun : (get_space id >>= fun h => skip_if_refined h.child (body h)) s = (.ok c, s1)) :
    IsChildObject s1.spaces id c := by
  obtain ⟨h, s0, hget, hrest⟩ := Adapt.bind_eq_ok _ _ _ _ _ hrun
  obtain ⟨hs0, hh⟩ := get_space_eq_ok id s s0 h hget
  have hc : h.child = none := by simpa [child_of, hh] using hnone
  rw [hc, hs0] at hrest
  exact hbody h s c s1 trivial hrest

theorem ensures_new_set_parent_child_function (p : Nat) (v : Function) :
    EnsuresFrom (fun _ => True) (set_parent_child_function p v)
      (fun c s1 => IsChildObject s1.functions p c) := by
  intro s c s1 _ hrun
  simp only [set_parent_child_function, Prod.mk.injEq, Except.ok.injEq] at hrun
  obtain ⟨hc, hs⟩ := hrun
  rw [← hs, ← hc, set_parent_child_snd]
  exact ⟨_, set_parent_child_new _ _ _, rfl⟩

theorem new_child_function (id : Nat) (body : Hierarchical Function → Adapt Nat)
    (hbody : ∀ h, EnsuresFrom (fun _ => True) (body h)
      (fun c s1 => IsChildObject s1.functions id c))
    (s s1 : State) (c : Nat) (hnone : child_of s.functions id = none)
    (hrun : (get_function id >>= fun h => skip_if_refined h.child (body h)) s = (.ok c, s1)) :
    IsChildObject s1.functions id c := by
  obtain ⟨h, s0, hget, hrest⟩ := Adapt.bind_eq_ok _ _ _ _ _ hrun
  obtain ⟨hs0, hh⟩ := get_function_eq_ok id s s0 h hget
  have hc : h.child = none := by simpa [child_of, hh] using hnone
  rw [hc, hs0] at hrest
  exact hbody h s c s1 trivial hrest

theorem ensures_new_set_parent_child_form (p : Nat) (v : Form) :
    EnsuresFrom (fun _ => True) (set_parent_child_form p v)
      (fun c s1 => IsChildObject s1.forms p c) := by
  intro s c s1 _ hrun
  simp only [set_parent_child_form, Prod.mk.injEq, Except.ok.injEq] at hrun
  obtain ⟨hc, hs⟩ := hrun
  rw [← hs, ← hc, set_parent_child_snd]
  exact ⟨_, set_parent_child_new _ _ _, rfl⟩

theorem new_child_form (id : Nat) (body : Hierarchical Form → Adapt Nat)
    (hbody : ∀ h, EnsuresFrom (fun _ => True) (body h)
      (fun c s1 => IsChildObject s1.forms id c))
    (s s1 : State) (c : Nat) (hnone : child_of s.forms id = none)
    (hrun : (get_form id >>= fun h => skip_if_refined h.child (body h)) s = (.ok c, s1)) :
    IsChildObject s1.forms id c := by
  obtain ⟨h, s0, hget, hrest⟩ := Adapt.bind_eq_ok _ _ _ _ _ hrun
  obtain ⟨hs0, hh⟩ := get_form_eq_ok id s s0 h hget
  have hc : h.child = none := by simpa [child_of, hh] using hnone
  rw [hc, hs0] at hrest
  exact hbody h s c s1 trivial hrest

theorem ensures_new_set_parent_child_bc (p : Nat) (v : DirichletBC) :
    EnsuresFrom (fun _ => True) (set_parent_child_bc p v)
      (fun c s1 => IsChildObject s1.bcs p c) := by
  intro s c s1 _ hrun
  simp only [set_parent_child_bc, Prod.mk.injEq, Except.ok.injEq] at hrun
  obtain ⟨hc, hs⟩ := hrun
  rw [← hs, ← hc, set_parent_child_snd]
  exact ⟨_, set_parent_child_new _ _ _, rfl⟩

theorem new_child_bc (id : Nat) (body : Hierarchical DirichletBC → Adapt Nat)
    (hbody : ∀ h, EnsuresFrom (fun _ => True) (body h)
      (fun c s1 => IsChildObject s1.bcs id c))
    (s s1 : State) (c : Nat) (hnone : child_of s.bcs id = none)
    (hrun : (get_bc id >>= fun h => skip_if_refined h.child (body h)) s = (.ok c, s1)) :
    IsChildObject s1.bcs id c := by
  obtain ⟨h, s0, hget, hrest⟩ := Adapt.bind_eq_ok _ _ _ _ _ hrun
  obtain ⟨hs0, hh⟩ := get_bc_eq_ok id s s0 h hget
  have hc : h.child = none := by simpa [child_of, hh] using hnone
  rw [hc, hs0] at hrest
  exact hbody h s c s1 trivial hrest

theorem ensures_new_set_parent_child_problem (p : Nat) (v : VariationalProblem) :
    EnsuresFrom (fun _ => True) (set_parent_child_problem p v)
      (fun c s1 => IsChildObject s1.problems p c) := by
  intro s c s1 _ hrun
  simp only [set_parent_child_problem, Prod.mk.injEq, Except.ok.injEq] at hrun
  obtain ⟨hc, hs⟩ := hrun
  rw [← hs, ← hc, set_parent_child_snd]
  exact ⟨_, set_parent_child_new _ _ _, rfl⟩

theorem new_child_problem (id : Nat) (body : Hierarchical VariationalProblem → Adapt Nat)
    (hbody : ∀ h, EnsuresFrom (fun _ => True) (body h)
      (fun c s1 => IsChildObject s1.problems id c))
    (s s1 : State) (c : Nat) (hnone : child_of s.problems id = none)
    (hrun : (get_problem id >>= fun h => skip_if_refined h.child (body h)) s = (.ok c, s1)) :
    IsChildObject s1.problems id c := by
  obtain ⟨h, s0, hget, hrest⟩ := Adapt.bind_eq_ok _ _ _ _ _ hrun
  obtain ⟨hs0, hh⟩ := get_problem_eq_ok id s s0 h hget
  have hc : h.child = none := by simpa [child_of, hh] using hnone
  rw [hc, hs0] at hrest
  exact hbody h s c s1 trivial hrest

theorem ensures_new_set_parent_child_ec (p : Nat) (v : ErrorControl) :
    EnsuresFrom (fun _ => True) (set_parent_child_ec p v)
      (fun c s1 => IsChildObject s1.ecs p c) := by
  intro s c s1 _ hrun
  simp only [set_parent_child_ec, Prod.mk.injEq, Except.ok.injEq] at hrun
  obtain ⟨hc, hs⟩ := hrun
  rw [← hs, ← hc, set_parent_child_snd]
  exact ⟨_, set_parent_child_new _ _ _, rfl⟩

theorem new_child_ec (id : Nat) (body : Hierarchical ErrorControl → Adapt Nat)
    (hbody : ∀ h, EnsuresFrom (fun _ => True) (body h)
      (fun c s1 => IsChildObject s1.ecs id c))
    (s s1 : State) (c : Nat) (hnone : child_of s.ecs id = none)
    (hrun : (get_ec id >>= fun h => skip_if_refined h.child (body h)) s = (.ok c, s1)) :
    IsChildObject s1.ecs id c := by
  obtain ⟨h, s0, hget, hrest⟩ := Adapt.bind_eq_ok _ _ _ _ _ hrun
  obtain ⟨hs0, hh⟩ := get_ec_eq_ok id s s0 h hget
  have hc : h.child = none := by simpa [child_of, hh] using hnone
  rw [hc, hs0] at hrest
  exact hbody h s c s1 trivial hrest

theorem ensures_new_set_parent_child_mesh_function (p : Nat) (v : MeshFunction) :
    EnsuresFrom (fun _ => True) (set_parent_child_mesh_function p v)
      (fun c s1 => IsChildObject s1.mesh_functions p c) := by
  intro s c s1 _ hrun
  simp only [set_parent_child_mesh_function, Prod.mk.injEq, Except.ok.injEq] at hrun
  obtain ⟨hc, hs⟩ := hrun
  rw [← hs, ← hc, set_parent_child_snd]
  exact ⟨_, set_parent_child_new _ _ _, rfl⟩

theorem new_child_mesh_function (id : Nat) (body : Hierarchical MeshFunction → Adapt Nat)
    (hbody : ∀ h, EnsuresFrom (fun _ => True) (body h)
      (fun c s1 => IsChildObject s1.mesh_functions id c))
    (s s1 : State) (c : Nat) (hnone : child_of s.mesh_functions id = none)
    (hrun : (get_mesh_function id >>= fun h => skip_if_refined h.child (body h)) s = (.ok c, s1)) :
    IsChildObject s1.mesh_functions id c := by
  obtain ⟨h, s0, hget, hrest⟩ := Adapt.bind_eq_ok _ _ _ _ _ hrun
  obtain ⟨hs0, hh⟩ := get_mesh_function_eq_ok id s s0 h hget
  have hc : h.child = none := by simpa [child_of, hh] using hnone
  rw [hc, hs0] at hrest
  exact hbody h s c s1 trivial hrest

theorem adapt_mesh_new_child (ext : External) (mesh : Nat) (s s1 : State) (c : Nat)
    (hnone : child_of s.meshes mesh = none) (h : adapt_mesh ext mesh s = (.ok c, s1)) :
    IsChildObject s1.meshes mesh c := by
  unfold adapt_mesh at h
  exact new_child_mesh mesh _ (fun _ => ensures_new_set_parent_child_mesh _ _) s s1 c hnone h

theorem adapt_mesh_markers_new_child (ext : External) (mesh : Nat) (cell_markers : List Bool)
    (s s1 : State) (c : Nat) (hnone : child_of s.meshes mesh = none)
    (h : adapt_mesh_markers ext mesh cell_markers s = (.ok c, s1)) :
    IsChildObject s1.meshes mesh c := by
  unfold adapt_mesh_markers at h
  exact new_child_mesh mesh _ (fun _ => ensures_new_set_parent_child_mesh _ _) s s1 c hnone h

theorem adapt_space_new_child (ext : External) (space refined_mesh : Nat) (s s1 : State)
    (c : Nat) (hnone : child_of s.spaces space = none)
    (h : adapt_space ext space refined_mesh s = (.ok c, s1)) :
    IsChildObject s1.spaces space c := by
  unfold adapt_space at h
  exact new_child_space space _
    (fun _ => ensures_bind_last fun _ => ensures_new_set_parent_child_space _ _) s s1 c hnone h

theorem adapt_function_new_child (ext : External) (function refined_mesh : Nat) (s s1 : State)
    (c : Nat) (hnone : child_of s.functions function = none)
    (h : adapt_function ext function refined_mesh s = (.ok c, s1)) :
    IsChildObject s1.functions function c := by
  unfold adapt_function at h
  exact new_child_function function _
    (fun _ => ensures_bind_last fun _ => ensures_bind_last fun _ => ensures_bind_last fun _ =>
      ensures_bind_last fun _ => ensures_new_set_parent_child_function _ _) s s1 c hnone h

theorem adapt_mesh_function_new_child (mesh_function refined_mesh : Nat) (s s1 : State)
    (c : Nat) (hnone : child_of s.mesh_functions mesh_function = none)
    (h : adapt_mesh_function mesh_function refined_mesh s = (.ok c, s1)) :
    IsChildObject s1.mesh_functions mesh_function c := by
  unfold adapt_mesh_function at h
  refine new_child_mesh_function mesh_function _
    (fun _ => ensures_bind_last fun _ => ensures_bind_last fun parent => ?_) s s1 c hnone h
  cases parent with
  | none => exact ensures_fail _ _
  | some parent =>
    exact ensures_bind_last fun _ => ensures_bind_last fun _ =>
      ensures_new_set_parent_child_mesh_function _ _

theorem adapt_form_new_child (ext : External) (form refined_mesh : Nat) (s s1 : State)
    (c : Nat) (hnone : child_of s.forms form = none)
    (h : adapt_form ext form refined_mesh s = (.ok c, s1)) :
    IsChildObject s1.forms form c := by
  unfold adapt_form at h
  exact new_child_form form _
    (fun _ => ensures_bind_last fun _ => ensures_bind_last fun _ => ensures_bind_last fun _ =>
      ensures_bind_last fun _ => ensures_bind_last fun _ =>
      ensures_new_set_parent_child_form _ _) s s1 c hnone h

theorem adapt_bc_new_child (ext : External) (bc refined_mesh S : Nat) (s s1 : State)
    (c : Nat) (hnone : child_of s.bcs bc = none)
    (h : adapt_bc ext bc refined_mesh S s = (.ok c, s1)) :
    IsChildObject s1.bcs bc c := by
  unfold adapt_bc at h
  refine new_child_bc bc _
    (fun b => ensures_bind_last fun _ => ensures_bind_last fun _ => ensures_bind_last fun _ =>
      ensures_bind_last fun _ => ensures_bind_last fun _ => ?_) s s1 c hnone h
  split
  · exact ensures_bind_last fun _ => ensures_bind_last fun _ => ensures_bind_last fun _ =>
      ensures_new_set_parent_child_bc _ _
  · exact ensures_new_set_parent_child_bc _ _

theorem adapt_problem_new_child (ext : External) (problem refined_mesh : Nat) (s s1 : State)
    (c : Nat) (hnone : child_of s.problems problem = none)
    (h : adapt_problem ext problem refined_mesh s = (.ok c, s1)) :
    IsChildObject s1.problems problem c := by
  unfold adapt_problem at h
  exact new_child_problem problem _
    (fun _ => ensures_bind_last fun _ => ensures_bind_last fun _ => ensures_bind_last fun _ =>
      ensures_bind_last fun _ => ensures_bind_last fun _ => ensures_bind_last fun _ =>
      ensures_bind_last fun _ => ensures_bind_last fun _ => ensures_bind_last fun _ =>
      ensures_new_set_parent_child_problem _ _) s s1 c hnone h

theorem adapt_ec_new_child (ext : External) (ec refined_mesh : Nat) (s s1 : State)
    (c : Nat) (hnone : child_of s.ecs ec = none)
    (h : adapt_ec ext ec refined_mesh s = (.ok c, s1)) :
    IsChildObject s1.ecs ec c := by
  unfold adapt_ec at h
  exact new_child_ec ec _
    (fun _ => ensures_bind_last fun _ => ensures_bind_last fun _ => ensures_bind_last fun _ =>
      ensures_bind_last fun _ => ensures_bind_last fun _ => ensures_bind_last fun _ =>
      ensures_bind_last fun _ => ensures_bind_last fun _ => ensures_bind_last fun _ =>
      ensures_bind_last fun _ => ensures_bind_last fun _ => ensures_bind_last fun _ =>
      ensures_bind_last fun _ => ensures_bind_last fun _ => ensures_bind_last fun _ =>
      ensures_bind_last fun _ => ensures_new_set_parent_child_ec _ _) s s1 c hnone h

/-- The part of the two entry points for a function space that take no
refined mesh that follows the refinement of the mesh. -/
theorem space_after_mesh_new_child (ext : External) (space : Nat) (mesh : Nat) (sa s1 : State)
    (c : Nat) (hnone : child_of sa.spaces space = none)
    (hrun : (get_mesh mesh >>= fun m => lift (required m.child) >>= fun refined_mesh =>
      adapt_space ext space refined_mesh >>= fun _child => get_space space >>= fun sp1 =>
      lift (required sp1.child)) sa = (.ok c, s1)) :
    IsChildObject s1.spaces space c := by
  obtain ⟨m, sb, h1, k1⟩ := Adapt.bind_eq_ok _ _ _ _ _ hrun
  obtain ⟨hsb, _⟩ := get_mesh_eq_ok _ sa sb m h1
  obtain ⟨rm, sc, h2, k2⟩ := Adapt.bind_eq_ok _ _ _ _ _ k1
  obtain ⟨hsc, _⟩ := required_child_eq_ok m sb sc rm h2
  obtain ⟨c1, sd, h3, k3⟩ := Adapt.bind_eq_ok _ _ _ _ _ k2
  rw [hsc, hsb] at h3
  have hobj := adapt_space_new_child ext space rm sa sd c1 hnone h3
  have hlink := adapt_space_links ext space rm sa sd c1 h3
  obtain ⟨sp1, se, h4, k4⟩ := Adapt.bind_eq_ok _ _ _ _ _ k3
  obtain ⟨hse, hsp1⟩ := get_space_eq_ok _ sd se sp1 h4
  obtain ⟨hs1, hc⟩ := required_child_eq_ok sp1 se s1 c k4
  have hcc : c1 = c := by
    have : child_of sd.spaces space = some c := by simp [child_of, hsp1, hc]
    rw [hlink] at this
    exact Option.some.inj this
  rw [hs1, hse, ← hcc]
  exact hobj

theorem adapt_space_uniform_new_child (ext : External) (space : Nat) (s s1 : State) (c : Nat)
    (hnone : child_of s.spaces space = none)
    (h : adapt_space_uniform ext space s = (.ok c, s1)) : IsChildObject s1.spaces space c := by
  unfold adapt_space_uniform at h
  obtain ⟨sp, s0, h1, k1⟩ := Adapt.bind_eq_ok _ _ _ _ _ h
  obtain ⟨hs0, _⟩ := get_space_eq_ok _ s s0 sp h1
  obtain ⟨c0, sa, h2, k2⟩ := Adapt.bind_eq_ok _ _ _ _ _ k1
  rw [hs0] at h2
  have hsame : sa.spaces = s.spaces :=
    (sound_run (sound_adapt_mesh ext _) h2).touches .space (by decide)
  exact space_after_mesh_new_child ext space _ sa s1 c (by rw [hsame]; exact hnone) k2

theorem adapt_space_markers_new_child (ext : External) (space : Nat) (cell_markers : List Bool)
    (s s1 : State) (c : Nat) (hnone : child_of s.spaces space = none)
    (h : adapt_space_markers ext space cell_markers s = (.ok c, s1)) :
    IsChildObject s1.spaces space c := by
  unfold adapt_space_markers at h
  obtain ⟨sp, s0, h1, k1⟩ := Adapt.bind_eq_ok _ _ _ _ _ h
  obtain ⟨hs0, _⟩ := get_space_eq_ok _ s s0 sp h1
  obtain ⟨c0, sa, h2, k2⟩ := Adapt.bind_eq_ok _ _ _ _ _ k1
  rw [hs0] at h2
  have hsame : sa.spaces = s.spaces :=
    (sound_run (sound_adapt_mesh_markers ext _ _) h2).touches .space (by decide)
  exact space_after_mesh_new_child ext space _ sa s1 c (by rw [hsame]; exact hnone) k2

/-- A call on an entity without a child that returns `c` has constructed `c`
with the entity as its parent. -/
theorem Call.run_new_child (ext : External) (call : Call) (s s1 : State) (c : Nat)
    (hnone : s.child call.kind call.entity = none) (h : call.run ext s = (.ok c, s1)) :
    s1.is_child_object call.kind call.entity c := by
  cases call with
  | mesh x => exact adapt_mesh_new_child ext x s s1 c hnone h
  | mesh_markers x cm => exact adapt_mesh_markers_new_child ext x cm s s1 c hnone h
  | space_uniform x => exact adapt_space_uniform_new_child ext x s s1 c hnone h
  | space_markers x cm => exact adapt_space_markers_new_child ext x cm s s1 c hnone h
  | space x rm => exact adapt_space_new_child ext x rm s s1 c hnone h
  | function x rm => exact adapt_function_new_child ext x rm s s1 c hnone h
  | form x rm => exact adapt_form_new_child ext x rm s s1 c hnone h
  | problem x rm => exact adapt_problem_new_child ext x rm s s1 c hnone h
  | bc x rm S => exact adapt_bc_new_child ext x rm S s s1 c hnone h
  | ec x rm => exact adapt_ec_new_child ext x rm s s1 c hnone h
  | mesh_function x rm => exact adapt_mesh_function_new_child x rm s s1 c hnone h

/-- Every call of an entry point is a refinement of the state: no arena
loses an object, no object changes its content or its parent, and no child
link that was set changes. -/
theorem Call.run_grows (ext : External) (call : Call) (s : State) (k : Kind) :
    GrowsAt k s (call.run ext s).2 := by
  cases call with
  | mesh x => exact (sound_adapt_mesh ext x s).grows k
  | mesh_markers x cm => exact (sound_adapt_mesh_markers ext x cm s).grows k
  | space_uniform x => exact (sound_adapt_space_uniform ext x s).grows k
  | space_markers x cm => exact (sound_adapt_space_markers ext x cm s).grows k
  | space x rm => exact (sound_adapt_space ext x rm s).grows k
  | function x rm => exact (sound_adapt_function ext x rm s).grows k
  | form x rm => exact (sound_adapt_form ext x rm s).grows k
  | problem x rm => exact (sound_adapt_problem ext x rm s).grows k
  | bc x rm S => exact (sound_adapt_bc ext x rm S s).grows k
  | ec x rm => exact (sound_adapt_ec ext x rm s).grows k
  | mesh_function x rm => exact (sound_adapt_mesh_function x rm s).grows k

/-- The marker remapper only appends to its output list. -/
theorem adapt_markers_appends (acc : List (Nat × Nat)) (refined_mesh : Mesh)
    (markers : List (Nat × Nat)) (mesh : Mesh) :
    ∃ l, (adapt_markers acc refined_mesh markers mesh).2 = acc ++ l := by
  unfold adapt_markers
  split
  · rename_i pc pf _ _
    cases build_children refined_mesh mesh pc pf (List.range refined_mesh.num_facets)
      (fun _ => []) with
    | error e => exact ⟨[], by simp⟩
    | ok t => exact ⟨_, expand_markers_eq t markers acc⟩
  · exact ⟨[], by simp⟩

theorem remap_markers_state (refined_mesh : Mesh) (markers : List (Nat × Nat)) (mesh : Mesh)
    (s : State) : (remap_markers refined_mesh markers mesh s).2 = s := by
  unfold remap_markers
  rcases adapt_markers [] refined_mesh markers mesh with ⟨e | u, l⟩ <;> rfl

/-- **C12** (no in-place mutation). Let a call of a refinement entry point
return the child `c`. Then every object of the state before the call is
still there with the same content and the same parent, and a child link that
was set is the same: the only changes are new objects and child links set on
objects that had none. The refined entity has `c` as its child, and when it
had no child before the call, `c` is an object whose parent is the refined
entity. For the mesh-function refiner in particular, the meshes are what they
were and the coarse mesh function has the same values, size, dimension, mesh
and parent as before. The marker remapper, as a step of a refiner, leaves the
whole state as it is, the meshes and the coarse markers included, and only
appends to its output list. -/
theorem refinement_only_links (ext : External) (call : Call) (s s1 : State) (c : Nat)
    (hrun : call.run ext s = (.ok c, s1)) :
    (∀ k, GrowsAt k s s1) ∧
    s1.child call.kind call.entity = some c ∧
    (s.child call.kind call.entity = none → s1.is_child_object call.kind call.entity c) ∧
    (∀ (mesh_function refined_mesh : Nat) (f : Hierarchical MeshFunction),
      call = Call.mesh_function mesh_function refined_mesh →
      s.mesh_functions[mesh_function]? = some f →
      s1.meshes = s.meshes ∧
      ∃ f1 : Hierarchical MeshFunction, s1.mesh_functions[mesh_function]? = some f1 ∧
        f1.val.values = f.val.values ∧ f1.val.values.length = f.val.values.length ∧
        f1.val.dim = f.val.dim ∧ f1.val.mesh = f.val.mesh ∧ f1.parent = f.parent) ∧
    (∀ (refined_mesh mesh : Mesh) (markers : List (Nat × Nat)) (st : State),
      (remap_markers refined_mesh markers mesh st).2 = st) ∧
    (∀ (refined_markers : List (Nat × Nat)) (refined_mesh mesh : Mesh)
      (markers : List (Nat × Nat)),
      ∃ l, (adapt_markers refined_markers refined_mesh markers mesh).2 = refined_markers ++ l) := by
  have hgrows : ∀ k, GrowsAt k s s1 := by
    intro k
    have := Call.run_grows ext call s k
    rw [hrun] at this
    exact this
  refine ⟨hgrows, Call.run_links ext call s s1 c hrun,
    fun hnone => Call.run_new_child ext call s s1 c hnone hrun, ?_,
    fun refined_mesh mesh markers st => remap_markers_state refined_mesh markers mesh st,
    fun acc refined_mesh mesh markers => adapt_markers_appends acc refined_mesh markers mesh⟩
  intro mf rm f hcall hf
  subst hcall
  have hsound := sound_run (sound_adapt_mesh_function mf rm) hrun
  refine ⟨hsound.touches .mesh (by decide), ?_⟩
  obtain ⟨f1, hf1, hval, hparent, _⟩ := hsound.grows .mesh_function mf f hf
  exact ⟨f1, hf1, by rw [hval], by rw [hval], by rw [hval], by rw [hval], hparent⟩

/-- Witness of C12: the cell function of Scenario B refined against the
refined mesh. -/
theorem refinement_only_links_witness :
    child_of (adapt_mesh_function 0 1 scenario_B).2.mesh_functions 0 = some 1 ∧
    IsChildObject (adapt_mesh_function 0 1 scenario_B).2.mesh_functions 0 1 ∧
    (adapt_mesh_function 0 1 scenario_B).2.meshes = scenario_B.meshes ∧
    ∃ f1 : Hierarchical MeshFunction,
      (adapt_mesh_function 0 1 scenario_B).2.mesh_functions[0]? = some f1 ∧
        f1.val.values = [0, 1] ∧ f1.val.values.length = 2 ∧
        f1.val.dim = 2 ∧ f1.val.mesh = 0 ∧ f1.parent = none :=
  have h := refinement_only_links example_external (Call.mesh_function 0 1) scenario_B
    (adapt_mesh_function 0 1 scenario_B).2 1 rfl
  ⟨h.2.1, h.2.2.1 rfl, (h.2.2.2.1 0 1 ⟨⟨0, 2, [0, 1]⟩, none, none⟩ rfl rfl).1,
    (h.2.2.2.1 0 1 ⟨⟨0, 2, [0, 1]⟩, none, none⟩ rfl rfl).2⟩

end Dolfin
